import Mathlib

/-!
# Shapes: a verification development for `search/search.go`

The Go package `search` scans a rectangular occupancy grid whose edges wrap,
collects the groups of adjacent occupied cells by a recursive flood fill,
keeps one exemplar per class of shapes with the same direction signature and
renders the exemplars as text.

Go `int` is modelled by `Int` (no overflow), a slice by `List`, a run-time
panic by the `Except` error value `Fault`.  The recursion of `findShape`
is driven by a fuel counter; `Fault.outOfFuel` is the only value that does
not correspond to a Go behaviour and the theorems show it is not produced
once the fuel exceeds the number of cells.
-/

namespace Shapes

/-! ## Data model -/

/-- Ways in which the Go code aborts (`panic`), plus fuel exhaustion of the model. -/
inductive Fault where
  | doubleVisit
  | samePoint
  | indexOutOfRange
  | divideByZero
  | negativeLen
  | outOfFuel
  deriving DecidableEq, Repr

deriving instance DecidableEq for Except

/-- Go: `type direction int` with the constants `up, down, left, right`. -/
inductive direction where
  | up
  | down
  | left
  | right
  deriving DecidableEq, Repr

/-- Go: `set int = 1`. -/
def set : Int := 1

/-- Go: `unset int = 0`. -/
def unset : Int := 0

/-- Go: `visited int = 2`. -/
def visited : Int := 2

/-- Go: `leftPadding = "    "`. -/
def leftPadding : String := "    "

/-- Go: `type point struct { x, y int }`. -/
structure point where
  x : Int
  y : Int
  deriving DecidableEq, Repr

/-- Go: `type shape struct { points []point }`. -/
structure shape where
  points : List point
  deriving DecidableEq, Repr

/-- Go: `type state struct { grid [][]int; shapes []shape; rows, cols int }`. -/
structure state where
  grid : List (List Int)
  shapes : List shape
  rows : Int
  cols : Int
  deriving DecidableEq, Repr

/-! ## Coordinates -/

/-- Go: `func wrap(i, dim int) int`.  Go's `%` truncates towards zero, which is
`Int.tmod`, and aborts on a zero divisor. -/
def wrap (i dim : Int) : Except Fault Int :=
  if dim = 0 then .error .divideByZero
  else if i ≥ 0 then .ok (Int.tmod i dim)
  else .ok (Int.tmod (dim + Int.tmod i dim) dim)

/-- Go: `func getPoint(x, y int) point`. -/
def getPoint (x y : Int) : point := ⟨x, y⟩

/-- Go: `func (p point) transform(rows, cols int) point`. -/
def point.transform (p : point) (rows cols : Int) : Except Fault point := do
  let x ← wrap p.x cols
  let y ← wrap p.y rows
  pure ⟨x, y⟩

/-- Go: `func nextPoint(curr point, d direction) point`. -/
def nextPoint (curr : point) : direction → point
  | .up => getPoint curr.x (curr.y - 1)
  | .down => getPoint curr.x (curr.y + 1)
  | .left => getPoint (curr.x - 1) curr.y
  | .right => getPoint (curr.x + 1) curr.y

/-- Go: `func getDirection(b, e point) direction`; the final `panic` is `Fault.samePoint`. -/
def getDirection (b e : point) : Except Fault direction :=
  if b.y > e.y then .ok .up
  else if b.y < e.y then .ok .down
  else if b.x > e.x then .ok .left
  else if b.x < e.x then .ok .right
  else .error .samePoint

/-! ## Slices -/

/-- Go slice read `l[i]` with a signed index: out of range aborts. -/
def index {α : Type} (l : List α) (i : Int) : Except Fault α :=
  if i < 0 then .error .indexOutOfRange
  else match l[i.toNat]? with
    | some a => .ok a
    | none => .error .indexOutOfRange

/-- Go slice write `l[i] = v` with a signed index: out of range aborts. -/
def assign {α : Type} (l : List α) (i : Int) (v : α) : Except Fault (List α) :=
  if i < 0 then .error .indexOutOfRange
  else if i.toNat < l.length then .ok (l.set i.toNat v)
  else .error .indexOutOfRange

/-! ## Cell state -/

/-- Go: `func (s state) visited(p point) bool`. -/
def state.visited (s : state) (p : point) : Except Fault Bool := do
  let t ← p.transform s.rows s.cols
  let row ← index s.grid t.y
  let c ← index row t.x
  if c = Shapes.visited then pure true else pure false

/-- Go: `func (s *state) visit(p point) int`; returns the new state and the old cell. -/
def state.visit (s : state) (p : point) : Except Fault (state × Int) := do
  let t ← p.transform s.rows s.cols
  let row ← index s.grid t.y
  let old ← index row t.x
  if old = Shapes.visited then throw Fault.doubleVisit
  let row' ← assign row t.x Shapes.visited
  let grid' ← assign s.grid t.y row'
  pure ({ s with grid := grid' }, old)

/-! ## Congruence of shapes -/

/-- Go: the `for i := 0; i < len(s.points)-1; i++` loop of `shape.match`, at index `i`
with `n` iterations left. -/
def shape.matchLoop (s v : shape) : Nat → Nat → Except Fault Bool
  | _, 0 => pure true
  | i, n + 1 => do
    let a ← index s.points (i : Int)
    let b ← index s.points ((i : Int) + 1)
    let d1 ← getDirection a b
    let c ← index v.points (i : Int)
    let d ← index v.points ((i : Int) + 1)
    let d2 ← getDirection c d
    if d1 ≠ d2 then pure false
    else shape.matchLoop s v (i + 1) n

/-- Go: `func (s shape) match(v shape) bool` (`match` is reserved in Lean). -/
def shape.matchShape (s v : shape) : Except Fault Bool :=
  if s.points.length ≠ v.points.length then pure false
  else if v.points.length = 1 then pure true
  else shape.matchLoop s v 0 (s.points.length - 1)

/-- Go: the `for _, comp := range s.shapes` loop of `state.hasShape`. -/
def hasShapeLoop (shp : shape) : List shape → Except Fault Bool
  | [] => pure false
  | comp :: rest => do
    let m ← comp.matchShape shp
    if m then pure true else hasShapeLoop shp rest

/-- Go: `func (s state) hasShape(shp shape) bool`. -/
def state.hasShape (s : state) (shp : shape) : Except Fault Bool :=
  hasShapeLoop shp s.shapes

/-! ## Discovery -/

/-- Go: the `for _, dir := range []direction{...}` loop of `findShape`, the recursive
call being `rec`; the accumulator is `result.points`. -/
def exploreDirs (rec : state → point → Except Fault (state × Option shape)) (p : point) :
    List direction → state → List point → Except Fault (state × List point)
  | [], s, acc => pure (s, acc)
  | dir :: dirs, s, acc => do
    let (s', children) ← rec s (nextPoint p dir)
    match children with
    | some c => exploreDirs rec p dirs s' (acc ++ c.points)
    | none => exploreDirs rec p dirs s' acc

/-- Go: `func (s *state) findShape(p point) *shape`, with a bound on the recursion depth. -/
def state.findShape : Nat → state → point → Except Fault (state × Option shape)
  | 0, _, _ => .error .outOfFuel
  | fuel + 1, s, p => do
    let seen ← s.visited p
    if !seen then
      let (s1, old) ← s.visit p
      if old = set then
        let (s2, pts) ← exploreDirs (state.findShape fuel) p
          [.up, .right, .down, .left] s1 [p]
        pure (s2, some ⟨pts⟩)
      else pure (s1, none)
    else pure (s, none)

/-- Go: the body of the inner loop of `findShapes` at the cell `(col, row)`. -/
def state.scanCell (fuel : Nat) (s : state) (row col : Nat) : Except Fault state := do
  let (s', found) ← s.findShape fuel (getPoint (col : Int) (row : Int))
  match found with
  | some shp =>
    let known ← s'.hasShape shp
    if !known then pure { s' with shapes := s'.shapes ++ [shp] }
    else pure s'
  | none => pure s'

/-- Go: `func (s *state) findShapes()`. -/
def state.findShapes (fuel : Nat) (s : state) : Except Fault state :=
  (List.range s.rows.toNat).foldlM
    (fun st row => (List.range s.cols.toNat).foldlM (fun st' col => st'.scanCell fuel row col) st) s

/-- Go: `type stateError string`. -/
abbrev stateError := String

/-- Go: `const errorNoRows`. -/
def errorNoRows : stateError := "no rows in grid"

/-- Go: `const errorNoCols`. -/
def errorNoCols : stateError := "no columns in grid"

/-- Go: `func New(g [][]int) (*state, error)`; the inner `Except` is the returned
`error`, the outer one an abort.  The recursion bound is the number of cells plus one. -/
def New (g : List (List Int)) : Except Fault (Except stateError state) :=
  let rows : Int := g.length
  if rows = 0 then pure (.error errorNoRows)
  else do
    let row0 ← index g 0
    let cols : Int := row0.length
    if cols = 0 then pure (.error errorNoCols)
    else do
      let st : state := { grid := g, shapes := [], rows := rows, cols := cols }
      let st' ← st.findShapes (g.length * row0.length + 1)
      pure (.ok st')

/-! ## Rendering -/

/-- Go: `func (p point) index(rows, cols int) int`. -/
def point.index (p : point) (rows cols : Int) : Except Fault Int := do
  let pp ← p.transform rows cols
  pure (pp.y * cols + pp.x)

/-- Go: the body of the loop of `shapeDimensions`, on `(lx, ux, ly, uy)`. -/
def dimStep (acc : Int × Int × Int × Int) (p : point) : Int × Int × Int × Int :=
  let lx := if p.x < acc.1 then p.x else acc.1
  let ux := if p.x > acc.2.1 then p.x else acc.2.1
  let ly := if p.y < acc.2.2.1 then p.y else acc.2.2.1
  let uy := if p.y > acc.2.2.2 then p.y else acc.2.2.2
  (lx, ux, ly, uy)

/-- Go: `func shapeDimensions(ps []point, rows, cols int) (lx, ux, ly, uy int)`. -/
def shapeDimensions (ps : List point) (rows cols : Int) : Int × Int × Int × Int :=
  ps.foldl dimStep (cols, 0, rows, 0)

/-- Go: `func transform(ps []point, rows, cols int) ([]point, int, int)`. -/
def transform (ps : List point) (rows cols : Int) : Except Fault (List point × Int × Int) := do
  let transformed ← ps.mapM (fun p => p.transform rows cols)
  let (lowX, highX, lowY, highY) := shapeDimensions transformed rows cols
  pure (transformed.map (fun p => ⟨p.x - lowX, p.y - lowY⟩), highY - lowY + 1, highX - lowX + 1)

/-- Go: `sort.Sort(&byIndex)` with `sorter.Less` comparing `point.index`.  `sort.Sort`
returns at once on fewer than two elements; otherwise `Less` is evaluated, which
computes the index of the points it compares and aborts on a zero dimension whatever
the point.  The points `shape.print` sorts lie inside the box, where equal indices
mean equal points, so the sorted slice does not depend on the sorting algorithm. -/
def sortByIndex (ps : List point) (rows cols : Int) : Except Fault (List point) :=
  if ps.length ≤ 1 then pure ps
  else do
    let keyed ← ps.mapM (fun p => do
      let k ← p.index rows cols
      pure (k, p))
    pure ((keyed.insertionSort (fun a b => a.1 ≤ b.1)).map Prod.snd)

/-- Go: `func (r rowState) print(w io.Writer)`; the value is the text written. -/
def rowState.print (r : List Int) : String :=
  leftPadding ++ String.join (r.map (fun p =>
    if p = set then "X" else if p = unset then " " else "")) ++ "\n"

/-- Go: `make(rowState, n)`. -/
def makeRow (n : Int) : Except Fault (List Int) :=
  if n < 0 then .error .negativeLen else pure (List.replicate n.toNat 0)

/-- Go: the loop `for _, p := range byIndex.points` filling one row buffer. -/
def fillRow (row : Int) : List point → List Int → Except Fault (List Int)
  | [], buf => pure buf
  | p :: ps, buf =>
    if p.y = row then do
      let buf' ← assign buf p.x set
      fillRow row ps buf'
    else fillRow row ps buf

/-- Go: `strings.Repeat("-", n)`, which aborts on a negative count. -/
def repeatDash (n : Int) : Except Fault String :=
  if n < 0 then .error .negativeLen else pure (String.mk (List.replicate n.toNat '-'))

/-- Go: the body of the loop `for row := 0; row < newRows; row++` of `shape.print`,
`out` being the text written so far. -/
def printRow (newCols : Int) (sorted : List point) (out : String) (row : Nat) :
    Except Fault String := do
  let rowPoints ← makeRow newCols
  let rowPoints' ← fillRow (row : Int) sorted rowPoints
  pure (out ++ rowState.print rowPoints')

/-- Go: `func (s shape) print(w io.Writer, rows, cols int)`; the value is the text written. -/
def shape.print (s : shape) (rows cols : Int) : Except Fault String := do
  let (transformedPoints, newRows, newCols) ← transform s.points rows cols
  let sorted ← sortByIndex transformedPoints newRows newCols
  let body ← (List.range newRows.toNat).foldlM (printRow newCols sorted) ""
  let dashes ← repeatDash (newCols + (leftPadding.length : Int))
  pure (body ++ dashes ++ "\n")

/-- Go: `func (s state) Print(w io.Writer)`; the value is the text written. -/
def state.Print (s : state) : Except Fault String :=
  s.shapes.foldlM (fun (out : String) shp => do
    let block ← shp.print s.rows s.cols
    pure (out ++ block)) ""

/-! ## Specification-side notions -/

/-- The cell of the grid in row `r`, column `c`, if there is one. -/
def state.cellAt (s : state) (r c : Nat) : Option Int :=
  (s.grid[r]?).bind (fun row => row[c]?)

/-- A grid of `rows × cols` cells with both dimensions positive, as `New` builds it. -/
def state.rectangular (s : state) : Prop :=
  0 < s.rows ∧ 0 < s.cols ∧ (s.grid.length : Int) = s.rows ∧
    ∀ row ∈ s.grid, (row.length : Int) = s.cols

/-- The row index of the cell a point stands for. -/
def state.normRow (s : state) (p : point) : Nat := (p.y % s.rows).toNat

/-- The column index of the cell a point stands for. -/
def state.normCol (s : state) (p : point) : Nat := (p.x % s.cols).toNat

/-- The state whose cell in row `r`, column `c` holds `visited`, all else as in `s`. -/
def state.mark (s : state) (r c : Nat) : state :=
  match s.grid[r]? with
  | some row => { s with grid := s.grid.set r (row.set c Shapes.visited) }
  | none => s

instance (s : state) : Decidable s.rectangular :=
  inferInstanceAs (Decidable (0 < s.rows ∧ 0 < s.cols ∧ (s.grid.length : Int) = s.rows ∧
    ∀ row ∈ s.grid, (row.length : Int) = s.cols))

/-- The point wrapped into the grid: what `point.transform` returns on positive
dimensions. -/
def state.norm (s : state) (p : point) : point := ⟨p.x % s.cols, p.y % s.rows⟩

/-- The point names a cell of the grid. -/
def state.inGrid (s : state) (c : point) : Prop :=
  0 ≤ c.x ∧ c.x < s.cols ∧ 0 ≤ c.y ∧ c.y < s.rows

/-- The point names a cell of the grid that holds `set`. -/
def state.occupied (s : state) (c : point) : Prop :=
  s.inGrid c ∧ s.cellAt c.y.toNat c.x.toNat = some set

instance (s : state) (c : point) : Decidable (s.occupied c) :=
  inferInstanceAs (Decidable ((0 ≤ c.x ∧ c.x < s.cols ∧ 0 ≤ c.y ∧ c.y < s.rows) ∧
    s.cellAt c.y.toNat c.x.toNat = some set))

/-- Toroidal 4-adjacency of two cells of a `rows × cols` grid: same column and rows
that follow each other, or same row and columns that follow each other, the last
row (column) being followed by the first. -/
def adjacent (rows cols : Int) (a b : point) : Prop :=
  (a.x = b.x ∧ (b.y = (a.y + 1) % rows ∨ a.y = (b.y + 1) % rows)) ∨
  (a.y = b.y ∧ (b.x = (a.x + 1) % cols ∨ a.x = (b.x + 1) % cols))

/-- The cell `b` can be reached from the occupied cell `a` by steps between adjacent
cells, every cell on the way being occupied. -/
def state.reachable (s : state) (a b : point) : Prop :=
  s.occupied a ∧
    Relation.ReflTransGen (fun u v => adjacent s.rows s.cols u v ∧ s.occupied v) a b

/-- The number of cells of the grid that are not visited. -/
def state.unvisited (s : state) : Nat :=
  ((Finset.range s.rows.toNat ×ˢ Finset.range s.cols.toNat).filter
    (fun rc => s.cellAt rc.1 rc.2 ≠ some Shapes.visited)).card

/-- What a call may change: the grid keeps its dimensions and its registry, and a cell
either keeps its value or becomes visited. -/
structure Frame (s s' : state) : Prop where
  rect : s'.rectangular
  rows : s'.rows = s.rows
  cols : s'.cols = s.cols
  shapes : s'.shapes = s.shapes
  mono : ∀ r c, s'.cellAt r c = s.cellAt r c ∨ s'.cellAt r c = some visited

/-- The points of the shape a call of `findShape` returned, none if it returned `nil`. -/
def resultPoints : Option shape → List point
  | some shp => shp.points
  | none => []

/-- What one call `findShape p` achieves, from the state `s` to the state `s'` with
result `res`; the cells of the result are its points wrapped into the grid. -/
structure Post (s : state) (p : point) (s' : state) (res : Option shape) : Prop where
  frame : Frame s s'
  nodup : ((resultPoints res).map s.norm).Nodup
  sound : ∀ c ∈ (resultPoints res).map s.norm, s.reachable (s.norm p) c
  closed : ∀ a ∈ (resultPoints res).map s.norm, ∀ b, adjacent s.rows s.cols a b →
    s.occupied b → b ∈ (resultPoints res).map s.norm
  marked : ∀ c ∈ (resultPoints res).map s.norm, s'.cellAt c.y.toNat c.x.toNat = some visited
  kept : ∀ c, s.occupied c → c ∉ (resultPoints res).map s.norm → s'.occupied c
  produces : s.occupied (s.norm p) → ∃ shp, res = some shp
  first : ∀ shp, res = some shp → s.occupied (s.norm p) ∧ ∃ rest, shp.points = p :: rest
  seedMarked : s'.cellAt (s.normRow p) (s.normCol p) = some visited

/-- The invariant of the loop over the directions in `findShape p`: `s0` is the state
at the call, `done` the directions already explored, `s` the current state and `acc`
the points collected so far. -/
structure LoopInv (s0 : state) (p : point) (done : List direction) (s : state)
    (acc : List point) : Prop where
  frame : Frame s0 s
  lt : s.unvisited < s0.unvisited
  nodup : (acc.map s0.norm).Nodup
  sound : ∀ c ∈ acc.map s0.norm, s0.reachable (s0.norm p) c
  closed : ∀ a ∈ acc.map s0.norm, a ≠ s0.norm p → ∀ b, adjacent s0.rows s0.cols a b →
    s0.occupied b → b ∈ acc.map s0.norm
  marked : ∀ c ∈ acc.map s0.norm, s.cellAt c.y.toNat c.x.toNat = some visited
  kept : ∀ c, s0.occupied c → c ∉ acc.map s0.norm → s.occupied c
  first : ∃ rest, acc = p :: rest
  explored : ∀ d ∈ done, s0.occupied (s0.norm (nextPoint p d)) →
    s0.norm (nextPoint p d) ∈ acc.map s0.norm

/-- No two consecutive points of the list are equal. -/
def stepsDistinct : List point → Prop
  | a :: b :: rest => a ≠ b ∧ stepsDistinct (b :: rest)
  | _ => True

/-- Deciding `stepsDistinct` by walking down the list. -/
def stepsDistinct.decide : (ps : List point) → Decidable (stepsDistinct ps)
  | [] => isTrue trivial
  | [_] => isTrue trivial
  | a :: b :: rest =>
    have := stepsDistinct.decide (b :: rest)
    inferInstanceAs (Decidable (a ≠ b ∧ stepsDistinct (b :: rest)))

instance (ps : List point) : Decidable (stepsDistinct ps) := stepsDistinct.decide ps

/-- Every stored shape has a point and no two equal consecutive points. -/
def registryOK (reg : List shape) : Prop :=
  ∀ shp ∈ reg, shp.points ≠ [] ∧ stepsDistinct shp.points

/-- No two different entries of the registry match, in either order. -/
def noTwoMatch (reg : List shape) : Prop :=
  reg.Pairwise (fun a b => a.matchShape b = .ok false ∧ b.matchShape a = .ok false)

/-- A grid as `New` accepts it and the scan needs it: at least one row, no empty row,
all rows as long as the first. -/
def rectangularGrid (g : List (List Int)) : Prop :=
  g ≠ [] ∧ ∀ row ∈ g, row ≠ [] ∧ row.length = (g.headD []).length

instance (g : List (List Int)) : Decidable (rectangularGrid g) :=
  inferInstanceAs (Decidable (g ≠ [] ∧ ∀ row ∈ g, row ≠ [] ∧ row.length = (g.headD []).length))

/-- The invariant of the scan of a `rows × cols` grid. -/
structure ScanInv (rows cols : Int) (s : state) : Prop where
  rect : s.rectangular
  rows : s.rows = rows
  cols : s.cols = cols
  regOK : registryOK s.shapes
  classes : noTwoMatch s.shapes

/-- The first grid of `TestIntegration`: only the centre is occupied. -/
def centreGrid : List (List Int) :=
  [[0, 0, 0], [0, 1, 0], [0, 0, 0]]

/-- The second grid of `TestIntegration`: two copies of one shape. -/
def twoCopiesGrid : List (List Int) :=
  [[0, 1, 1, 0, 0], [0, 1, 0, 0, 0], [0, 1, 0, 0, 0], [0, 0, 0, 0, 0],
   [0, 1, 1, 0, 0], [0, 1, 0, 0, 0], [0, 1, 0, 0, 0], [0, 0, 0, 0, 0]]

/-- The state built for the last grid of `TestIntegration`, before the scan: the shape
crosses the right edge. -/
def edgeState : state :=
  ⟨[[0, 0, 0, 1], [1, 1, 1, 1], [0, 0, 0, 1]], [], 3, 4⟩

/-- A state without an occupied or visited cell. -/
def emptyState : state :=
  ⟨[[0, 0, 0], [0, 0, 0]], [], 2, 3⟩

/-- A state with an occupied, an empty and a visited cell in each row. -/
def mixedState : state :=
  ⟨[[0, 1, 2], [2, 0, 1]], [], 2, 3⟩

/-- The shape moved by the offset `(dx, dy)`. -/
def shape.translate (s : shape) (dx dy : Int) : shape :=
  ⟨s.points.map (fun p => ⟨p.x + dx, p.y + dy⟩)⟩

/-- Every point of the list that has a point before it is one unit step (`nextPoint`)
away from some point before it. -/
def unitLinked (ps : List point) : Prop :=
  ∀ pre q post, ps = pre ++ q :: post → pre ≠ [] →
    ∃ e ∈ pre, ∃ d : direction, q = nextPoint e d

/-- The state built for the grid of one row `1 0 0 1`, before the scan. -/
def rowState14 : state :=
  ⟨[[1, 0, 0, 1]], [], 1, 4⟩

/-- From the spec: one text row of a rendered block, row `r` of a box whose corner is
`(lowX, lowY)`: the left margin, then for each of the `width` columns an `X` if some
wrapped point of the shape is `(lowX + c, lowY + r)` and a space otherwise, then a
line break. -/
def blockLine (cells : List point) (lowX lowY : Int) (width : Nat) (r : Nat) : String :=
  leftPadding ++ String.mk ((List.range width).map (fun (c : Nat) =>
    if (⟨lowX + (c : Int), lowY + (r : Int)⟩ : point) ∈ cells then 'X' else ' ')) ++ "\n"

/-- From the spec: the text of a rendered block: `height` text rows, then a separator
of `width` plus the margin length dashes and a line break. -/
def expectedBlock (cells : List point) (lowX lowY : Int) (height width : Nat) : String :=
  String.join ((List.range height).map (blockLine cells lowX lowY width)) ++
    String.mk (List.replicate (width + 4) '-') ++ "\n"

/-- The shape found in the last grid of `TestIntegration`, as `findShape` returns it. -/
def edgeShape : shape :=
  ⟨[⟨3, 0⟩, ⟨3, -1⟩, ⟨3, -2⟩, ⟨4, -2⟩, ⟨5, -2⟩, ⟨6, -2⟩]⟩

/-- The wrapped points of `edgeShape` in the grid of 3 rows and 4 columns. -/
def edgeCells : List point :=
  [⟨3, 0⟩, ⟨3, 2⟩, ⟨3, 1⟩, ⟨0, 1⟩, ⟨1, 1⟩, ⟨2, 1⟩]

/-- From the spec: the unwrapped extent of a shape along `x`, the greatest raw `x` minus
the least raw `x` plus one (zero for no point). -/
def rawExtentX : List point → Int
  | [] => 0
  | p :: rest =>
    rest.foldl (fun m q => max m q.x) p.x - rest.foldl (fun m q => min m q.x) p.x + 1

/-- The grid of one row `1 0 0 1`: its two occupied cells touch through the edge. -/
def rowGrid14 : List (List Int) :=
  [[1, 0, 0, 1]]

/-- Every cell of the grid that the scan reaches before the cell in row `r`, column `c`
is visited. -/
def state.visitedBefore (s : state) (r c : Nat) : Prop :=
  ∀ r' c', r' < s.rows.toNat → c' < s.cols.toNat → (r' < r ∨ (r' = r ∧ c' < c)) →
    s.cellAt r' c' = some Shapes.visited

/-- The state `New` builds from a grid before it starts the scan. -/
def initState (g : List (List Int)) : state :=
  ⟨g, [], (g.length : Int), ((g.headD []).length : Int)⟩

/-- The grid has the value `set` in row `r0`, column `c0` and nowhere else. -/
def onlyOccupied (g : List (List Int)) (r0 c0 : Nat) : Prop :=
  (g[r0]?).bind (fun row => row[c0]?) = some set ∧
  ∀ r, r < g.length → ∀ c, c < (g.headD []).length → (r, c) ≠ (r0, c0) →
    (g[r]?).bind (fun row => row[c]?) ≠ some set

instance (g : List (List Int)) (r0 c0 : Nat) : Decidable (onlyOccupied g r0 c0) :=
  inferInstanceAs (Decidable ((g[r0]?).bind (fun row => row[c0]?) = some set ∧
    ∀ r, r < g.length → ∀ c, c < (g.headD []).length → (r, c) ≠ (r0, c0) →
      (g[r]?).bind (fun row => row[c]?) ≠ some set))

/-- The third grid of `TestIntegration`: a ring in rows 0 to 2, row 3 blank, two cells
in row 4. -/
def blankRowGrid : List (List Int) :=
  [[0, 1, 1, 1, 0], [0, 1, 0, 1, 0], [0, 1, 1, 1, 0], [0, 0, 0, 0, 0], [0, 1, 1, 0, 0]]

/-- The one shape the scan finds in `blankRowGrid`. -/
def blankRowShape : shape :=
  ⟨[⟨1, 0⟩, ⟨1, -1⟩, ⟨2, -1⟩, ⟨2, 0⟩, ⟨3, 0⟩, ⟨3, 1⟩, ⟨3, 2⟩, ⟨2, 2⟩, ⟨1, 2⟩, ⟨1, 1⟩]⟩

/-- The number of cells of a grid that hold `set`. -/
def occupiedCount (g : List (List Int)) : Nat :=
  (g.map (fun row => row.count set)).sum

/-! ## The calls of `visit`, as a ghost log

The functions below are `exploreDirs`, `findShape`, `scanCell` and `findShapes` again,
unchanged but for one more result: the list of the points handed to `visit`, in the
order of the calls.  Dropping that list gives back the functions above. -/

/-- The loop of `exploreDirs`, with the log of the calls of `visit`. -/
def exploreDirsLog (rec : state → point → Except Fault (state × Option shape × List point))
    (p : point) :
    List direction → state → List point → List point →
      Except Fault (state × List point × List point)
  | [], s, acc, log => pure (s, acc, log)
  | dir :: dirs, s, acc, log => do
    let (s', children, l) ← rec s (nextPoint p dir)
    match children with
    | some c => exploreDirsLog rec p dirs s' (acc ++ c.points) (log ++ l)
    | none => exploreDirsLog rec p dirs s' acc (log ++ l)

/-- The function `findShape`, with the log of the calls of `visit`. -/
def state.findShapeLog : Nat → state → point →
    Except Fault (state × Option shape × List point)
  | 0, _, _ => .error .outOfFuel
  | fuel + 1, s, p => do
    let seen ← s.visited p
    if !seen then
      let (s1, old) ← s.visit p
      if old = set then
        let (s2, pts, log) ← exploreDirsLog (state.findShapeLog fuel) p
          [.up, .right, .down, .left] s1 [p] [p]
        pure (s2, some ⟨pts⟩, log)
      else pure (s1, none, [p])
    else pure (s, none, [])

/-- The function `scanCell`, with the log of the calls of `visit`. -/
def state.scanCellLog (fuel : Nat) (s : state) (row col : Nat) :
    Except Fault (state × List point) := do
  let (s', found, log) ← s.findShapeLog fuel (getPoint (col : Int) (row : Int))
  match found with
  | some shp =>
    let known ← s'.hasShape shp
    if !known then pure ({ s' with shapes := s'.shapes ++ [shp] }, log)
    else pure (s', log)
  | none => pure (s', log)

/-- The function `findShapes`, with the log of the calls of `visit`. -/
def state.findShapesLog (fuel : Nat) (s : state) : Except Fault (state × List point) :=
  (List.range s.rows.toNat).foldlM
    (fun acc row => (List.range s.cols.toNat).foldlM (fun acc' col => do
      let (st, l) ← acc'.1.scanCellLog fuel row col
      pure (st, acc'.2 ++ l)) acc) (s, [])

/-- What the log of one call of `findShape` satisfies: no cell is in it twice, each of
its cells was not visited before the call and is visited after it, and the number of
unvisited cells went down by at least its length. -/
structure LogPost (s s' : state) (log : List point) : Prop where
  nodup : (log.map s.norm).Nodup
  fresh : ∀ c ∈ log.map s.norm, s.cellAt c.y.toNat c.x.toNat ≠ some visited
  marked : ∀ c ∈ log.map s.norm, s'.cellAt c.y.toNat c.x.toNat = some visited
  count : s'.unvisited + log.length ≤ s.unvisited

/-- The point moved by the offset `(dx, dy)`. -/
def point.shift (p : point) (dx dy : Int) : point := ⟨p.x + dx, p.y + dy⟩

/-- The state `s` has the dimensions of `s0` and no occupied cell that `s0` has not:
a state reached from `s0` by calls that only mark cells. -/
structure Within (s0 s : state) : Prop where
  rect : s.rectangular
  rows : s.rows = s0.rows
  cols : s.cols = s0.cols
  occ : ∀ c, s.occupied c → s0.occupied c

/-- The cells `A` and their copies moved by `(dx, dy)` lie in the grid of `s0`, and
each of the two sets holds every occupied cell adjacent to one of its cells. -/
structure Copies (s0 : state) (A : List point) (dx dy : Int) : Prop where
  rect : s0.rectangular
  inA : ∀ a ∈ A, s0.inGrid a
  inB : ∀ a ∈ A, s0.inGrid (a.shift dx dy)
  closedA : ∀ a ∈ A, ∀ b, adjacent s0.rows s0.cols a b → s0.occupied b → b ∈ A
  closedB : ∀ a ∈ A, ∀ b, adjacent s0.rows s0.cols (a.shift dx dy) b → s0.occupied b →
    ∃ a' ∈ A, b = a'.shift dx dy

/-- The occupied cells of the grid `g` form exactly two toroidal components: the cells
`A`, which are the cells reachable from `a0`, the first cell of `A` in the order of the
scan, and their copies moved by `(dx, dy)`, which lie in the grid, are the cells
reachable from the moved `a0`, and come later in the scan. -/
structure TwoCopies (g : List (List Int)) (a0 : point) (A : List point) (dx dy : Int) :
    Prop where
  seed : a0 ∈ A
  compA : ∀ c, (initState g).reachable a0 c ↔ c ∈ A
  compB : ∀ c, (initState g).reachable (a0.shift dx dy) c ↔
    c ∈ A.map (fun a => a.shift dx dy)
  cover : ∀ c, (initState g).occupied c → c ∈ A ∨ c ∈ A.map (fun a => a.shift dx dy)
  apart : ∀ c ∈ A, c ∉ A.map (fun a => a.shift dx dy)
  first : ∀ a ∈ A, a0.y < a.y ∨ (a0.y = a.y ∧ a0.x ≤ a.x)
  later : 0 < dy ∨ (dy = 0 ∧ 0 < dx)

/-- The invariant of the scan of a grid made of two copies of one shape: either nothing
is found yet and both copies are occupied; or the first copy is found, as the shape
`shpA` returned by `findShape` at `a0` in a state `sA` where the first copy was
occupied, and the second copy is occupied; or one shape is stored and no cell is
occupied. -/
def copiesInv (g : List (List Int)) (a0 : point) (A : List point) (dx dy : Int) (fuel : Nat)
    (s : state) : Prop :=
  Within (initState g) s ∧
  ((s.shapes = [] ∧ ∀ c, s.occupied c ↔ (c ∈ A ∨ c ∈ A.map (fun a => a.shift dx dy))) ∨
   (∃ shpA sA sA', s.shapes = [shpA] ∧
      (∀ c, c ∈ shpA.points.map (initState g).norm ↔ c ∈ A) ∧
      (∀ c, s.occupied c ↔ c ∈ A.map (fun a => a.shift dx dy)) ∧
      Within (initState g) sA ∧ (∀ a ∈ A, sA.occupied a) ∧
      sA.findShape fuel a0 = .ok (sA', some shpA)) ∨
   (∃ shpA, s.shapes = [shpA] ∧
      (∀ c, c ∈ shpA.points.map (initState g).norm ↔ c ∈ A) ∧ ∀ c, ¬ s.occupied c))

/-- The cells of the first of the two copies in `twoCopiesGrid`, in the order in which
`findShape` collects them from the cell in row 0, column 1. -/
def twoCopiesCells : List point :=
  [⟨1, 0⟩, ⟨2, 0⟩, ⟨1, 1⟩, ⟨1, 2⟩]

/-- The shape `p1` of `TestShapesMatch`. -/
def testP1 : shape := ⟨[⟨0, 0⟩, ⟨1, 0⟩, ⟨1, 1⟩, ⟨1, 2⟩, ⟨2, 2⟩, ⟨2, 1⟩]⟩

/-- The shape `p2` of `TestShapesMatch`. -/
def testP2 : shape := ⟨[⟨4, 1⟩, ⟨5, 1⟩, ⟨5, 2⟩, ⟨5, 3⟩, ⟨6, 3⟩, ⟨6, 2⟩]⟩

/-- The shape `p7` of `TestShapesMatch`. -/
def testP7 : shape := ⟨[⟨0, 8⟩, ⟨1, 8⟩, ⟨1, 9⟩, ⟨1, 10⟩, ⟨2, 10⟩, ⟨2, 9⟩]⟩

/-! ## The shapes the scan finds, as a ghost record

The functions below are `scanCell` and `findShapes` with one addition: they also return
the list of the seeds for which `findShape` returned a shape, each with its shape, in the
order of the scan.  Dropping the record gives back the functions of the program. -/

/-- The record of one call `findShape p`: the seed and the shape, if one was returned. -/
def foundEntry (p : point) : Option shape → List (point × shape)
  | some shp => [(p, shp)]
  | none => []

/-- The function `scanCell`, with the record of the shape `findShape` returned. -/
def state.scanCellFound (fuel : Nat) (s : state) (row col : Nat) :
    Except Fault (state × List (point × shape)) := do
  let (s', found) ← s.findShape fuel (getPoint (col : Int) (row : Int))
  match found with
  | some shp =>
    let known ← s'.hasShape shp
    if !known then
      pure ({ s' with shapes := s'.shapes ++ [shp] },
        foundEntry (getPoint (col : Int) (row : Int)) (some shp))
    else pure (s', foundEntry (getPoint (col : Int) (row : Int)) (some shp))
  | none => pure (s', foundEntry (getPoint (col : Int) (row : Int)) none)

/-- The function `findShapes`, with the record of the shapes `findShape` returned. -/
def state.findShapesFound (fuel : Nat) (s : state) :
    Except Fault (state × List (point × shape)) :=
  (List.range s.rows.toNat).foldlM
    (fun acc row => (List.range s.cols.toNat).foldlM (fun acc' col => do
      let (st, l) ← acc'.1.scanCellFound fuel row col
      pure (st, acc'.2 ++ l)) acc) (s, [])

/-- The occupied cells of `s0` are the cells of `U` and of `L`; the cells of `U` are one
toroidal component, the cells of `L`, if there are any, another, and every cell of `U`
lies in a row above every cell of `L`. -/
structure TwoGroups (s0 : state) (U L : point → Prop) : Prop where
  occ : ∀ c, s0.occupied c ↔ (U c ∨ L c)
  compU : ∀ u c, U u → (s0.reachable u c ↔ U c)
  compL : ∀ v c, L v → (s0.reachable v c ↔ L c)
  order : ∀ u v, U u → L v → u.y < v.y
  someU : ∃ u, U u

/-- The invariant of the scan of a grid whose occupied cells are the two groups `U` and
`L`: nothing is found yet; or the shape of `U` is found and stored and the cells of `L`
are the occupied ones; or both shapes are found, no cell is occupied, and the second
shape is stored exactly when the first does not match it. -/
def groupsInv (s0 : state) (U L : point → Prop) (s : state)
    (found : List (point × shape)) : Prop :=
  Within s0 s ∧
  ((found = [] ∧ s.shapes = [] ∧ ∀ c, s.occupied c ↔ (U c ∨ L c)) ∨
   (∃ u0 shpU, found = [(u0, shpU)] ∧ s.shapes = [shpU] ∧ U u0 ∧
      (∀ c, c ∈ shpU.points.map s0.norm ↔ U c) ∧ ∀ c, s.occupied c ↔ L c) ∨
   (∃ u0 shpU v0 shpL m, found = [(u0, shpU), (v0, shpL)] ∧ U u0 ∧ L v0 ∧
      (∀ c, c ∈ shpU.points.map s0.norm ↔ U c) ∧
      (∀ c, c ∈ shpL.points.map s0.norm ↔ L c) ∧
      shpU.matchShape shpL = .ok m ∧
      s.shapes = (if m = true then [shpU] else [shpU, shpL]) ∧ ∀ c, ¬ s.occupied c))

/-- Row `b` of the grid `g` is completely blank and splits the occupied cells: there are
occupied cells in the rows above it and in the rows below it, any two occupied cells above
it are joined by a path of adjacent occupied cells, and so are any two below it. -/
structure BlankRowSplit (g : List (List Int)) (b : Nat) : Prop where
  blank : ∀ c ∈ List.range (g.headD []).length, (initState g).cellAt b c ≠ some set
  above : ∃ u, (initState g).occupied u ∧ u.y < (b : Int)
  below : ∃ v, (initState g).occupied v ∧ (b : Int) < v.y
  aboveJoined : ∀ u v, (initState g).occupied u → u.y < (b : Int) →
    (initState g).occupied v → v.y < (b : Int) → (initState g).reachable u v
  belowJoined : ∀ u v, (initState g).occupied u → (b : Int) < u.y →
    (initState g).occupied v → (b : Int) < v.y → (initState g).reachable u v

/-- Some column of the grid `g` is occupied both in the first and in the last row. -/
def edgeLinked (g : List (List Int)) : Prop :=
  ∃ c ∈ List.range (g.headD []).length,
    (initState g).cellAt 0 c = some set ∧ (initState g).cellAt (g.length - 1) c = some set

instance (g : List (List Int)) : Decidable (edgeLinked g) :=
  inferInstanceAs (Decidable (∃ c ∈ List.range (g.headD []).length,
    (initState g).cellAt 0 c = some set ∧ (initState g).cellAt (g.length - 1) c = some set))

/-- A 5 × 5 grid with two cells in row 0, one cell in row 4 in another column, and blank
rows between them. -/
def splitRowGrid : List (List Int) :=
  [[1, 1, 0, 0, 0], [0, 0, 0, 0, 0], [0, 0, 0, 0, 0], [0, 0, 0, 0, 0], [0, 0, 1, 0, 0]]

/-! ## Arithmetic of `wrap` -/

theorem tmod_gt_neg (i dim : Int) (hd : 0 < dim) : -dim < Int.tmod i dim := by
  have h1 := Int.tmod_lt_of_pos (-i) hd
  have h2 : Int.tmod (-i) dim = - Int.tmod i dim := by
    rw [Int.tmod_def, Int.tmod_def, Int.neg_tdiv]; ring
  omega

theorem wrap_eq_emod (i dim : Int) (hd : 0 < dim) : wrap i dim = .ok (i % dim) := by
  unfold wrap
  have hne : dim ≠ 0 := by omega
  by_cases hi : i ≥ 0
  · simp only [hne, hi, if_true, if_false]
    rw [Int.tmod_eq_emod hi (by omega)]
  · simp only [hne, hi, if_false]
    have h1 := tmod_gt_neg i dim hd
    rw [Int.tmod_eq_emod (by omega) (by omega), Int.tmod_def]
    have h2 : dim + (i - dim * i.tdiv dim) = i + dim * (1 - i.tdiv dim) := by ring
    rw [h2, Int.add_mul_emod_self_left]

theorem transform_eq (p : point) (rows cols : Int) (hr : 0 < rows) (hc : 0 < cols) :
    p.transform rows cols = .ok ⟨p.x % cols, p.y % rows⟩ := by
  simp only [point.transform, wrap_eq_emod _ _ hr, wrap_eq_emod _ _ hc]
  rfl

/-- C3: for a positive dimension `wrap i dim` is the floored modulus: the unique `r`
with `0 ≤ r < dim` and `dim ∣ i - r`; multiples of `dim` wrap to `0` and `wrap` has
period `dim`. -/
theorem wrap_floored_modulus (i dim : Int) (hd : 0 < dim) :
    ∃ r, wrap i dim = .ok r ∧ r = Int.fmod i dim ∧ 0 ≤ r ∧ r < dim ∧ dim ∣ (i - r) ∧
      (∀ r', 0 ≤ r' → r' < dim → dim ∣ (i - r') → r' = r) ∧
      (∀ k : Int, wrap (k * dim) dim = .ok 0) ∧
      wrap (i + dim) dim = wrap i dim := by
  refine ⟨i % dim, wrap_eq_emod i dim hd, ?_, Int.emod_nonneg _ (by omega),
    Int.emod_lt_of_pos _ hd, ?_, ?_, ?_, ?_⟩
  · rw [Int.fmod_eq_emod _ (le_of_lt hd)]
  · exact Int.dvd_sub_of_emod_eq rfl
  · intro r' h0 h1 hdvd
    have h2 : (i - r') % dim = 0 := Int.emod_eq_zero_of_dvd hdvd
    have h3 : i % dim = r' % dim := Int.emod_eq_emod_iff_emod_sub_eq_zero.mpr h2
    rw [h3, Int.emod_eq_of_lt h0 h1]
  · intro k
    rw [wrap_eq_emod _ _ hd, Int.mul_emod_left]
  · rw [wrap_eq_emod _ _ hd, wrap_eq_emod _ _ hd, Int.add_emod_self]

/-- C3, at `i = -5`, `dim = 3`. -/
theorem wrap_floored_modulus_witness :
    (0 : Int) < 3 ∧ ∃ r, wrap (-5) 3 = .ok r ∧ r = Int.fmod (-5) 3 ∧ 0 ≤ r ∧ r < 3 ∧
      (3 : Int) ∣ (-5 - r) ∧
      (∀ r', 0 ≤ r' → r' < 3 → (3 : Int) ∣ (-5 - r') → r' = r) ∧
      (∀ k : Int, wrap (k * 3) 3 = .ok 0) ∧
      wrap (-5 + 3) 3 = wrap (-5) 3 :=
  ⟨by decide, wrap_floored_modulus (-5) 3 (by decide)⟩

/-! ## Directions -/

theorem getDirection_ok_of_ne (b e : point) (h : b ≠ e) : ∃ d, getDirection b e = .ok d := by
  unfold getDirection
  by_cases h1 : b.y > e.y
  · exact ⟨.up, by simp [h1]⟩
  by_cases h2 : b.y < e.y
  · exact ⟨.down, by simp [h1, h2]⟩
  by_cases h3 : b.x > e.x
  · exact ⟨.left, by simp [h1, h2, h3]⟩
  by_cases h4 : b.x < e.x
  · exact ⟨.right, by simp [h1, h2, h3, h4]⟩
  exfalso
  apply h
  cases b; cases e
  simp only [point.mk.injEq] at *
  constructor <;> omega

theorem getDirection_self (b : point) : getDirection b b = .error .samePoint := by
  simp [getDirection]

/-- C7: `getDirection` compares `y` first and `x` second, on the coordinates as given,
and aborts exactly when the two points are equal. -/
theorem getDirection_spec (b e : point) :
    (b.y > e.y → getDirection b e = .ok .up) ∧
    (b.y < e.y → getDirection b e = .ok .down) ∧
    (b.y = e.y → b.x > e.x → getDirection b e = .ok .left) ∧
    (b.y = e.y → b.x < e.x → getDirection b e = .ok .right) ∧
    ((∃ f, getDirection b e = .error f) ↔ b = e) ∧
    (b = e → getDirection b e = .error .samePoint) ∧
    getDirection ⟨0, 0⟩ ⟨-1, 0⟩ = .ok .left ∧
    getDirection ⟨0, -1⟩ ⟨0, 0⟩ = .ok .down := by
  refine ⟨?_, ?_, ?_, ?_, ?_, ?_, by decide, by decide⟩
  · intro h; simp [getDirection, h]
  · intro h
    have h1 : ¬ b.y > e.y := by omega
    simp [getDirection, h, h1]
  · intro h h2; simp [getDirection, h, h2]
  · intro h h2
    have h1 : ¬ b.x > e.x := by omega
    simp [getDirection, h, h2, h1]
  · constructor
    · rintro ⟨f, hf⟩
      by_contra hne
      obtain ⟨d, hd⟩ := getDirection_ok_of_ne b e hne
      rw [hd] at hf
      cases hf
    · rintro rfl
      exact ⟨_, getDirection_self b⟩
  · rintro rfl
    exact getDirection_self b

/-! ## Slices: reading inside the bounds -/

theorem index_nat {α : Type} (l : List α) (i : Nat) (h : i < l.length) :
    index l (i : Int) = .ok l[i] := by
  unfold index
  have h0 : ¬ ((i : Int) < 0) := by omega
  simp [h0, List.getElem?_eq_getElem h]

theorem index_nat_succ {α : Type} (l : List α) (i : Nat) (h : i + 1 < l.length) :
    index l ((i : Int) + 1) = .ok l[i + 1] := by
  have := index_nat l (i + 1) h
  simpa using this

theorem index_map {α β : Type} (f : α → β) (l : List α) (i : Int) :
    index (l.map f) i = (index l i).map f := by
  unfold index
  by_cases h : i < 0
  · simp [h, Except.map]
  · simp only [h, if_false, List.getElem?_map]
    cases l[i.toNat]? <;> simp [Except.map]

/-! ## The comparison loop -/

theorem matchLoop_step (s v : shape) (i n : Nat) (hs : i + 1 < s.points.length)
    (hv : i + 1 < v.points.length) :
    shape.matchLoop s v i (n + 1) =
      (getDirection s.points[i] s.points[i + 1]).bind (fun d1 =>
        (getDirection v.points[i] v.points[i + 1]).bind (fun d2 =>
          if d1 ≠ d2 then .ok false else shape.matchLoop s v (i + 1) n)) := by
  rw [shape.matchLoop]
  rw [index_nat s.points i (by omega), index_nat_succ s.points i hs,
    index_nat v.points i (by omega), index_nat_succ v.points i hv]
  rfl

theorem stepsDistinct_getElem {ps : List point} (h : stepsDistinct ps) :
    ∀ i (hi : i + 1 < ps.length), ps[i] ≠ ps[i + 1] := by
  induction ps with
  | nil => intro i hi; simp at hi
  | cons a rest ih =>
    cases rest with
    | nil => intro i hi; simp at hi
    | cons b rest =>
      intro i hi
      cases i with
      | zero => exact h.1
      | succ i => exact ih h.2 i (by simpa using hi)

theorem matchLoop_spec (s v : shape) (hlen : s.points.length = v.points.length)
    (hs : ∀ i (hi : i + 1 < s.points.length), s.points[i] ≠ s.points[i + 1])
    (hv : ∀ i (hi : i + 1 < v.points.length), v.points[i] ≠ v.points[i + 1]) :
    ∀ n i, i + n = s.points.length - 1 →
      ∃ b, shape.matchLoop s v i n = .ok b ∧
        (b = true ↔ ∀ j (h1 : j + 1 < s.points.length) (h2 : j + 1 < v.points.length), i ≤ j →
          getDirection s.points[j] s.points[j + 1] = getDirection v.points[j] v.points[j + 1]) := by
  intro n
  induction n with
  | zero =>
    intro i hi
    refine ⟨true, rfl, ?_⟩
    simp only [true_iff]
    intro j h1 _ hij
    omega
  | succ n ih =>
    intro i hi
    have h1 : i + 1 < s.points.length := by omega
    have h2 : i + 1 < v.points.length := by omega
    rw [matchLoop_step s v i n h1 h2]
    obtain ⟨d1, hd1⟩ := getDirection_ok_of_ne _ _ (hs i h1)
    obtain ⟨d2, hd2⟩ := getDirection_ok_of_ne _ _ (hv i h2)
    rw [hd1, hd2]
    simp only [Except.bind]
    by_cases hd : d1 = d2
    · subst hd
      simp only [ne_eq, not_true_eq_false, if_false]
      obtain ⟨b, hb, hiff⟩ := ih (i + 1) (by omega)
      refine ⟨b, hb, ?_⟩
      rw [hiff]
      constructor
      · intro h j hj1 hj2 hij
        by_cases hji : j = i
        · subst hji
          rw [hd1, hd2]
        · exact h j hj1 hj2 (by omega)
      · intro h j hj1 hj2 hij
        exact h j hj1 hj2 (by omega)
    · simp only [ne_eq, hd, not_false_eq_true, if_true]
      refine ⟨false, rfl, ?_⟩
      simp only [Bool.false_eq_true, false_iff]
      intro h
      have := h i h1 h2 (le_refl i)
      rw [hd1, hd2] at this
      exact hd (by injection this)

theorem matchShape_spec (s v : shape) (hs : stepsDistinct s.points)
    (hv : stepsDistinct v.points) :
    ∃ b, s.matchShape v = .ok b ∧
      (b = true ↔ s.points.length = v.points.length ∧
        ∀ j (h1 : j + 1 < s.points.length) (h2 : j + 1 < v.points.length),
          getDirection s.points[j] s.points[j + 1] =
            getDirection v.points[j] v.points[j + 1]) := by
  unfold shape.matchShape
  by_cases hlen : s.points.length = v.points.length
  · rw [if_neg (not_not.mpr hlen)]
    by_cases h1 : v.points.length = 1
    · rw [if_pos h1]
      refine ⟨true, rfl, ?_⟩
      simp only [true_iff]
      refine ⟨hlen, ?_⟩
      intro j hj1 _
      omega
    · rw [if_neg h1]
      obtain ⟨b, hb, hiff⟩ := matchLoop_spec s v hlen (stepsDistinct_getElem hs)
        (stepsDistinct_getElem hv) (s.points.length - 1) 0 (by omega)
      refine ⟨b, hb, ?_⟩
      rw [hiff]
      constructor
      · intro h
        exact ⟨hlen, fun j a b => h j a b (Nat.zero_le j)⟩
      · intro h j a b _
        exact h.2 j a b
  · rw [if_pos hlen]
    refine ⟨false, rfl, ?_⟩
    simp [hlen]

/-- C8: on shapes without two equal consecutive points, `match` returns true exactly
when the two shapes have the same number of points and the same direction at every
step; so different lengths never match, two single points always match, and equal
lengths with one different step do not match. -/
theorem matchShape_characterisation (s v : shape) (hs : stepsDistinct s.points)
    (hv : stepsDistinct v.points) :
    (∃ b, s.matchShape v = .ok b ∧
      (b = true ↔ s.points.length = v.points.length ∧
        ∀ j (h1 : j + 1 < s.points.length) (h2 : j + 1 < v.points.length),
          getDirection s.points[j] s.points[j + 1] =
            getDirection v.points[j] v.points[j + 1])) ∧
    (s.points.length ≠ v.points.length → s.matchShape v = .ok false) ∧
    (s.points.length = 1 → v.points.length = 1 → s.matchShape v = .ok true) ∧
    (s.points.length = v.points.length →
      (∃ j, ∃ (h1 : j + 1 < s.points.length) (h2 : j + 1 < v.points.length),
        getDirection s.points[j] s.points[j + 1] ≠
          getDirection v.points[j] v.points[j + 1]) →
      s.matchShape v = .ok false) := by
  obtain ⟨b, hb, hiff⟩ := matchShape_spec s v hs hv
  refine ⟨⟨b, hb, hiff⟩, ?_, ?_, ?_⟩
  · intro hne
    unfold shape.matchShape
    rw [if_pos hne]
    rfl
  · intro h1 h2
    unfold shape.matchShape
    rw [if_neg (not_not.mpr (h1.trans h2.symm)), if_pos h2]
    rfl
  · rintro hlen ⟨j, h1, h2, hne⟩
    cases b with
    | false => exact hb
    | true =>
      exfalso
      exact hne ((hiff.mp rfl).2 j h1 h2)

/-- C8, at the first two shapes of `TestShapesMatch`. -/
theorem matchShape_characterisation_witness :
    stepsDistinct [⟨0, 0⟩, ⟨1, 0⟩, ⟨1, 1⟩, ⟨1, 2⟩, ⟨2, 2⟩, ⟨2, 1⟩] ∧
    stepsDistinct [⟨4, 1⟩, ⟨5, 1⟩, ⟨5, 2⟩, ⟨5, 3⟩, ⟨6, 3⟩, ⟨6, 2⟩] ∧
    shape.matchShape ⟨[⟨0, 0⟩, ⟨1, 0⟩, ⟨1, 1⟩, ⟨1, 2⟩, ⟨2, 2⟩, ⟨2, 1⟩]⟩
      ⟨[⟨4, 1⟩, ⟨5, 1⟩, ⟨5, 2⟩, ⟨5, 3⟩, ⟨6, 3⟩, ⟨6, 2⟩]⟩ = .ok true :=
  ⟨by decide, by decide, by
    obtain ⟨⟨b, hb, _⟩, _⟩ := matchShape_characterisation
      ⟨[⟨0, 0⟩, ⟨1, 0⟩, ⟨1, 1⟩, ⟨1, 2⟩, ⟨2, 2⟩, ⟨2, 1⟩]⟩
      ⟨[⟨4, 1⟩, ⟨5, 1⟩, ⟨5, 2⟩, ⟨5, 3⟩, ⟨6, 3⟩, ⟨6, 2⟩]⟩ (by decide) (by decide)
    rw [hb]
    have : shape.matchShape ⟨[⟨0, 0⟩, ⟨1, 0⟩, ⟨1, 1⟩, ⟨1, 2⟩, ⟨2, 2⟩, ⟨2, 1⟩]⟩
      ⟨[⟨4, 1⟩, ⟨5, 1⟩, ⟨5, 2⟩, ⟨5, 3⟩, ⟨6, 3⟩, ⟨6, 2⟩]⟩ = .ok true := by decide
    rw [this] at hb
    exact hb.symm⟩

/-! ## Translation -/

theorem getDirection_translate (a b : point) (dx dy : Int) :
    getDirection ⟨a.x + dx, a.y + dy⟩ ⟨b.x + dx, b.y + dy⟩ = getDirection a b := by
  simp [getDirection]

theorem matchLoop_translate_left (s v : shape) (dx dy : Int) :
    ∀ n i, shape.matchLoop (s.translate dx dy) v i n = shape.matchLoop s v i n := by
  intro n
  induction n with
  | zero => intro i; rfl
  | succ n ih =>
    intro i
    rw [shape.matchLoop, shape.matchLoop]
    simp only [shape.translate, index_map]
    cases index s.points (i : Int) with
    | error e => rfl
    | ok a =>
      cases index s.points ((i : Int) + 1) with
      | error e => rfl
      | ok b =>
        have ih' := ih (i + 1)
        simp only [shape.translate] at ih'
        simp only [Except.map, bind, Except.bind, getDirection_translate, ih']

theorem matchLoop_translate_right (s v : shape) (dx dy : Int) :
    ∀ n i, shape.matchLoop s (v.translate dx dy) i n = shape.matchLoop s v i n := by
  intro n
  induction n with
  | zero => intro i; rfl
  | succ n ih =>
    intro i
    rw [shape.matchLoop, shape.matchLoop]
    simp only [shape.translate, index_map]
    cases index v.points (i : Int) with
    | error e => rfl
    | ok a =>
      cases index v.points ((i : Int) + 1) with
      | error e => rfl
      | ok b =>
        have ih' := ih (i + 1)
        simp only [shape.translate] at ih'
        simp only [Except.map, bind, Except.bind, getDirection_translate, ih']

theorem translate_length (s : shape) (dx dy : Int) :
    (s.translate dx dy).points.length = s.points.length := by
  simp [shape.translate]

theorem matchShape_translate_left (s v : shape) (dx dy : Int) :
    (s.translate dx dy).matchShape v = s.matchShape v := by
  unfold shape.matchShape
  rw [translate_length, matchLoop_translate_left]

theorem matchShape_translate_right (s v : shape) (dx dy : Int) :
    s.matchShape (v.translate dx dy) = s.matchShape v := by
  unfold shape.matchShape
  rw [translate_length, matchLoop_translate_right]

theorem matchShape_self (s : shape) (hs : stepsDistinct s.points) :
    s.matchShape s = .ok true := by
  obtain ⟨b, hb, hiff⟩ := matchShape_spec s s hs hs
  have : b = true := hiff.mpr ⟨rfl, fun _ _ _ => rfl⟩
  rw [hb, this]

/-- C9: a shape without two equal consecutive points matches each of its translates,
and translating a shape never changes the result of comparing it with any shape. -/
theorem matchShape_translation_invariant (s : shape) (hs : stepsDistinct s.points)
    (dx dy : Int) :
    s.matchShape (s.translate dx dy) = .ok true ∧
    (s.translate dx dy).matchShape s = .ok true ∧
    ∀ v : shape, (s.translate dx dy).matchShape v = s.matchShape v := by
  refine ⟨?_, ?_, fun v => matchShape_translate_left s v dx dy⟩
  · rw [matchShape_translate_right]
    exact matchShape_self s hs
  · rw [matchShape_translate_left]
    exact matchShape_self s hs

/-- C9, at the first shape of `TestShapesMatch` moved by `(-1, 8)`, which gives its
last shape with a negative coordinate. -/
theorem matchShape_translation_invariant_witness :
    stepsDistinct [⟨0, 0⟩, ⟨1, 0⟩, ⟨1, 1⟩, ⟨1, 2⟩, ⟨2, 2⟩, ⟨2, 1⟩] ∧
    shape.translate ⟨[⟨0, 0⟩, ⟨1, 0⟩, ⟨1, 1⟩, ⟨1, 2⟩, ⟨2, 2⟩, ⟨2, 1⟩]⟩ (-1) 8 =
      ⟨[⟨-1, 8⟩, ⟨0, 8⟩, ⟨0, 9⟩, ⟨0, 10⟩, ⟨1, 10⟩, ⟨1, 9⟩]⟩ ∧
    shape.matchShape ⟨[⟨0, 0⟩, ⟨1, 0⟩, ⟨1, 1⟩, ⟨1, 2⟩, ⟨2, 2⟩, ⟨2, 1⟩]⟩
      (shape.translate ⟨[⟨0, 0⟩, ⟨1, 0⟩, ⟨1, 1⟩, ⟨1, 2⟩, ⟨2, 2⟩, ⟨2, 1⟩]⟩ (-1) 8) = .ok true :=
  ⟨by decide, by decide,
    (matchShape_translation_invariant ⟨[⟨0, 0⟩, ⟨1, 0⟩, ⟨1, 1⟩, ⟨1, 2⟩, ⟨2, 2⟩, ⟨2, 1⟩]⟩
      (by decide) (-1) 8).1⟩

/-! ## Reading and marking one cell -/

theorem index_of_getElem? {α : Type} (l : List α) (i : Int) (a : α) (h0 : 0 ≤ i)
    (h : l[i.toNat]? = some a) : index l i = .ok a := by
  unfold index
  have : ¬ i < 0 := by omega
  simp [this, h]

theorem assign_of_lt {α : Type} (l : List α) (i : Int) (v : α) (h0 : 0 ≤ i)
    (h : i.toNat < l.length) : assign l i v = .ok (l.set i.toNat v) := by
  unfold assign
  have : ¬ i < 0 := by omega
  simp [this, h]

theorem normRow_lt (s : state) (hs : s.rectangular) (p : point) :
    s.normRow p < s.grid.length := by
  obtain ⟨hr, _, hlen, _⟩ := hs
  have h1 := Int.emod_nonneg p.y (show s.rows ≠ 0 by omega)
  have h2 := Int.emod_lt_of_pos p.y hr
  unfold state.normRow
  omega

theorem normCol_lt (s : state) (hs : s.rectangular) (p : point) (row : List Int)
    (hrow : row ∈ s.grid) : s.normCol p < row.length := by
  obtain ⟨_, hc, _, hall⟩ := hs
  have h1 := Int.emod_nonneg p.x (show s.cols ≠ 0 by omega)
  have h2 := Int.emod_lt_of_pos p.x hc
  have h3 := hall row hrow
  unfold state.normCol
  omega

theorem cellAt_some_iff (s : state) (r c : Nat) (v : Int) :
    s.cellAt r c = some v ↔ ∃ row, s.grid[r]? = some row ∧ row[c]? = some v := by
  unfold state.cellAt
  cases s.grid[r]? <;> simp

theorem cellAt_norm_exists (s : state) (hs : s.rectangular) (p : point) :
    ∃ v, s.cellAt (s.normRow p) (s.normCol p) = some v := by
  have h1 := normRow_lt s hs p
  have h2 := normCol_lt s hs p s.grid[s.normRow p] (List.getElem_mem h1)
  refine ⟨(s.grid[s.normRow p])[s.normCol p], ?_⟩
  rw [cellAt_some_iff]
  exact ⟨s.grid[s.normRow p], List.getElem?_eq_getElem h1, List.getElem?_eq_getElem h2⟩

theorem visited_eq (s : state) (hs : s.rectangular) (p : point) (v : Int)
    (hv : s.cellAt (s.normRow p) (s.normCol p) = some v) :
    s.visited p = .ok (decide (v = visited)) := by
  obtain ⟨row, h1, h2⟩ := (cellAt_some_iff _ _ _ _).mp hv
  have hr := hs.1
  have hc := hs.2.1
  unfold state.visited
  rw [transform_eq p _ _ hr hc]
  simp only [bind, Except.bind]
  rw [index_of_getElem? s.grid (p.y % s.rows) row (Int.emod_nonneg _ (by omega)) h1]
  simp only []
  rw [index_of_getElem? row (p.x % s.cols) v (Int.emod_nonneg _ (by omega)) h2]
  by_cases h : v = visited <;> simp [h, pure, Except.pure]

theorem visit_visited (s : state) (hs : s.rectangular) (p : point)
    (hv : s.cellAt (s.normRow p) (s.normCol p) = some visited) :
    s.visit p = .error .doubleVisit := by
  obtain ⟨row, h1, h2⟩ := (cellAt_some_iff _ _ _ _).mp hv
  have hr := hs.1
  have hc := hs.2.1
  unfold state.visit
  rw [transform_eq p _ _ hr hc]
  simp only [bind, Except.bind]
  rw [index_of_getElem? s.grid (p.y % s.rows) row (Int.emod_nonneg _ (by omega)) h1]
  simp only []
  rw [index_of_getElem? row (p.x % s.cols) visited (Int.emod_nonneg _ (by omega)) h2]
  rfl

theorem visit_fresh (s : state) (hs : s.rectangular) (p : point) (v : Int)
    (hv : s.cellAt (s.normRow p) (s.normCol p) = some v) (hne : v ≠ visited) :
    s.visit p = .ok (s.mark (s.normRow p) (s.normCol p), v) := by
  obtain ⟨row, h1, h2⟩ := (cellAt_some_iff _ _ _ _).mp hv
  have hr := hs.1
  have hc := hs.2.1
  have hrl : s.normRow p < s.grid.length := normRow_lt s hs p
  have hcl : s.normCol p < row.length := normCol_lt s hs p row (List.getElem?_mem h1)
  unfold state.visit
  rw [transform_eq p _ _ hr hc]
  simp only [bind, Except.bind]
  rw [index_of_getElem? s.grid (p.y % s.rows) row (Int.emod_nonneg _ (by omega)) h1]
  simp only []
  rw [index_of_getElem? row (p.x % s.cols) v (Int.emod_nonneg _ (by omega)) h2]
  simp only [hne, if_false]
  rw [assign_of_lt row (p.x % s.cols) visited (Int.emod_nonneg _ (by omega)) hcl]
  simp only []
  rw [assign_of_lt s.grid (p.y % s.rows) _ (Int.emod_nonneg _ (by omega)) hrl]
  simp only [state.mark, h1]
  rfl

theorem mark_rows (s : state) (r c : Nat) : (s.mark r c).rows = s.rows := by
  unfold state.mark
  cases s.grid[r]? <;> rfl

theorem mark_cols (s : state) (r c : Nat) : (s.mark r c).cols = s.cols := by
  unfold state.mark
  cases s.grid[r]? <;> rfl

theorem mark_shapes (s : state) (r c : Nat) : (s.mark r c).shapes = s.shapes := by
  unfold state.mark
  cases s.grid[r]? <;> rfl

theorem cellAt_mark_self (s : state) (r c : Nat) (v : Int) (h : s.cellAt r c = some v) :
    (s.mark r c).cellAt r c = some visited := by
  obtain ⟨row, h1, h2⟩ := (cellAt_some_iff _ _ _ _).mp h
  have hr : r < s.grid.length := (List.getElem?_eq_some_iff.mp h1).1
  have hc : c < row.length := (List.getElem?_eq_some_iff.mp h2).1
  simp only [state.mark, h1, state.cellAt]
  rw [List.getElem?_set_self hr]
  simp only [Option.some_bind]
  rw [List.getElem?_set_self hc]

theorem cellAt_mark_other (s : state) (r c r' c' : Nat) (h : (r', c') ≠ (r, c)) :
    (s.mark r c).cellAt r' c' = s.cellAt r' c' := by
  unfold state.mark
  cases h1 : s.grid[r]? with
  | none => rfl
  | some row =>
    simp only [state.cellAt]
    by_cases hr : r = r'
    · subst hr
      have hc : c ≠ c' := fun e => h (by rw [e])
      have hlt : r < s.grid.length := (List.getElem?_eq_some_iff.mp h1).1
      rw [List.getElem?_set_self hlt, h1]
      simp only [Option.some_bind]
      rw [List.getElem?_set_ne hc]
    · rw [List.getElem?_set_ne hr]

theorem rectangular_mark (s : state) (hs : s.rectangular) (r c : Nat) :
    (s.mark r c).rectangular := by
  obtain ⟨hr, hc, hlen, hall⟩ := hs
  unfold state.mark
  cases h1 : s.grid[r]? with
  | none => exact ⟨hr, hc, hlen, hall⟩
  | some row =>
    refine ⟨hr, hc, ?_, ?_⟩
    · simpa using hlen
    · intro row' hmem
      simp only at hmem
      rcases List.mem_or_eq_of_mem_set hmem with h | h
      · exact hall row' h
      · rw [h, List.length_set]
        exact hall row (List.getElem?_mem h1)

theorem transform_norm (s : state) (hs : s.rectangular) (p : point) :
    p.transform s.rows s.cols = .ok ⟨(s.normCol p : Int), (s.normRow p : Int)⟩ := by
  rw [transform_eq p _ _ hs.1 hs.2.1]
  have h1 := Int.emod_nonneg p.y (show s.rows ≠ 0 by have := hs.1; omega)
  have h2 := Int.emod_nonneg p.x (show s.cols ≠ 0 by have := hs.2.1; omega)
  simp only [state.normCol, state.normRow, Int.toNat_of_nonneg h1, Int.toNat_of_nonneg h2]

/-- C4: on a rectangular grid `visit p` aborts exactly when the cell at the wrapped
coordinates of `p` is already visited; otherwise it returns the old value of that cell
and writes `visited` there, whatever the old value was, leaving all else as it was. -/
theorem visit_contract (s : state) (hs : s.rectangular) (p : point) :
    ∃ t old, p.transform s.rows s.cols = .ok t ∧
      wrap p.x s.cols = .ok t.x ∧ wrap p.y s.rows = .ok t.y ∧
      s.cellAt t.y.toNat t.x.toNat = some old ∧
      ((∃ f, s.visit p = .error f) ↔ old = visited) ∧
      (old = visited → s.visit p = .error .doubleVisit) ∧
      (old ≠ visited → ∃ s', s.visit p = .ok (s', old) ∧
        s'.cellAt t.y.toNat t.x.toNat = some visited ∧
        (∀ r c, (r, c) ≠ (t.y.toNat, t.x.toNat) → s'.cellAt r c = s.cellAt r c) ∧
        s'.rows = s.rows ∧ s'.cols = s.cols ∧ s'.shapes = s.shapes ∧ s'.rectangular) := by
  obtain ⟨old, hold⟩ := cellAt_norm_exists s hs p
  have hw1 : wrap p.x s.cols = .ok (s.normCol p : Int) := by
    rw [wrap_eq_emod _ _ hs.2.1, state.normCol,
      Int.toNat_of_nonneg (Int.emod_nonneg _ (by have := hs.2.1; omega))]
  have hw2 : wrap p.y s.rows = .ok (s.normRow p : Int) := by
    rw [wrap_eq_emod _ _ hs.1, state.normRow,
      Int.toNat_of_nonneg (Int.emod_nonneg _ (by have := hs.1; omega))]
  refine ⟨⟨(s.normCol p : Int), (s.normRow p : Int)⟩, old, transform_norm s hs p, hw1, hw2,
    by simpa using hold, ?_, ?_, ?_⟩
  · constructor
    · rintro ⟨f, hf⟩
      by_contra hne
      rw [visit_fresh s hs p old hold hne] at hf
      cases hf
    · intro h
      subst h
      exact ⟨_, visit_visited s hs p hold⟩
  · intro h
    subst h
    exact visit_visited s hs p hold
  · intro hne
    refine ⟨_, visit_fresh s hs p old hold hne, ?_, ?_, mark_rows _ _ _, mark_cols _ _ _,
      mark_shapes _ _ _, rectangular_mark s hs _ _⟩
    · simpa using cellAt_mark_self s _ _ old hold
    · intro r c hrc
      exact cellAt_mark_other s _ _ r c (by simpa using hrc)

theorem normRow_mark (s : state) (r c : Nat) (q : point) :
    (s.mark r c).normRow q = s.normRow q := by
  simp only [state.normRow, mark_rows]

theorem normCol_mark (s : state) (r c : Nat) (q : point) :
    (s.mark r c).normCol q = s.normCol q := by
  simp only [state.normCol, mark_cols]

theorem wrap_eq_iff_norm (s : state) (hs : s.rectangular) (p q : point) :
    (wrap q.x s.cols = wrap p.x s.cols ∧ wrap q.y s.rows = wrap p.y s.rows) ↔
      (s.normRow q, s.normCol q) = (s.normRow p, s.normCol p) := by
  have hr := hs.1
  have hc := hs.2.1
  rw [wrap_eq_emod _ _ hr, wrap_eq_emod _ _ hr, wrap_eq_emod _ _ hc, wrap_eq_emod _ _ hc]
  have h1 := Int.emod_nonneg p.y (show s.rows ≠ 0 by omega)
  have h2 := Int.emod_nonneg p.x (show s.cols ≠ 0 by omega)
  have h3 := Int.emod_nonneg q.y (show s.rows ≠ 0 by omega)
  have h4 := Int.emod_nonneg q.x (show s.cols ≠ 0 by omega)
  simp only [Except.ok.injEq, Prod.mk.injEq, state.normRow, state.normCol]
  constructor
  · rintro ⟨a, b⟩
    rw [a, b]
    exact ⟨rfl, rfl⟩
  · rintro ⟨a, b⟩
    constructor <;> omega

/-- C5: on a rectangular grid without a visited cell `visited` answers false everywhere;
after `visit p` it answers true exactly at the points that wrap to the same cell as `p`,
and `visit p` leaves every other cell as it was. -/
theorem visited_by_normalization_class (s : state) (hs : s.rectangular)
    (hnone : ∀ row ∈ s.grid, visited ∉ row) :
    (∀ q, s.visited q = .ok false) ∧
    ∀ p, ∃ s' old t, s.visit p = .ok (s', old) ∧ p.transform s.rows s.cols = .ok t ∧
      (∀ q, s'.visited q = .ok (decide
        (wrap q.x s.cols = wrap p.x s.cols ∧ wrap q.y s.rows = wrap p.y s.rows))) ∧
      (∀ r c, (r, c) ≠ (t.y.toNat, t.x.toNat) → s'.cellAt r c = s.cellAt r c) := by
  have hno : ∀ r c, s.cellAt r c ≠ some visited := by
    intro r c h
    obtain ⟨row, h1, h2⟩ := (cellAt_some_iff _ _ _ _).mp h
    exact hnone row (List.getElem?_mem h1) (List.getElem?_mem h2)
  constructor
  · intro q
    obtain ⟨v, hv⟩ := cellAt_norm_exists s hs q
    have hne : v ≠ visited := fun e => hno _ _ (e ▸ hv)
    rw [visited_eq s hs q v hv]
    simp [hne]
  · intro p
    obtain ⟨old, hold⟩ := cellAt_norm_exists s hs p
    have hne : old ≠ visited := fun e => hno _ _ (e ▸ hold)
    refine ⟨_, old, _, visit_fresh s hs p old hold hne, transform_norm s hs p, ?_, ?_⟩
    · intro q
      have hs' := rectangular_mark s hs (s.normRow p) (s.normCol p)
      by_cases hq : (s.normRow q, s.normCol q) = (s.normRow p, s.normCol p)
      · have hcell : (s.mark (s.normRow p) (s.normCol p)).cellAt
            ((s.mark (s.normRow p) (s.normCol p)).normRow q)
            ((s.mark (s.normRow p) (s.normCol p)).normCol q) = some visited := by
          rw [normRow_mark, normCol_mark]
          simp only [Prod.mk.injEq] at hq
          rw [hq.1, hq.2]
          exact cellAt_mark_self s _ _ old hold
        rw [visited_eq _ hs' q visited hcell]
        simp [(wrap_eq_iff_norm s hs p q).mpr hq]
      · obtain ⟨v, hv⟩ := cellAt_norm_exists s hs q
        have hvne : v ≠ visited := fun e => hno _ _ (e ▸ hv)
        have hcell : (s.mark (s.normRow p) (s.normCol p)).cellAt
            ((s.mark (s.normRow p) (s.normCol p)).normRow q)
            ((s.mark (s.normRow p) (s.normCol p)).normCol q) = some v := by
          rw [normRow_mark, normCol_mark, cellAt_mark_other s _ _ _ _ hq]
          exact hv
        rw [visited_eq _ hs' q v hcell]
        have hw := (not_congr (wrap_eq_iff_norm s hs p q)).mpr hq
        simp [hvne, hw]
    · intro r c hrc
      exact cellAt_mark_other s _ _ r c (by simpa using hrc)

/-! ## Seeds that produce no shape -/

theorem findShape_visited (fuel : Nat) (s : state) (hs : s.rectangular) (p : point)
    (hv : s.cellAt (s.normRow p) (s.normCol p) = some visited) :
    s.findShape (fuel + 1) p = .ok (s, none) := by
  rw [state.findShape, visited_eq s hs p visited hv]
  rfl

theorem findShape_not_set (fuel : Nat) (s : state) (hs : s.rectangular) (p : point) (v : Int)
    (hv : s.cellAt (s.normRow p) (s.normCol p) = some v) (h2 : v ≠ visited) (h1 : v ≠ set) :
    s.findShape (fuel + 1) p = .ok (s.mark (s.normRow p) (s.normCol p), none) := by
  rw [state.findShape, visited_eq s hs p v hv]
  simp only [h2, decide_False, bind, Except.bind, Bool.not_false, if_true]
  rw [visit_fresh s hs p v hv h2]
  simp only [h1, if_false]
  rfl

/-- C6: on a rectangular grid, a seed whose cell is already visited gives no shape and
leaves the state as it is; a seed whose cell is empty gives no shape and changes that
one cell, and nothing else, to visited. -/
theorem findShape_non_producing (fuel : Nat) (s : state) (hs : s.rectangular) (p : point) :
    ∃ t, p.transform s.rows s.cols = .ok t ∧
      (s.cellAt t.y.toNat t.x.toNat = some visited →
        s.findShape (fuel + 1) p = .ok (s, none)) ∧
      (s.cellAt t.y.toNat t.x.toNat = some unset →
        ∃ s', s.findShape (fuel + 1) p = .ok (s', none) ∧
          s'.cellAt t.y.toNat t.x.toNat = some visited ∧
          (∀ r c, (r, c) ≠ (t.y.toNat, t.x.toNat) → s'.cellAt r c = s.cellAt r c) ∧
          s'.grid.length = s.grid.length ∧
          (∀ r : Nat, (s'.grid[r]?).map List.length = (s.grid[r]?).map List.length) ∧
          s'.rows = s.rows ∧ s'.cols = s.cols ∧ s'.shapes = s.shapes) := by
  refine ⟨_, transform_norm s hs p, ?_, ?_⟩
  · intro hv
    exact findShape_visited fuel s hs p (by simpa using hv)
  · intro hv
    have hv' : s.cellAt (s.normRow p) (s.normCol p) = some unset := by simpa using hv
    refine ⟨_, findShape_not_set fuel s hs p unset hv' (by decide) (by decide),
      ?_, ?_, ?_, ?_, mark_rows _ _ _, mark_cols _ _ _, mark_shapes _ _ _⟩
    · simpa using cellAt_mark_self s _ _ unset hv'
    · intro r c hrc
      exact cellAt_mark_other s _ _ r c (by simpa using hrc)
    · unfold state.mark
      cases s.grid[s.normRow p]? <;> simp
    · intro r
      unfold state.mark
      cases h1 : s.grid[s.normRow p]? with
      | none => rfl
      | some row =>
        simp only [List.getElem?_set]
        by_cases hr : s.normRow p = r
        · subst hr
          simp only [if_true]
          have hlt : s.normRow p < s.grid.length := (List.getElem?_eq_some_iff.mp h1).1
          simp [hlt, h1]
        · simp [hr]

/-! ## Frames and the number of unvisited cells -/

theorem Frame.refl (s : state) (hs : s.rectangular) : Frame s s :=
  ⟨hs, rfl, rfl, rfl, fun _ _ => Or.inl rfl⟩

theorem Frame.trans {s s' s'' : state} (h1 : Frame s s') (h2 : Frame s' s'') : Frame s s'' := by
  refine ⟨h2.rect, h2.rows.trans h1.rows, h2.cols.trans h1.cols, h2.shapes.trans h1.shapes, ?_⟩
  intro r c
  rcases h2.mono r c with h | h
  · rw [h]
    exact h1.mono r c
  · exact Or.inr h

theorem frame_mark (s : state) (hs : s.rectangular) (r c : Nat) (v : Int)
    (hv : s.cellAt r c = some v) : Frame s (s.mark r c) := by
  refine ⟨rectangular_mark s hs r c, mark_rows _ _ _, mark_cols _ _ _, mark_shapes _ _ _, ?_⟩
  intro r' c'
  by_cases h : (r', c') = (r, c)
  · simp only [Prod.mk.injEq] at h
    rw [h.1, h.2]
    exact Or.inr (cellAt_mark_self s r c v hv)
  · exact Or.inl (cellAt_mark_other s r c r' c' h)

theorem Frame.visited_stays {s s' : state} (h : Frame s s') (r c : Nat)
    (hv : s.cellAt r c = some visited) : s'.cellAt r c = some visited := by
  rcases h.mono r c with h1 | h1
  · rw [h1, hv]
  · exact h1

theorem Frame.inGrid {s s' : state} (h : Frame s s') (c : point) :
    s'.inGrid c ↔ s.inGrid c := by
  simp only [state.inGrid, h.rows, h.cols]

theorem Frame.occupied {s s' : state} (h : Frame s s') (c : point) (hc : s'.occupied c) :
    s.occupied c := by
  refine ⟨(h.inGrid c).mp hc.1, ?_⟩
  rcases h.mono c.y.toNat c.x.toNat with h1 | h1
  · rw [← h1]
    exact hc.2
  · rw [hc.2] at h1
    exact absurd h1 (by decide)

theorem Frame.unvisited_le {s s' : state} (h : Frame s s') : s'.unvisited ≤ s.unvisited := by
  unfold state.unvisited
  rw [h.rows, h.cols]
  apply Finset.card_le_card
  intro rc hrc
  simp only [Finset.mem_filter] at hrc ⊢
  refine ⟨hrc.1, ?_⟩
  rcases h.mono rc.1 rc.2 with h1 | h1
  · rw [← h1]
    exact hrc.2
  · exact absurd h1 hrc.2

theorem unvisited_mark_lt (s : state) (hs : s.rectangular) (p : point) (v : Int)
    (hv : s.cellAt (s.normRow p) (s.normCol p) = some v) (hne : v ≠ visited) :
    (s.mark (s.normRow p) (s.normCol p)).unvisited < s.unvisited := by
  unfold state.unvisited
  rw [mark_rows, mark_cols]
  apply Finset.card_lt_card
  rw [Finset.ssubset_iff_of_subset]
  · refine ⟨(s.normRow p, s.normCol p), ?_, ?_⟩
    · simp only [Finset.mem_filter, Finset.mem_product, Finset.mem_range]
      have h1 := normRow_lt s hs p
      have h2 := hs.2.2.1
      have h3 := Int.emod_lt_of_pos p.x hs.2.1
      have h4 := Int.emod_nonneg p.x (show s.cols ≠ 0 by have := hs.2.1; omega)
      refine ⟨⟨by omega, by unfold state.normCol; omega⟩, ?_⟩
      rw [hv]
      simpa using hne
    · simp only [Finset.mem_filter, not_and, not_not]
      intro _
      exact cellAt_mark_self s _ _ v hv
  · intro rc hrc
    simp only [Finset.mem_filter] at hrc ⊢
    refine ⟨hrc.1, ?_⟩
    rcases (frame_mark s hs _ _ v hv).mono rc.1 rc.2 with h1 | h1
    · rw [← h1]
      exact hrc.2
    · exact absurd h1 hrc.2

theorem unvisited_le_cells (s : state) : s.unvisited ≤ s.rows.toNat * s.cols.toNat := by
  unfold state.unvisited
  refine le_trans (Finset.card_filter_le _ _) ?_
  simp

/-! ## Wrapped points and adjacency -/

theorem transform_eq_norm (s : state) (hs : s.rectangular) (p : point) :
    p.transform s.rows s.cols = .ok (s.norm p) :=
  transform_eq p _ _ hs.1 hs.2.1

theorem norm_inGrid (s : state) (hs : s.rectangular) (p : point) : s.inGrid (s.norm p) := by
  have hr := hs.1
  have hc := hs.2.1
  exact ⟨Int.emod_nonneg _ (by omega), Int.emod_lt_of_pos _ hc,
    Int.emod_nonneg _ (by omega), Int.emod_lt_of_pos _ hr⟩

theorem norm_of_inGrid (s : state) (c : point) (hc : s.inGrid c) : s.norm c = c := by
  obtain ⟨h1, h2, h3, h4⟩ := hc
  cases c
  simp only [state.norm, point.mk.injEq]
  exact ⟨Int.emod_eq_of_lt h1 h2, Int.emod_eq_of_lt h3 h4⟩

theorem norm_norm (s : state) (hs : s.rectangular) (p : point) : s.norm (s.norm p) = s.norm p :=
  norm_of_inGrid s _ (norm_inGrid s hs p)

theorem normRow_eq (s : state) (p : point) : s.normRow p = (s.norm p).y.toNat := rfl

theorem normCol_eq (s : state) (p : point) : s.normCol p = (s.norm p).x.toNat := rfl

theorem adjacent_nextPoint (s : state) (p : point) (d : direction) :
    adjacent s.rows s.cols (s.norm p) (s.norm (nextPoint p d)) := by
  cases d
  · left
    refine ⟨rfl, Or.inr ?_⟩
    simp only [state.norm, nextPoint, getPoint, Int.emod_add_emod, sub_add_cancel]
  · left
    refine ⟨rfl, Or.inl ?_⟩
    simp only [state.norm, nextPoint, getPoint, Int.emod_add_emod]
  · right
    refine ⟨rfl, Or.inr ?_⟩
    simp only [state.norm, nextPoint, getPoint, Int.emod_add_emod, sub_add_cancel]
  · right
    refine ⟨rfl, Or.inl ?_⟩
    simp only [state.norm, nextPoint, getPoint, Int.emod_add_emod]

theorem emod_pred_of_succ (a b n : Int) (h0 : 0 ≤ b) (h1 : b < n)
    (h : a % n = (b + 1) % n) : (a - 1) % n = b := by
  have h2 : (a - 1) % n = (b + 1 - 1) % n := Int.ModEq.sub_right 1 h
  rw [h2, add_sub_cancel_right, Int.emod_eq_of_lt h0 h1]

theorem adjacent_complete (s : state) (p b : point) (hb : s.inGrid b)
    (h : adjacent s.rows s.cols (s.norm p) b) :
    ∃ d, b = s.norm (nextPoint p d) := by
  obtain ⟨hx0, hx1, hy0, hy1⟩ := hb
  cases b with
  | mk bx by_ =>
    simp only [adjacent, state.norm] at h
    simp only at hx0 hx1 hy0 hy1
    rcases h with ⟨hx, hy | hy⟩ | ⟨hy, hx | hx⟩
    · refine ⟨.down, ?_⟩
      simp only [state.norm, nextPoint, getPoint, point.mk.injEq]
      rw [Int.emod_add_emod] at hy
      exact ⟨hx.symm, hy⟩
    · refine ⟨.up, ?_⟩
      simp only [state.norm, nextPoint, getPoint, point.mk.injEq]
      exact ⟨hx.symm, (emod_pred_of_succ _ _ _ hy0 hy1 hy).symm⟩
    · refine ⟨.right, ?_⟩
      simp only [state.norm, nextPoint, getPoint, point.mk.injEq]
      rw [Int.emod_add_emod] at hx
      exact ⟨hx, hy.symm⟩
    · refine ⟨.left, ?_⟩
      simp only [state.norm, nextPoint, getPoint, point.mk.injEq]
      exact ⟨(emod_pred_of_succ _ _ _ hx0 hx1 hx).symm, hy.symm⟩

/-! ## Reachability -/

theorem reachable_refl (s : state) (a : point) (ha : s.occupied a) : s.reachable a a :=
  ⟨ha, Relation.ReflTransGen.refl⟩

theorem reachable_occupied (s : state) (a b : point) (h : s.reachable a b) : s.occupied b := by
  obtain ⟨ha, hpath⟩ := h
  cases hpath with
  | refl => exact ha
  | tail _ hstep => exact hstep.2

theorem reachable_step (s : state) (a b c : point) (h : s.reachable a b)
    (hadj : adjacent s.rows s.cols b c) (hc : s.occupied c) : s.reachable a c :=
  ⟨h.1, Relation.ReflTransGen.tail h.2 ⟨hadj, hc⟩⟩

theorem reachable_head (s : state) (a b c : point) (ha : s.occupied a)
    (hadj : adjacent s.rows s.cols a b) (h : s.reachable b c) : s.reachable a c :=
  ⟨ha, Relation.ReflTransGen.head ⟨hadj, h.1⟩ h.2⟩

theorem Frame.reachable {s s' : state} (h : Frame s s') (a b : point)
    (hr : s'.reachable a b) : s.reachable a b := by
  refine ⟨h.occupied a hr.1, ?_⟩
  refine Relation.ReflTransGen.mono ?_ hr.2
  intro u v huv
  refine ⟨?_, h.occupied v huv.2⟩
  rw [← h.rows, ← h.cols]
  exact huv.1

/-! ## The flood fill -/

theorem Frame.norm_eq {s s' : state} (h : Frame s s') (p : point) : s'.norm p = s.norm p := by
  simp only [state.norm, h.rows, h.cols]

theorem occupied_ne_visited (s : state) (c : point) (h : s.occupied c)
    (hv : s.cellAt c.y.toNat c.x.toNat = some visited) : False := by
  rw [h.2] at hv
  exact absurd hv (by decide)

theorem cell_ne_of_inGrid (s : state) (a b : point) (ha : s.inGrid a) (hb : s.inGrid b)
    (hne : a ≠ b) : (a.y.toNat, a.x.toNat) ≠ (b.y.toNat, b.x.toNat) := by
  intro h
  apply hne
  obtain ⟨h1, _, h2, _⟩ := ha
  obtain ⟨h3, _, h4, _⟩ := hb
  simp only [Prod.mk.injEq] at h
  cases a; cases b
  simp only [point.mk.injEq] at *
  constructor <;> omega

theorem loopInv_init (s : state) (hs : s.rectangular) (p : point)
    (hocc : s.occupied (s.norm p)) :
    LoopInv s p [] (s.mark (s.normRow p) (s.normCol p)) [p] := by
  have hcell : s.cellAt (s.normRow p) (s.normCol p) = some set := hocc.2
  refine ⟨frame_mark s hs _ _ set hcell, unvisited_mark_lt s hs p set hcell (by decide),
    List.nodup_singleton _, ?_, ?_, ?_, ?_, ⟨[], rfl⟩, ?_⟩
  · intro c hc
    simp only [List.map_cons, List.map_nil, List.mem_singleton] at hc
    rw [hc]
    exact reachable_refl s _ hocc
  · intro a ha hne
    simp only [List.map_cons, List.map_nil, List.mem_singleton] at ha
    exact absurd ha hne
  · intro c hc
    simp only [List.map_cons, List.map_nil, List.mem_singleton] at hc
    rw [hc]
    exact cellAt_mark_self s _ _ set hcell
  · intro c hc hnot
    simp only [List.map_cons, List.map_nil, List.mem_singleton] at hnot
    refine ⟨?_, ?_⟩
    · simpa [state.inGrid, mark_rows, mark_cols] using hc.1
    · have hne := cell_ne_of_inGrid s c (s.norm p) hc.1 (norm_inGrid s hs p) hnot
      rw [← normRow_eq, ← normCol_eq] at hne
      rw [cellAt_mark_other s _ _ _ _ hne]
      exact hc.2
  · intro d hd
    simp at hd

theorem loopInv_step (s0 : state) (p : point) (hocc : s0.occupied (s0.norm p))
    (done : List direction) (s : state) (acc : List point) (d : direction)
    (s' : state) (res : Option shape)
    (hI : LoopInv s0 p done s acc) (hP : Post s (nextPoint p d) s' res) :
    LoopInv s0 p (done ++ [d]) s' (acc ++ resultPoints res) := by
  have hn : ∀ q, s.norm q = s0.norm q := hI.frame.norm_eq
  have hmap : (resultPoints res).map s.norm = (resultPoints res).map s0.norm := by
    apply List.map_congr_left
    intro q _
    exact hn q
  have hPsound := hP.sound
  have hPclosed := hP.closed
  have hPmarked := hP.marked
  have hPkept := hP.kept
  have hPnodup := hP.nodup
  rw [hmap] at hPsound hPclosed hPmarked hPkept hPnodup
  rw [hn] at hPsound
  rw [hI.frame.rows, hI.frame.cols] at hPclosed
  refine ⟨hI.frame.trans hP.frame, lt_of_le_of_lt hP.frame.unvisited_le hI.lt, ?_, ?_, ?_, ?_,
    ?_, ?_, ?_⟩
  · rw [List.map_append, List.nodup_append]
    refine ⟨hI.nodup, hPnodup, ?_⟩
    intro c hc1 hc2
    exact occupied_ne_visited s c (reachable_occupied s _ _ (hPsound c hc2)) (hI.marked c hc1)
  · intro c hc
    rw [List.map_append, List.mem_append] at hc
    rcases hc with hc | hc
    · exact hI.sound c hc
    · have h1 := hI.frame.reachable _ _ (hPsound c hc)
      exact reachable_head s0 _ _ _ hocc (adjacent_nextPoint s0 p d) h1
  · intro a ha hne b hadj hb
    rw [List.map_append, List.mem_append] at ha ⊢
    rcases ha with ha | ha
    · exact Or.inl (hI.closed a ha hne b hadj hb)
    · by_cases hsb : s.occupied b
      · exact Or.inr (hPclosed a ha b hadj hsb)
      · left
        by_contra hnot
        exact hsb (hI.kept b hb hnot)
  · intro c hc
    rw [List.map_append, List.mem_append] at hc
    rcases hc with hc | hc
    · exact hP.frame.visited_stays _ _ (hI.marked c hc)
    · exact hPmarked c hc
  · intro c hc hnot
    rw [List.map_append, List.mem_append, not_or] at hnot
    exact hPkept c (hI.kept c hc hnot.1) hnot.2
  · obtain ⟨rest, hrest⟩ := hI.first
    exact ⟨rest ++ resultPoints res, by rw [hrest]; rfl⟩
  · intro d' hd' ho
    rw [List.map_append, List.mem_append]
    rw [List.mem_append, List.mem_singleton] at hd'
    rcases hd' with hd' | hd'
    · exact Or.inl (hI.explored d' hd' ho)
    · subst hd'
      by_cases hsb : s.occupied (s0.norm (nextPoint p d'))
      · right
        rw [← hn] at hsb
        obtain ⟨shp, hshp⟩ := hP.produces hsb
        obtain ⟨_, rest, hrest⟩ := hP.first shp hshp
        rw [hshp]
        simp only [resultPoints, hrest, List.map_cons, List.mem_cons, true_or]
      · left
        by_contra hnot
        exact hsb (hI.kept _ ho hnot)

theorem exploreDirs_cons (rec : state → point → Except Fault (state × Option shape))
    (p : point) (d : direction) (dirs : List direction) (s s' : state) (acc : List point)
    (res : Option shape) (h : rec s (nextPoint p d) = .ok (s', res)) :
    exploreDirs rec p (d :: dirs) s acc = exploreDirs rec p dirs s' (acc ++ resultPoints res) := by
  rw [exploreDirs, h]
  cases res with
  | none => simp [resultPoints, bind, Except.bind]
  | some c => simp [resultPoints, bind, Except.bind]

theorem exploreDirs_ok (rec : state → point → Except Fault (state × Option shape))
    (fuel : Nat)
    (hrec : ∀ s q, s.rectangular → s.unvisited < fuel →
      ∃ s' res, rec s q = .ok (s', res) ∧ Post s q s' res)
    (s0 : state) (p : point) (hocc : s0.occupied (s0.norm p)) (hfuel : s0.unvisited ≤ fuel) :
    ∀ dirs done s acc, LoopInv s0 p done s acc →
      ∃ s' acc', exploreDirs rec p dirs s acc = .ok (s', acc') ∧
        LoopInv s0 p (done ++ dirs) s' acc' := by
  intro dirs
  induction dirs with
  | nil =>
    intro done s acc hI
    refine ⟨s, acc, rfl, ?_⟩
    rw [List.append_nil]
    exact hI
  | cons d dirs ih =>
    intro done s acc hI
    obtain ⟨s', res, hrun, hP⟩ := hrec s (nextPoint p d) hI.frame.rect
      (lt_of_lt_of_le hI.lt hfuel)
    rw [exploreDirs_cons rec p d dirs s s' acc res hrun]
    obtain ⟨s'', acc', hrun', hI'⟩ := ih (done ++ [d]) s' (acc ++ resultPoints res)
      (loopInv_step s0 p hocc done s acc d s' res hI hP)
    refine ⟨s'', acc', hrun', ?_⟩
    rw [List.append_assoc] at hI'
    exact hI'

theorem post_of_loopInv (s0 : state) (p : point) (hocc : s0.occupied (s0.norm p))
    (s : state) (acc : List point)
    (hI : LoopInv s0 p [.up, .right, .down, .left] s acc) :
    Post s0 p s (some ⟨acc⟩) := by
  obtain ⟨rest, hrest⟩ := hI.first
  have hseed : s0.norm p ∈ acc.map s0.norm := by
    rw [hrest]
    simp
  refine ⟨hI.frame, hI.nodup, hI.sound, ?_, hI.marked, hI.kept, fun _ => ⟨_, rfl⟩, ?_, ?_⟩
  · intro a ha b hadj hb
    by_cases hne : a = s0.norm p
    · subst hne
      obtain ⟨d, hd⟩ := adjacent_complete s0 p b hb.1 hadj
      rw [hd]
      rw [hd] at hb
      refine hI.explored d ?_ hb
      cases d <;> simp
    · exact hI.closed a ha hne b hadj hb
  · intro shp hshp
    cases hshp
    exact ⟨hocc, rest, hrest⟩
  · exact hI.marked _ hseed

theorem findShape_post : ∀ fuel (s : state) (p : point), s.rectangular → s.unvisited < fuel →
    ∃ s' res, s.findShape fuel p = .ok (s', res) ∧ Post s p s' res := by
  intro fuel
  induction fuel with
  | zero => intro s p _ h; omega
  | succ fuel ih =>
    intro s p hs hfuel
    obtain ⟨v, hv⟩ := cellAt_norm_exists s hs p
    by_cases h2 : v = visited
    · subst h2
      refine ⟨s, none, findShape_visited fuel s hs p hv, Frame.refl s hs, List.nodup_nil,
        ?_, ?_, ?_, ?_, ?_, ?_, hv⟩
      · intro c hc; simp [resultPoints] at hc
      · intro a ha; simp [resultPoints] at ha
      · intro c hc; simp [resultPoints] at hc
      · intro c hc _; exact hc
      · intro hocc
        exact (occupied_ne_visited s _ hocc hv).elim
      · intro shp hshp; cases hshp
    by_cases h1 : v = set
    · subst h1
      have hocc : s.occupied (s.norm p) := ⟨norm_inGrid s hs p, hv⟩
      obtain ⟨s', acc, hrun, hI⟩ := exploreDirs_ok (state.findShape fuel) fuel ih s p hocc
        (by omega) [.up, .right, .down, .left] [] _ _ (loopInv_init s hs p hocc)
      refine ⟨s', some ⟨acc⟩, ?_, post_of_loopInv s p hocc s' acc hI⟩
      rw [state.findShape, visited_eq s hs p set hv]
      simp only [show ¬ (set = visited) by decide, decide_False, bind, Except.bind,
        Bool.not_false, if_true]
      rw [visit_fresh s hs p set hv (by decide)]
      simp only [if_true]
      rw [hrun]
      rfl
    · refine ⟨_, none, findShape_not_set fuel s hs p v hv h2 h1,
        frame_mark s hs _ _ v hv, List.nodup_nil, ?_, ?_, ?_, ?_, ?_, ?_,
        cellAt_mark_self s _ _ v hv⟩
      · intro c hc; simp [resultPoints] at hc
      · intro a ha; simp [resultPoints] at ha
      · intro c hc; simp [resultPoints] at hc
      · intro c hc _
        have hne : c ≠ s.norm p := by
          rintro rfl
          have := hc.2
          rw [← normRow_eq, ← normCol_eq, hv] at this
          exact h1 (by injection this)
        have hne' := cell_ne_of_inGrid s c (s.norm p) hc.1 (norm_inGrid s hs p) hne
        rw [← normRow_eq, ← normCol_eq] at hne'
        refine ⟨?_, ?_⟩
        · simpa [state.inGrid, mark_rows, mark_cols] using hc.1
        · rw [cellAt_mark_other s _ _ _ _ hne']
          exact hc.2
      · intro hocc
        have := hocc.2
        rw [← normRow_eq, ← normCol_eq, hv] at this
        exact absurd (by injection this) h1
      · intro shp hshp; cases hshp

theorem mapM_transform (s : state) (hs : s.rectangular) (ps : List point) :
    ps.mapM (fun q => q.transform s.rows s.cols) = .ok (ps.map s.norm) := by
  induction ps with
  | nil => rfl
  | cons a rest ih =>
    rw [List.mapM_cons, transform_eq_norm s hs a, ih]
    rfl

theorem mem_of_reachable (s : state) (p : point) (cells : List point)
    (hseed : s.norm p ∈ cells)
    (hclosed : ∀ a ∈ cells, ∀ b, adjacent s.rows s.cols a b → s.occupied b → b ∈ cells)
    (c : point) (h : s.reachable (s.norm p) c) : c ∈ cells := by
  obtain ⟨_, hpath⟩ := h
  induction hpath with
  | refl => exact hseed
  | tail _ hstep ih => exact hclosed _ ih _ hstep.1 hstep.2

/-- C1: on a rectangular grid, with fuel above the number of cells, `findShape` at a seed
whose wrapped cell is occupied returns a shape; the wrapped points of the shape are,
each exactly once, the cells reachable from the wrapped seed through toroidally
adjacent cells occupied before the call, and all of them are visited afterwards. -/
theorem findShape_flood_fill (fuel : Nat) (s : state) (hs : s.rectangular)
    (hfuel : s.rows.toNat * s.cols.toNat < fuel) (p t : point)
    (ht : p.transform s.rows s.cols = .ok t)
    (hocc : s.cellAt t.y.toNat t.x.toNat = some set) :
    ∃ s' shp cells, s.findShape fuel p = .ok (s', some shp) ∧
      shp.points.mapM (fun q => q.transform s.rows s.cols) = .ok cells ∧
      cells.Nodup ∧ cells.length = shp.points.length ∧
      (∀ c, c ∈ cells ↔ s.reachable t c) ∧
      (∀ c ∈ cells, s.cellAt c.y.toNat c.x.toNat = some set) ∧
      (∀ c ∈ cells, s'.cellAt c.y.toNat c.x.toNat = some visited) := by
  have ht' : t = s.norm p := by
    rw [transform_eq_norm s hs p] at ht
    injection ht with h
    exact h.symm
  subst ht'
  have hseed : s.occupied (s.norm p) := ⟨norm_inGrid s hs p, hocc⟩
  obtain ⟨s', res, hrun, hP⟩ := findShape_post fuel s p hs
    (lt_of_le_of_lt (unvisited_le_cells s) hfuel)
  obtain ⟨shp, hshp⟩ := hP.produces hseed
  subst hshp
  obtain ⟨_, rest, hrest⟩ := hP.first shp rfl
  refine ⟨s', shp, shp.points.map s.norm, hrun, mapM_transform s hs _, hP.nodup,
    List.length_map _ _, ?_, ?_, hP.marked⟩
  · intro c
    constructor
    · exact hP.sound c
    · refine mem_of_reachable s p _ ?_ hP.closed c
      simp only [resultPoints, hrest, List.map_cons, List.mem_cons, true_or]
  · intro c hc
    exact (reachable_occupied s _ _ (hP.sound c hc)).2

/-- C1, at the grid of `TestIntegration` whose shape crosses the right edge, seed `(3, 0)`. -/
theorem findShape_flood_fill_witness :
    edgeState.rectangular ∧ edgeState.rows.toNat * edgeState.cols.toNat < 13 ∧
    (⟨3, 0⟩ : point).transform edgeState.rows edgeState.cols = .ok ⟨3, 0⟩ ∧
    edgeState.cellAt (0 : Int).toNat (3 : Int).toNat = some set ∧
    ∃ s' shp cells, edgeState.findShape 13 ⟨3, 0⟩ = .ok (s', some shp) ∧
      shp.points.mapM (fun q => q.transform edgeState.rows edgeState.cols) = .ok cells ∧
      cells.Nodup ∧ cells.length = shp.points.length ∧
      (∀ c, c ∈ cells ↔ edgeState.reachable ⟨3, 0⟩ c) ∧
      (∀ c ∈ cells, edgeState.cellAt c.y.toNat c.x.toNat = some set) ∧
      (∀ c ∈ cells, s'.cellAt c.y.toNat c.x.toNat = some visited) :=
  ⟨by decide, by decide, by decide, by decide,
    findShape_flood_fill 13 edgeState (by decide) (by decide) ⟨3, 0⟩ ⟨3, 0⟩
      (by decide) (by decide)⟩

/-- C4, at a grid with cells of all three kinds and a point outside the grid that
wraps to the occupied cell of the second row. -/
theorem visit_contract_witness :
    mixedState.rectangular ∧
    ∃ t old, (⟨-1, 3⟩ : point).transform mixedState.rows mixedState.cols = .ok t ∧
      wrap (-1) mixedState.cols = .ok t.x ∧ wrap 3 mixedState.rows = .ok t.y ∧
      mixedState.cellAt t.y.toNat t.x.toNat = some old ∧
      ((∃ f, mixedState.visit ⟨-1, 3⟩ = .error f) ↔ old = visited) ∧
      (old = visited → mixedState.visit ⟨-1, 3⟩ = .error .doubleVisit) ∧
      (old ≠ visited → ∃ s', mixedState.visit ⟨-1, 3⟩ = .ok (s', old) ∧
        s'.cellAt t.y.toNat t.x.toNat = some visited ∧
        (∀ r c, (r, c) ≠ (t.y.toNat, t.x.toNat) → s'.cellAt r c = mixedState.cellAt r c) ∧
        s'.rows = mixedState.rows ∧ s'.cols = mixedState.cols ∧
        s'.shapes = mixedState.shapes ∧ s'.rectangular) :=
  ⟨by decide, visit_contract mixedState (by decide) ⟨-1, 3⟩⟩

/-- C5, at the grid of `TestWasSeen` cut down to two rows of three empty cells. -/
theorem visited_by_normalization_class_witness :
    emptyState.rectangular ∧ (∀ row ∈ emptyState.grid, visited ∉ row) ∧
    (∀ q, emptyState.visited q = .ok false) ∧
    ∀ p, ∃ s' old t, emptyState.visit p = .ok (s', old) ∧
      p.transform emptyState.rows emptyState.cols = .ok t ∧
      (∀ q, s'.visited q = .ok (decide
        (wrap q.x emptyState.cols = wrap p.x emptyState.cols ∧
          wrap q.y emptyState.rows = wrap p.y emptyState.rows))) ∧
      (∀ r c, (r, c) ≠ (t.y.toNat, t.x.toNat) → s'.cellAt r c = emptyState.cellAt r c) :=
  ⟨by decide, by decide, visited_by_normalization_class emptyState (by decide) (by decide)⟩

/-- C6, at a grid with cells of all three kinds and the seed `(2, 2)`, whose cell
`(2, 0)` is visited. -/
theorem findShape_non_producing_witness :
    mixedState.rectangular ∧
    ∃ t, (⟨2, 2⟩ : point).transform mixedState.rows mixedState.cols = .ok t ∧
      (mixedState.cellAt t.y.toNat t.x.toNat = some visited →
        mixedState.findShape (0 + 1) ⟨2, 2⟩ = .ok (mixedState, none)) ∧
      (mixedState.cellAt t.y.toNat t.x.toNat = some unset →
        ∃ s', mixedState.findShape (0 + 1) ⟨2, 2⟩ = .ok (s', none) ∧
          s'.cellAt t.y.toNat t.x.toNat = some visited ∧
          (∀ r c, (r, c) ≠ (t.y.toNat, t.x.toNat) → s'.cellAt r c = mixedState.cellAt r c) ∧
          s'.grid.length = mixedState.grid.length ∧
          (∀ r : Nat, (s'.grid[r]?).map List.length =
            (mixedState.grid[r]?).map List.length) ∧
          s'.rows = mixedState.rows ∧ s'.cols = mixedState.cols ∧
          s'.shapes = mixedState.shapes) :=
  ⟨by decide, findShape_non_producing 0 mixedState (by decide) ⟨2, 2⟩⟩

/-! ## The registry -/

theorem stepsDistinct_of_nodup : ∀ (ps : List point), ps.Nodup → stepsDistinct ps
  | [], _ => trivial
  | [_], _ => trivial
  | a :: b :: rest, h => by
    have h1 : a ≠ b := by
      intro e
      rw [e] at h
      simp at h
    exact ⟨h1, stepsDistinct_of_nodup (b :: rest) (List.nodup_cons.mp h).2⟩

theorem matchShape_symm (a b : shape) (ha : stepsDistinct a.points)
    (hb : stepsDistinct b.points) : a.matchShape b = b.matchShape a := by
  obtain ⟨x, hx, ix⟩ := matchShape_spec a b ha hb
  obtain ⟨y, hy, iy⟩ := matchShape_spec b a hb ha
  have hxy : x = true ↔ y = true := by
    rw [ix, iy]
    constructor
    · rintro ⟨h1, h2⟩
      exact ⟨h1.symm, fun j p q => (h2 j q p).symm⟩
    · rintro ⟨h1, h2⟩
      exact ⟨h1.symm, fun j p q => (h2 j q p).symm⟩
  rw [hx, hy, Bool.eq_iff_iff.mpr hxy]

theorem hasShapeLoop_spec (shp : shape) (hshp : stepsDistinct shp.points) :
    ∀ reg : List shape, (∀ comp ∈ reg, stepsDistinct comp.points) →
      ∃ b, hasShapeLoop shp reg = .ok b ∧
        (b = false ↔ ∀ comp ∈ reg, comp.matchShape shp = .ok false) := by
  intro reg
  induction reg with
  | nil =>
    intro _
    exact ⟨false, rfl, by simp⟩
  | cons comp rest ih =>
    intro hreg
    obtain ⟨m, hm, _⟩ := matchShape_spec comp shp (hreg comp (List.mem_cons_self _ _)) hshp
    obtain ⟨b, hb, hiff⟩ := ih (fun c hc => hreg c (List.mem_cons_of_mem _ hc))
    rw [hasShapeLoop, hm]
    cases m with
    | true =>
      refine ⟨true, rfl, ?_⟩
      simp only [Bool.true_eq_false, false_iff]
      intro h
      have := h comp (List.mem_cons_self _ _)
      rw [hm] at this
      cases this
    | false =>
      refine ⟨b, hb, ?_⟩
      rw [hiff]
      constructor
      · intro h c hc
        rcases List.mem_cons.mp hc with rfl | hc
        · exact hm
        · exact h c hc
      · intro h c hc
        exact h c (List.mem_cons_of_mem _ hc)

theorem noTwoMatch_append (reg : List shape) (shp : shape) (hreg : registryOK reg)
    (hshp : stepsDistinct shp.points) (hpair : noTwoMatch reg)
    (hnew : ∀ comp ∈ reg, comp.matchShape shp = .ok false) : noTwoMatch (reg ++ [shp]) := by
  unfold noTwoMatch
  rw [List.pairwise_append]
  refine ⟨hpair, List.pairwise_singleton _ _, ?_⟩
  intro a ha b hb
  rw [List.mem_singleton] at hb
  subst hb
  refine ⟨hnew a ha, ?_⟩
  rw [matchShape_symm b a hshp (hreg a ha).2]
  exact hnew a ha

theorem noTwoMatch_getElem (reg : List shape) (h : noTwoMatch reg) (i j : Nat)
    (hi : i < reg.length) (hj : j < reg.length) (hij : i ≠ j) :
    reg[i].matchShape reg[j] = .ok false := by
  rcases Nat.lt_or_gt_of_ne hij with hlt | hgt
  · exact (List.pairwise_iff_getElem.mp h i j hi hj hlt).1
  · exact (List.pairwise_iff_getElem.mp h j i hj hi hgt).2

/-! ## The scan -/

theorem rectangular_congr (s s' : state) (hg : s'.grid = s.grid) (hr : s'.rows = s.rows)
    (hc : s'.cols = s.cols) (hs : s.rectangular) : s'.rectangular := by
  unfold state.rectangular at *
  rw [hg, hr, hc]
  exact hs

theorem scanCell_spec (fuel : Nat) (s : state) (row col : Nat) (hs : s.rectangular)
    (hfuel : s.rows.toNat * s.cols.toNat < fuel) (hreg : registryOK s.shapes)
    (hcls : noTwoMatch s.shapes) :
    ∃ s1 res s', s.findShape fuel (getPoint col row) = .ok (s1, res) ∧
      Post s (getPoint col row) s1 res ∧
      s.scanCell fuel row col = .ok s' ∧
      s'.grid = s1.grid ∧ s'.rows = s.rows ∧ s'.cols = s.cols ∧
      registryOK s'.shapes ∧ noTwoMatch s'.shapes ∧
      ((∃ shp, res = some shp ∧ s1.hasShape shp = .ok false ∧
          s'.shapes = s.shapes ++ [shp]) ∨
        (s'.shapes = s.shapes ∧
          (res = none ∨ ∃ shp, res = some shp ∧ s1.hasShape shp = .ok true))) := by
  obtain ⟨s1, res, hrun, hP⟩ := findShape_post fuel s (getPoint col row) hs
    (lt_of_le_of_lt (unvisited_le_cells s) hfuel)
  have hsh : s1.shapes = s.shapes := hP.frame.shapes
  cases res with
  | none =>
    refine ⟨s1, none, s1, hrun, hP, ?_, rfl, hP.frame.rows, hP.frame.cols, ?_, ?_,
      Or.inr ⟨hsh, Or.inl rfl⟩⟩
    · rw [state.scanCell, hrun]
      rfl
    · rw [hsh]; exact hreg
    · rw [hsh]; exact hcls
  | some shp =>
    obtain ⟨_, rest, hrest⟩ := hP.first shp rfl
    have hdist : stepsDistinct shp.points :=
      stepsDistinct_of_nodup _ (List.Nodup.of_map _ hP.nodup)
    have hne : shp.points ≠ [] := by rw [hrest]; simp
    obtain ⟨b, hb, hiff⟩ := hasShapeLoop_spec shp hdist s.shapes (fun c hc => (hreg c hc).2)
    have hhas : s1.hasShape shp = .ok b := by
      rw [state.hasShape, hsh]
      exact hb
    cases b with
    | false =>
      refine ⟨s1, some shp, { s1 with shapes := s1.shapes ++ [shp] }, hrun, hP, ?_, rfl,
        hP.frame.rows, hP.frame.cols, ?_, ?_, Or.inl ⟨shp, rfl, hhas, by rw [hsh]⟩⟩
      · rw [state.scanCell, hrun]
        simp only [bind, Except.bind, hhas]
        rfl
      · intro c hc
        simp only [hsh, List.mem_append, List.mem_singleton] at hc
        rcases hc with hc | rfl
        · exact hreg c hc
        · exact ⟨hne, hdist⟩
      · simp only [hsh]
        exact noTwoMatch_append s.shapes shp hreg hdist hcls (hiff.mp rfl)
    | true =>
      refine ⟨s1, some shp, s1, hrun, hP, ?_, rfl, hP.frame.rows, hP.frame.cols, ?_, ?_,
        Or.inr ⟨hsh, Or.inr ⟨shp, rfl, hhas⟩⟩⟩
      · rw [state.scanCell, hrun]
        simp only [bind, Except.bind, hhas]
        rfl
      · rw [hsh]; exact hreg
      · rw [hsh]; exact hcls

theorem scanCell_inv (fuel : Nat) (rows cols : Int) (hfuel : rows.toNat * cols.toNat < fuel)
    (s : state) (row col : Nat) (hI : ScanInv rows cols s) :
    ∃ s', s.scanCell fuel row col = .ok s' ∧ ScanInv rows cols s' := by
  obtain ⟨s1, res, s', _, hP, hrun, hg, hr, hc, hreg, hcls, _⟩ :=
    scanCell_spec fuel s row col hI.rect (by rw [hI.rows, hI.cols]; exact hfuel)
      hI.regOK hI.classes
  refine ⟨s', hrun, ?_, hr.trans hI.rows, hc.trans hI.cols, hreg, hcls⟩
  exact rectangular_congr s1 s' hg (hr.trans hP.frame.rows.symm)
    (hc.trans hP.frame.cols.symm) hP.frame.rect

theorem foldlM_inv {σ α : Type} (I : σ → Prop) (f : σ → α → Except Fault σ) :
    ∀ (l : List α), (∀ s x, x ∈ l → I s → ∃ s', f s x = .ok s' ∧ I s') →
      ∀ s, I s → ∃ s', l.foldlM f s = .ok s' ∧ I s' := by
  intro l
  induction l with
  | nil =>
    intro _ s hs
    exact ⟨s, rfl, hs⟩
  | cons x rest ih =>
    intro h s hs
    obtain ⟨s1, h1, hI1⟩ := h s x (List.mem_cons_self _ _) hs
    obtain ⟨s2, h2, hI2⟩ := ih (fun t y hy => h t y (List.mem_cons_of_mem _ hy)) s1 hI1
    refine ⟨s2, ?_, hI2⟩
    rw [List.foldlM_cons, h1]
    exact h2

theorem findShapes_inv (fuel : Nat) (rows cols : Int) (hfuel : rows.toNat * cols.toNat < fuel)
    (s : state) (hI : ScanInv rows cols s) :
    ∃ s', s.findShapes fuel = .ok s' ∧ ScanInv rows cols s' := by
  unfold state.findShapes
  refine foldlM_inv (ScanInv rows cols) _ _ ?_ s hI
  intro st row _ hst
  refine foldlM_inv (ScanInv rows cols) _ _ ?_ st hst
  intro st' col _ hst'
  exact scanCell_inv fuel rows cols hfuel st' row col hst'

theorem New_spec (g : List (List Int)) (hg : rectangularGrid g) :
    ∃ st, New g = .ok (.ok st) ∧
      ScanInv (g.length : Int) ((g.headD []).length : Int) st := by
  obtain ⟨hne, hall⟩ := hg
  cases g with
  | nil => exact absurd rfl hne
  | cons row0 rest =>
    have h0 := hall row0 (List.mem_cons_self _ _)
    have hrows : ¬ (((row0 :: rest).length : Int) = 0) := by simp; omega
    have hlen0 : 0 < row0.length := List.length_pos.mpr h0.1
    have hcols : ¬ ((row0.length : Int) = 0) := by omega
    have hinit : ScanInv ((row0 :: rest).length : Int) (row0.length : Int)
        ⟨row0 :: rest, [], ((row0 :: rest).length : Int), (row0.length : Int)⟩ := by
      refine ⟨⟨?_, ?_, rfl, ?_⟩, rfl, rfl, ?_, List.Pairwise.nil⟩
      · show (0 : Int) < ((row0 :: rest).length : Int)
        exact Int.ofNat_lt.mpr (Nat.succ_pos _)
      · show (0 : Int) < (row0.length : Int)
        omega
      · intro row hrow
        have := (hall row hrow).2
        simp only [List.headD_cons] at this
        simp only [this]
      · intro shp hshp
        simp at hshp
    obtain ⟨st, hrun, hst⟩ := findShapes_inv ((row0 :: rest).length * row0.length + 1)
      ((row0 :: rest).length : Int) (row0.length : Int) (by simp) _ hinit
    refine ⟨st, ?_, hst⟩
    unfold New
    simp only [hrows, if_false]
    have hidx : index (row0 :: rest) 0 = .ok row0 := by simp [index]
    rw [hidx]
    simp only [bind, Except.bind, hcols, if_false]
    rw [hrun]
    rfl

/-! ## Rendering without abort -/

theorem dimStep_fold (ps : List point) : ∀ acc : Int × Int × Int × Int,
    ((ps.foldl dimStep acc).1 ≤ acc.1 ∧ acc.2.1 ≤ (ps.foldl dimStep acc).2.1 ∧
      (ps.foldl dimStep acc).2.2.1 ≤ acc.2.2.1 ∧ acc.2.2.2 ≤ (ps.foldl dimStep acc).2.2.2) ∧
    ∀ p ∈ ps, (ps.foldl dimStep acc).1 ≤ p.x ∧ p.x ≤ (ps.foldl dimStep acc).2.1 ∧
      (ps.foldl dimStep acc).2.2.1 ≤ p.y ∧ p.y ≤ (ps.foldl dimStep acc).2.2.2 := by
  induction ps with
  | nil =>
    intro acc
    simp
  | cons a rest ih =>
    intro acc
    obtain ⟨⟨h1, h2, h3, h4⟩, hall⟩ := ih (dimStep acc a)
    rw [List.foldl_cons]
    have e1 : (dimStep acc a).1 ≤ acc.1 ∧ (dimStep acc a).1 ≤ a.x := by
      simp only [dimStep]; split <;> constructor <;> omega
    have e2 : acc.2.1 ≤ (dimStep acc a).2.1 ∧ a.x ≤ (dimStep acc a).2.1 := by
      simp only [dimStep]; split <;> constructor <;> omega
    have e3 : (dimStep acc a).2.2.1 ≤ acc.2.2.1 ∧ (dimStep acc a).2.2.1 ≤ a.y := by
      simp only [dimStep]; split <;> constructor <;> omega
    have e4 : acc.2.2.2 ≤ (dimStep acc a).2.2.2 ∧ a.y ≤ (dimStep acc a).2.2.2 := by
      simp only [dimStep]; split <;> constructor <;> omega
    refine ⟨⟨by omega, by omega, by omega, by omega⟩, ?_⟩
    intro p hp
    rcases List.mem_cons.mp hp with rfl | hp
    · exact ⟨by omega, by omega, by omega, by omega⟩
    · exact hall p hp

theorem shapeDimensions_bounds (ps : List point) (rows cols : Int) (p : point) (hp : p ∈ ps) :
    (shapeDimensions ps rows cols).1 ≤ p.x ∧ p.x ≤ (shapeDimensions ps rows cols).2.1 ∧
    (shapeDimensions ps rows cols).2.2.1 ≤ p.y ∧ p.y ≤ (shapeDimensions ps rows cols).2.2.2 :=
  (dimStep_fold ps (cols, 0, rows, 0)).2 p hp

theorem transform_spec (s : state) (hs : s.rectangular) (ps : List point) :
    transform ps s.rows s.cols = .ok
      ((ps.map s.norm).map (fun p =>
          ⟨p.x - (shapeDimensions (ps.map s.norm) s.rows s.cols).1,
            p.y - (shapeDimensions (ps.map s.norm) s.rows s.cols).2.2.1⟩),
        (shapeDimensions (ps.map s.norm) s.rows s.cols).2.2.2 -
          (shapeDimensions (ps.map s.norm) s.rows s.cols).2.2.1 + 1,
        (shapeDimensions (ps.map s.norm) s.rows s.cols).2.1 -
          (shapeDimensions (ps.map s.norm) s.rows s.cols).1 + 1) := by
  unfold transform
  rw [mapM_transform s hs ps]
  rfl

theorem mapM_ok {α β : Type} (f : α → Except Fault β) (g : α → β) :
    ∀ l : List α, (∀ x ∈ l, f x = .ok (g x)) → l.mapM f = .ok (l.map g) := by
  intro l
  induction l with
  | nil => intro _; rfl
  | cons a rest ih =>
    intro h
    rw [List.mapM_cons, h a (List.mem_cons_self _ _),
      ih (fun x hx => h x (List.mem_cons_of_mem _ hx))]
    rfl

theorem sortByIndex_ok (ps : List point) (rows cols : Int)
    (hdim : ps ≠ [] → 0 < rows ∧ 0 < cols) :
    ∃ sorted, sortByIndex ps rows cols = .ok sorted ∧ sorted.Perm ps := by
  unfold sortByIndex
  by_cases hlen : ps.length ≤ 1
  · rw [if_pos hlen]
    exact ⟨ps, rfl, List.Perm.refl _⟩
  · rw [if_neg hlen]
    have hne : ps ≠ [] := by
      intro e
      rw [e] at hlen
      simp at hlen
    obtain ⟨hr, hc⟩ := hdim hne
    have hkey : ∀ p ∈ ps, (do
        let k ← p.index rows cols
        pure (k, p) : Except Fault (Int × point)) =
        .ok ((p.y % rows) * cols + p.x % cols, p) := by
      intro p _
      simp only [point.index, transform_eq p rows cols hr hc]
      rfl
    rw [mapM_ok _ (fun p => ((p.y % rows) * cols + p.x % cols, p)) ps hkey]
    refine ⟨_, rfl, ?_⟩
    have h1 := (List.perm_insertionSort (fun a b : Int × point => a.1 ≤ b.1)
      (ps.map (fun p => ((p.y % rows) * cols + p.x % cols, p)))).map Prod.snd
    have h2 : (ps.map (fun p => ((p.y % rows) * cols + p.x % cols, p))).map Prod.snd = ps := by
      rw [List.map_map]
      exact List.map_id _
    rw [h2] at h1
    exact h1

theorem fillRow_ok (row : Int) : ∀ (ps : List point) (buf : List Int),
    (∀ p ∈ ps, 0 ≤ p.x ∧ p.x.toNat < buf.length) →
      ∃ buf', fillRow row ps buf = .ok buf' ∧ buf'.length = buf.length := by
  intro ps
  induction ps with
  | nil =>
    intro buf _
    exact ⟨buf, rfl, rfl⟩
  | cons p rest ih =>
    intro buf h
    obtain ⟨h0, h1⟩ := h p (List.mem_cons_self _ _)
    rw [fillRow]
    by_cases hy : p.y = row
    · rw [if_pos hy, assign_of_lt buf p.x set h0 h1]
      obtain ⟨buf', hb, hl⟩ := ih (buf.set p.x.toNat set) (by
        intro q hq
        rw [List.length_set]
        exact h q (List.mem_cons_of_mem _ hq))
      refine ⟨buf', hb, ?_⟩
      rw [hl, List.length_set]
    · rw [if_neg hy]
      exact ih buf (fun q hq => h q (List.mem_cons_of_mem _ hq))

theorem printRow_ok (newCols : Int) (sorted : List point) (h0 : 0 ≤ newCols)
    (hb : ∀ p ∈ sorted, 0 ≤ p.x ∧ p.x < newCols) (out : String) (row : Nat) :
    ∃ out', printRow newCols sorted out row = .ok out' := by
  unfold printRow makeRow
  rw [if_neg (by omega)]
  obtain ⟨buf, hbuf, _⟩ := fillRow_ok (row : Int) sorted (List.replicate newCols.toNat 0) (by
    intro p hp
    obtain ⟨h1, h2⟩ := hb p hp
    rw [List.length_replicate]
    exact ⟨h1, by omega⟩)
  simp only [bind, Except.bind, pure, Except.pure]
  rw [hbuf]
  exact ⟨_, rfl⟩

theorem print_ok (s : state) (hs : s.rectangular) (shp : shape) (hne : shp.points ≠ []) :
    ∃ out, shp.print s.rows s.cols = .ok out := by
  have hbounds := shapeDimensions_bounds (shp.points.map s.norm) s.rows s.cols
  obtain ⟨q, hq⟩ := List.exists_mem_of_ne_nil _ hne
  have hq' := hbounds (s.norm q) (List.mem_map_of_mem _ hq)
  obtain ⟨sorted, hsort, hperm⟩ := sortByIndex_ok
    ((shp.points.map s.norm).map (fun p =>
      ⟨p.x - (shapeDimensions (shp.points.map s.norm) s.rows s.cols).1,
        p.y - (shapeDimensions (shp.points.map s.norm) s.rows s.cols).2.2.1⟩))
    ((shapeDimensions (shp.points.map s.norm) s.rows s.cols).2.2.2 -
      (shapeDimensions (shp.points.map s.norm) s.rows s.cols).2.2.1 + 1)
    ((shapeDimensions (shp.points.map s.norm) s.rows s.cols).2.1 -
      (shapeDimensions (shp.points.map s.norm) s.rows s.cols).1 + 1)
    (fun _ => ⟨by omega, by omega⟩)
  have hsb : ∀ p ∈ sorted, 0 ≤ p.x ∧ p.x <
      (shapeDimensions (shp.points.map s.norm) s.rows s.cols).2.1 -
        (shapeDimensions (shp.points.map s.norm) s.rows s.cols).1 + 1 := by
    intro p hp
    have hp' := hperm.mem_iff.mp hp
    obtain ⟨c, hc, rfl⟩ := List.mem_map.mp hp'
    have := hbounds c hc
    exact ⟨by simp only; omega, by simp only; omega⟩
  obtain ⟨body, hbody, _⟩ := foldlM_inv (fun _ : String => True)
    (printRow ((shapeDimensions (shp.points.map s.norm) s.rows s.cols).2.1 -
        (shapeDimensions (shp.points.map s.norm) s.rows s.cols).1 + 1) sorted)
    (List.range ((shapeDimensions (shp.points.map s.norm) s.rows s.cols).2.2.2 -
        (shapeDimensions (shp.points.map s.norm) s.rows s.cols).2.2.1 + 1).toNat)
    (by
      intro out row _ _
      obtain ⟨out', h⟩ := printRow_ok _ sorted (by omega) hsb out row
      exact ⟨out', h, trivial⟩) "" trivial
  have hpad : (leftPadding.length : Int) = 4 := by decide
  unfold shape.print
  rw [transform_spec s hs]
  simp only [bind, Except.bind]
  rw [hsort]
  simp only []
  rw [hbody]
  simp only [repeatDash, hpad]
  rw [if_neg (by omega)]
  exact ⟨_, rfl⟩

theorem Print_ok (s : state) (hs : s.rectangular) (hreg : registryOK s.shapes) :
    ∃ out, s.Print = .ok out := by
  unfold state.Print
  obtain ⟨out, h, _⟩ := foldlM_inv (fun _ : String => True)
    (fun (out : String) shp => do
      let block ← shp.print s.rows s.cols
      pure (out ++ block)) s.shapes (by
      intro out shp hshp _
      obtain ⟨block, hblock⟩ := print_ok s hs shp (hreg shp hshp).1
      refine ⟨out ++ block, ?_, trivial⟩
      simp only [hblock, bind, Except.bind]
      rfl) "" trivial
  exact ⟨out, h⟩

/-! ## End to end -/

/-- C2: for every grid with at least one row, no empty row and all rows of one length,
whatever its cell values, `New` and then `Print` run to the end: no double visit, no
direction between equal points, no index out of range, nor any other abort. -/
theorem no_abort_on_valid_grid (g : List (List Int)) (hg : rectangularGrid g) :
    ∃ st out, New g = .ok (.ok st) ∧ st.Print = .ok out ∧
      New g ≠ .error .doubleVisit ∧ New g ≠ .error .samePoint ∧
      New g ≠ .error .indexOutOfRange ∧
      st.Print ≠ .error .samePoint ∧ st.Print ≠ .error .indexOutOfRange := by
  obtain ⟨st, hnew, hI⟩ := New_spec g hg
  obtain ⟨out, hout⟩ := Print_ok st hI.rect hI.regOK
  refine ⟨st, out, hnew, hout, ?_, ?_, ?_, ?_, ?_⟩ <;> simp [hnew, hout]

/-- C2, at the first grid of `TestIntegration`. -/
theorem no_abort_on_valid_grid_witness :
    rectangularGrid centreGrid ∧
    ∃ st out, New centreGrid = .ok (.ok st) ∧ st.Print = .ok out ∧
      New centreGrid ≠ .error .doubleVisit ∧ New centreGrid ≠ .error .samePoint ∧
      New centreGrid ≠ .error .indexOutOfRange ∧
      st.Print ≠ .error .samePoint ∧ st.Print ≠ .error .indexOutOfRange :=
  ⟨by decide, no_abort_on_valid_grid centreGrid (by decide)⟩

/-- C10: for every valid grid `New` returns a state whose registry holds no two
different entries that match; and each step of the scan keeps that property, adding
the shape it found exactly when `hasShape` answers false. -/
theorem registry_one_per_class (g : List (List Int)) (hg : rectangularGrid g) :
    (∃ st, New g = .ok (.ok st) ∧
      ∀ i j (hi : i < st.shapes.length) (hj : j < st.shapes.length), i ≠ j →
        st.shapes[i].matchShape st.shapes[j] = .ok false) ∧
    (∀ (s : state) (fuel row col : Nat), s.rectangular →
      s.rows.toNat * s.cols.toNat < fuel → registryOK s.shapes → noTwoMatch s.shapes →
      ∃ s1 res s', s.findShape fuel (getPoint col row) = .ok (s1, res) ∧
        s.scanCell fuel row col = .ok s' ∧
        s'.rectangular ∧ registryOK s'.shapes ∧ noTwoMatch s'.shapes ∧
        (∀ i j (hi : i < s'.shapes.length) (hj : j < s'.shapes.length), i ≠ j →
          s'.shapes[i].matchShape s'.shapes[j] = .ok false) ∧
        ((∃ shp, res = some shp ∧ s1.hasShape shp = .ok false ∧
            s'.shapes = s.shapes ++ [shp]) ∨
          (s'.shapes = s.shapes ∧
            (res = none ∨ ∃ shp, res = some shp ∧ s1.hasShape shp = .ok true)))) := by
  constructor
  · obtain ⟨st, hnew, hI⟩ := New_spec g hg
    exact ⟨st, hnew, fun i j hi hj hij => noTwoMatch_getElem st.shapes hI.classes i j hi hj hij⟩
  · intro s fuel row col hs hfuel hreg hcls
    obtain ⟨s1, res, s', hrun, hP, hscan, hgrid, hr, hc, hreg', hcls', hcase⟩ :=
      scanCell_spec fuel s row col hs hfuel hreg hcls
    refine ⟨s1, res, s', hrun, hscan, ?_, hreg', hcls',
      fun i j hi hj hij => noTwoMatch_getElem s'.shapes hcls' i j hi hj hij, hcase⟩
    exact rectangular_congr s1 s' hgrid (hr.trans hP.frame.rows.symm)
      (hc.trans hP.frame.cols.symm) hP.frame.rect

/-- C10, at the grid of `TestIntegration` with two copies of one shape. -/
theorem registry_one_per_class_witness :
    rectangularGrid twoCopiesGrid ∧
    (∃ st, New twoCopiesGrid = .ok (.ok st) ∧
      ∀ i j (hi : i < st.shapes.length) (hj : j < st.shapes.length), i ≠ j →
        st.shapes[i].matchShape st.shapes[j] = .ok false) :=
  ⟨by decide, (registry_one_per_class twoCopiesGrid (by decide)).1⟩

/-! ## The result of `New` -/

theorem New_nil : New [] = .ok (.error errorNoRows) := rfl

theorem New_nil_row (rest : List (List Int)) : New ([] :: rest) = .ok (.error errorNoCols) := by
  unfold New
  have h1 : ¬ ((([] : List Int) :: rest).length : Int) = 0 := by
    simp only [List.length_cons]
    omega
  rw [if_neg h1]
  have hidx : index (([] : List Int) :: rest) 0 = .ok [] := by simp [index]
  rw [hidx]
  rfl

theorem New_cons_cons (a : Int) (row : List Int) (rest : List (List Int)) :
    New ((a :: row) :: rest) =
      ((state.findShapes (((a :: row) :: rest).length * (a :: row).length + 1)
        ⟨(a :: row) :: rest, [], (((a :: row) :: rest).length : Int),
          ((a :: row).length : Int)⟩).map Except.ok) := by
  unfold New
  have h1 : ¬ ((((a :: row) :: rest).length : Int) = 0) := by
    simp only [List.length_cons]
    omega
  rw [if_neg h1]
  have hidx : index ((a :: row) :: rest) 0 = .ok (a :: row) := by simp [index]
  rw [hidx]
  have h2 : ¬ (((a :: row).length : Int) = 0) := by
    simp only [List.length_cons]
    omega
  simp only [bind, Except.bind, h2, if_false]
  cases state.findShapes (((a :: row) :: rest).length * (a :: row).length + 1)
    ⟨(a :: row) :: rest, [], (((a :: row) :: rest).length : Int), ((a :: row).length : Int)⟩ <;>
    rfl

/-- C11: `New` returns an error (and no state) exactly when the grid has no row, the
error being "no rows in grid", or its first row has no column, the error being
"no columns in grid"; on every rectangular grid with positive dimensions it returns a
state and no error. -/
theorem New_error_iff (g : List (List Int)) :
    ((∃ e, New g = .ok (.error e)) ↔ (g.length = 0 ∨ (g.headD []).length = 0)) ∧
    (g.length = 0 → New g = .ok (.error errorNoRows)) ∧
    (g.length ≠ 0 → (g.headD []).length = 0 → New g = .ok (.error errorNoCols)) ∧
    errorNoRows = "no rows in grid" ∧ errorNoCols = "no columns in grid" ∧
    (rectangularGrid g → ∃ st, New g = .ok (.ok st)) := by
  refine ⟨?_, ?_, ?_, rfl, rfl, ?_⟩
  · cases g with
    | nil => simp [New_nil]
    | cons row0 rest =>
      cases row0 with
      | nil => simp [New_nil_row]
      | cons a row =>
        rw [New_cons_cons]
        generalize state.findShapes (((a :: row) :: rest).length * (a :: row).length + 1)
          ⟨(a :: row) :: rest, [], (((a :: row) :: rest).length : Int),
            ((a :: row).length : Int)⟩ = r
        simp only [List.length_cons, List.headD_cons]
        constructor
        · rintro ⟨e, he⟩
          cases r with
          | error f => cases he
          | ok st => cases he
        · intro h
          omega
  · intro h
    cases g with
    | nil => exact New_nil
    | cons row0 rest => simp at h
  · intro h1 h2
    cases g with
    | nil => simp at h1
    | cons row0 rest =>
      cases row0 with
      | nil => exact New_nil_row rest
      | cons a row => simp at h2
  · intro hg
    obtain ⟨st, hst, _⟩ := New_spec g hg
    exact ⟨st, hst⟩

/-! ## The box of an empty point list -/

theorem transform_nil (rows cols : Int) :
    transform [] rows cols = .ok ([], 0 - rows + 1, 0 - cols + 1) := rfl

/-- C20, refuted as stated: on a 2 × 2 grid the box of the empty point list has height
`-1` and width `-1`, whose product is `1`, not `0`. -/
theorem empty_box_area_counterexample :
    shapeDimensions [] 2 2 = (2, 0, 2, 0) ∧
    transform [] 2 2 = .ok ([], -1, -1) ∧ (-1 : Int) * (-1) ≠ 0 :=
  ⟨rfl, rfl, by decide⟩

/-- C20, amended: for positive dimensions the box of the empty point list is seeded at
`lowX = cols`, `highX = 0`, `lowY = rows`, `highY = 0`; `transform` returns the height
`1 - rows` and the width `1 - cols`, both at most zero, and their product is zero
exactly when the grid has a single row or a single column. -/
theorem empty_box_degenerate (rows cols : Int) (hr : 1 ≤ rows) (hc : 1 ≤ cols) :
    shapeDimensions [] rows cols = (cols, 0, rows, 0) ∧
    transform [] rows cols = .ok ([], 1 - rows, 1 - cols) ∧
    1 - rows ≤ 0 ∧ 1 - cols ≤ 0 ∧
    ((1 - rows) * (1 - cols) = 0 ↔ rows = 1 ∨ cols = 1) := by
  refine ⟨rfl, ?_, by omega, by omega, ?_⟩
  · rw [transform_nil]
    have h1 : 0 - rows + 1 = 1 - rows := by ring
    have h2 : 0 - cols + 1 = 1 - cols := by ring
    rw [h1, h2]
  · rw [mul_eq_zero]
    constructor
    · rintro (h | h)
      · left; omega
      · right; omega
    · rintro (h | h)
      · left; omega
      · right; omega

/-- C20, amended, at a grid of one row and three columns. -/
theorem empty_box_degenerate_witness :
    (1 : Int) ≤ 1 ∧ (1 : Int) ≤ 3 ∧
    shapeDimensions [] 1 3 = (3, 0, 1, 0) ∧
    transform [] 1 3 = .ok ([], 1 - 1, 1 - 3) ∧
    (1 : Int) - 1 ≤ 0 ∧ (1 : Int) - 3 ≤ 0 ∧
    (((1 : Int) - 1) * (1 - 3) = 0 ↔ (1 : Int) = 1 ∨ (3 : Int) = 1) :=
  ⟨by decide, by decide, empty_box_degenerate 1 3 (by decide) (by decide)⟩

/-! ## Shapes are linked by unit steps of the raw points -/

theorem unitLinked_singleton (p : point) : unitLinked [p] := by
  intro pre q post h hne
  cases pre with
  | nil => exact absurd rfl hne
  | cons a pre =>
    have := congrArg List.length h
    simp at this

theorem unitLinked_append (p : point) (dir : direction) (acc rest child : List point)
    (hacc : acc = p :: rest) (hl : unitLinked acc)
    (hc : unitLinked (nextPoint p dir :: child)) :
    unitLinked (acc ++ nextPoint p dir :: child) := by
  intro pre q post h hne
  rcases List.append_eq_append_iff.mp h with ⟨mid, h1, h2⟩ | ⟨mid, h1, h2⟩
  · -- the split point lies in the child: `pre = acc ++ mid`
    cases mid with
    | nil =>
      simp only [List.nil_append] at h2
      injection h2 with hq _
      refine ⟨p, ?_, dir, hq.symm⟩
      rw [h1, hacc]
      simp
    | cons m mid =>
      obtain ⟨e, he, d, hd⟩ := hc (m :: mid) q post h2 (by simp)
      refine ⟨e, ?_, d, hd⟩
      rw [h1]
      exact List.mem_append_right _ he
  · -- the split point lies in `acc`
    cases mid with
    | nil =>
      simp only [List.append_nil] at h1
      simp only [List.nil_append] at h2
      injection h2 with hq _
      refine ⟨p, ?_, dir, hq⟩
      rw [← h1, hacc]
      simp
    | cons m mid =>
      simp only [List.cons_append] at h2
      injection h2 with hq hpost
      subst hq
      exact hl pre q mid h1 hne

theorem exploreDirs_raw (rec : state → point → Except Fault (state × Option shape))
    (hrec : ∀ s q s' shp, rec s q = .ok (s', some shp) →
      (∃ rest, shp.points = q :: rest) ∧ unitLinked shp.points)
    (p : point) :
    ∀ (dirs : List direction) (s : state) (acc : List point) (s' : state)
      (acc' : List point), exploreDirs rec p dirs s acc = .ok (s', acc') →
      (∃ rest, acc = p :: rest) → unitLinked acc →
      (∃ rest', acc' = p :: rest') ∧ unitLinked acc' := by
  intro dirs
  induction dirs with
  | nil =>
    intro s acc s' acc' h hfirst hl
    rw [exploreDirs] at h
    injection h with h
    injection h with _ h2
    subst h2
    exact ⟨hfirst, hl⟩
  | cons dir dirs ih =>
    intro s acc s' acc' h hfirst hl
    rw [exploreDirs] at h
    cases hr : rec s (nextPoint p dir) with
    | error f =>
      rw [hr] at h
      cases h
    | ok r =>
      obtain ⟨s1, ch⟩ := r
      rw [hr] at h
      cases ch with
      | none => exact ih s1 acc s' acc' h hfirst hl
      | some c =>
        obtain ⟨⟨crest, hc1⟩, hc2⟩ := hrec s (nextPoint p dir) s1 c hr
        obtain ⟨rest, hrest⟩ := hfirst
        refine ih s1 (acc ++ c.points) s' acc' h ⟨rest ++ c.points, by rw [hrest]; rfl⟩ ?_
        rw [hc1]
        rw [hc1] at hc2
        exact unitLinked_append p dir acc rest crest hrest hl hc2

theorem findShape_raw : ∀ (fuel : Nat) (s : state) (p : point) (s' : state) (shp : shape),
    s.findShape fuel p = .ok (s', some shp) →
      (∃ rest, shp.points = p :: rest) ∧ unitLinked shp.points := by
  intro fuel
  induction fuel with
  | zero =>
    intro s p s' shp h
    rw [state.findShape] at h
    cases h
  | succ fuel ih =>
    intro s p s' shp h
    rw [state.findShape] at h
    cases hv : s.visited p with
    | error f =>
      rw [hv] at h
      cases h
    | ok seen =>
      rw [hv] at h
      cases seen with
      | true => cases h
      | false =>
        simp only [bind, Except.bind, Bool.not_false, if_true] at h
        cases hvis : s.visit p with
        | error f =>
          rw [hvis] at h
          cases h
        | ok r =>
          obtain ⟨s1, old⟩ := r
          rw [hvis] at h
          simp only at h
          by_cases hold : old = set
          · rw [if_pos hold] at h
            cases hex : exploreDirs (state.findShape fuel) p
                [.up, .right, .down, .left] s1 [p] with
            | error f =>
              rw [hex] at h
              cases h
            | ok r2 =>
              obtain ⟨s2, pts⟩ := r2
              rw [hex] at h
              cases h
              exact exploreDirs_raw (state.findShape fuel) ih p _ s1 [p] s2 pts hex
                ⟨[], rfl⟩ (unitLinked_singleton p)
          · rw [if_neg hold] at h
            cases h

theorem unitLinked_getElem (ps : List point) (hl : unitLinked ps) (i : Nat)
    (hi : i < ps.length) (h0 : 0 < i) :
    ∃ j, ∃ (hj : j < ps.length), j < i ∧ ∃ d : direction, ps[i] = nextPoint ps[j] d := by
  have hsplit : ps = ps.take i ++ ps[i] :: ps.drop (i + 1) := by
    rw [List.getElem_cons_drop, List.take_append_drop]
  obtain ⟨e, he, d, hd⟩ := hl (ps.take i) ps[i] (ps.drop (i + 1)) hsplit (by
    intro hnil
    have := congrArg List.length hnil
    simp only [List.length_take, List.length_nil] at this
    omega)
  obtain ⟨j, hj, hje⟩ := List.getElem_of_mem he
  have hjlen : j < i := by
    have := hj
    simp only [List.length_take] at this
    omega
  refine ⟨j, by omega, hjlen, d, ?_⟩
  rw [hd, ← hje, List.getElem_take]

/-- C19: whenever `findShape` returns a shape for the seed `p`, the first point of the
shape is `p` as passed, not wrapped, and every later point is `nextPoint q d` for an
earlier point `q` of the shape and a direction `d`; so points may lie outside the
grid, as for the one-row grid `1 0 0 1` scanned from `(0, 0)`. -/
theorem findShape_raw_connected (fuel : Nat) (s : state) (p : point) (s' : state)
    (shp : shape) (h : s.findShape fuel p = .ok (s', some shp)) :
    shp.points.head? = some p ∧
    (∀ i (hi : i < shp.points.length), 0 < i →
      ∃ j, ∃ (hj : j < shp.points.length), j < i ∧
        ∃ d : direction, shp.points[i] = nextPoint shp.points[j] d) ∧
    (∃ s1, rowState14.findShape 5 ⟨0, 0⟩ = .ok (s1, some ⟨[⟨0, 0⟩, ⟨-1, 0⟩]⟩)) := by
  obtain ⟨⟨rest, hrest⟩, hl⟩ := findShape_raw fuel s p s' shp h
  refine ⟨by rw [hrest]; rfl, fun i hi h0 => unitLinked_getElem shp.points hl i hi h0, ?_⟩
  exact ⟨⟨[[2, 2, 2, 2]], [], 1, 4⟩, by decide⟩

/-- C19, at the one-row grid `1 0 0 1` scanned from `(0, 0)`. -/
theorem findShape_raw_connected_witness :
    rowState14.findShape 5 ⟨0, 0⟩ =
      .ok (⟨[[2, 2, 2, 2]], [], 1, 4⟩, some ⟨[⟨0, 0⟩, ⟨-1, 0⟩]⟩) ∧
    (⟨[⟨0, 0⟩, ⟨-1, 0⟩]⟩ : shape).points.head? = some ⟨0, 0⟩ ∧
    (∀ i (hi : i < (⟨[⟨0, 0⟩, ⟨-1, 0⟩]⟩ : shape).points.length), 0 < i →
      ∃ j, ∃ (hj : j < (⟨[⟨0, 0⟩, ⟨-1, 0⟩]⟩ : shape).points.length), j < i ∧
        ∃ d : direction, (⟨[⟨0, 0⟩, ⟨-1, 0⟩]⟩ : shape).points[i] =
          nextPoint (⟨[⟨0, 0⟩, ⟨-1, 0⟩]⟩ : shape).points[j] d) :=
  ⟨by decide,
    (findShape_raw_connected 5 rowState14 ⟨0, 0⟩ ⟨[[2, 2, 2, 2]], [], 1, 4⟩
      ⟨[⟨0, 0⟩, ⟨-1, 0⟩]⟩ (by decide)).1,
    (findShape_raw_connected 5 rowState14 ⟨0, 0⟩ ⟨[[2, 2, 2, 2]], [], 1, 4⟩
      ⟨[⟨0, 0⟩, ⟨-1, 0⟩]⟩ (by decide)).2.1⟩

/-! ## The box of a shape -/

theorem mapM_transform_dims (rows cols : Int) (hr : 0 < rows) (hc : 0 < cols)
    (ps : List point) :
    ps.mapM (fun q => q.transform rows cols) =
      .ok (ps.map (fun p => (⟨p.x % cols, p.y % rows⟩ : point))) :=
  mapM_ok _ _ ps (fun p _ => transform_eq p rows cols hr hc)

theorem dimStep_fold_attained (ps : List point) : ∀ acc : Int × Int × Int × Int,
    ((ps.foldl dimStep acc).1 = acc.1 ∨ ∃ p ∈ ps, (ps.foldl dimStep acc).1 = p.x) ∧
    ((ps.foldl dimStep acc).2.1 = acc.2.1 ∨ ∃ p ∈ ps, (ps.foldl dimStep acc).2.1 = p.x) ∧
    ((ps.foldl dimStep acc).2.2.1 = acc.2.2.1 ∨
      ∃ p ∈ ps, (ps.foldl dimStep acc).2.2.1 = p.y) ∧
    ((ps.foldl dimStep acc).2.2.2 = acc.2.2.2 ∨
      ∃ p ∈ ps, (ps.foldl dimStep acc).2.2.2 = p.y) := by
  induction ps with
  | nil =>
    intro acc
    simp
  | cons a rest ih =>
    intro acc
    obtain ⟨h1, h2, h3, h4⟩ := ih (dimStep acc a)
    rw [List.foldl_cons]
    have e1 : (dimStep acc a).1 = acc.1 ∨ (dimStep acc a).1 = a.x := by
      simp only [dimStep]; split <;> simp
    have e2 : (dimStep acc a).2.1 = acc.2.1 ∨ (dimStep acc a).2.1 = a.x := by
      simp only [dimStep]; split <;> simp
    have e3 : (dimStep acc a).2.2.1 = acc.2.2.1 ∨ (dimStep acc a).2.2.1 = a.y := by
      simp only [dimStep]; split <;> simp
    have e4 : (dimStep acc a).2.2.2 = acc.2.2.2 ∨ (dimStep acc a).2.2.2 = a.y := by
      simp only [dimStep]; split <;> simp
    refine ⟨?_, ?_, ?_, ?_⟩
    · rcases h1 with h | ⟨p, hp, h⟩
      · rcases e1 with e | e
        · exact Or.inl (h.trans e)
        · exact Or.inr ⟨a, List.mem_cons_self _ _, h.trans e⟩
      · exact Or.inr ⟨p, List.mem_cons_of_mem _ hp, h⟩
    · rcases h2 with h | ⟨p, hp, h⟩
      · rcases e2 with e | e
        · exact Or.inl (h.trans e)
        · exact Or.inr ⟨a, List.mem_cons_self _ _, h.trans e⟩
      · exact Or.inr ⟨p, List.mem_cons_of_mem _ hp, h⟩
    · rcases h3 with h | ⟨p, hp, h⟩
      · rcases e3 with e | e
        · exact Or.inl (h.trans e)
        · exact Or.inr ⟨a, List.mem_cons_self _ _, h.trans e⟩
      · exact Or.inr ⟨p, List.mem_cons_of_mem _ hp, h⟩
    · rcases h4 with h | ⟨p, hp, h⟩
      · rcases e4 with e | e
        · exact Or.inl (h.trans e)
        · exact Or.inr ⟨a, List.mem_cons_self _ _, h.trans e⟩
      · exact Or.inr ⟨p, List.mem_cons_of_mem _ hp, h⟩

theorem shapeDimensions_exact (cells : List point) (rows cols : Int) (hne : cells ≠ [])
    (hin : ∀ c ∈ cells, 0 ≤ c.x ∧ c.x < cols ∧ 0 ≤ c.y ∧ c.y < rows)
    (lowX highX lowY highY : Int)
    (hlx : (∃ c ∈ cells, c.x = lowX) ∧ ∀ c ∈ cells, lowX ≤ c.x)
    (hhx : (∃ c ∈ cells, c.x = highX) ∧ ∀ c ∈ cells, c.x ≤ highX)
    (hly : (∃ c ∈ cells, c.y = lowY) ∧ ∀ c ∈ cells, lowY ≤ c.y)
    (hhy : (∃ c ∈ cells, c.y = highY) ∧ ∀ c ∈ cells, c.y ≤ highY) :
    shapeDimensions cells rows cols = (lowX, highX, lowY, highY) := by
  obtain ⟨q, hq⟩ := List.exists_mem_of_ne_nil _ hne
  have hb := shapeDimensions_bounds cells rows cols
  obtain ⟨a1, a2, a3, a4⟩ := dimStep_fold_attained cells (cols, 0, rows, 0)
  have hq' := hb q hq
  have hqin := hin q hq
  obtain ⟨⟨c1, hc1, e1⟩, l1⟩ := hlx
  obtain ⟨⟨c2, hc2, e2⟩, l2⟩ := hhx
  obtain ⟨⟨c3, hc3, e3⟩, l3⟩ := hly
  obtain ⟨⟨c4, hc4, e4⟩, l4⟩ := hhy
  have b1 := hb c1 hc1
  have b2 := hb c2 hc2
  have b3 := hb c3 hc3
  have b4 := hb c4 hc4
  have i1 := hin c1 hc1
  have i2 := hin c2 hc2
  have i3 := hin c3 hc3
  have i4 := hin c4 hc4
  have r1 : (shapeDimensions cells rows cols).1 = lowX := by
    rcases a1 with h | ⟨p, hp, h⟩
    · have : (shapeDimensions cells rows cols).1 = cols := h
      omega
    · have := l1 p hp
      have h' : (shapeDimensions cells rows cols).1 = p.x := h
      omega
  have r2 : (shapeDimensions cells rows cols).2.1 = highX := by
    rcases a2 with h | ⟨p, hp, h⟩
    · have : (shapeDimensions cells rows cols).2.1 = 0 := h
      omega
    · have := l2 p hp
      have h' : (shapeDimensions cells rows cols).2.1 = p.x := h
      omega
  have r3 : (shapeDimensions cells rows cols).2.2.1 = lowY := by
    rcases a3 with h | ⟨p, hp, h⟩
    · have : (shapeDimensions cells rows cols).2.2.1 = rows := h
      omega
    · have := l3 p hp
      have h' : (shapeDimensions cells rows cols).2.2.1 = p.y := h
      omega
  have r4 : (shapeDimensions cells rows cols).2.2.2 = highY := by
    rcases a4 with h | ⟨p, hp, h⟩
    · have : (shapeDimensions cells rows cols).2.2.2 = 0 := h
      omega
    · have := l4 p hp
      have h' : (shapeDimensions cells rows cols).2.2.2 = p.y := h
      omega
  rw [← r1, ← r2, ← r3, ← r4]

/-! ## The text of a block -/

theorem fillRow_spec (row : Int) : ∀ (ps : List point) (buf : List Int),
    (∀ p ∈ ps, 0 ≤ p.x ∧ p.x.toNat < buf.length) →
      ∃ buf', fillRow row ps buf = .ok buf' ∧ buf'.length = buf.length ∧
        ∀ c : Nat, buf'[c]?.getD 0 =
          if (∃ p ∈ ps, p.y = row ∧ p.x.toNat = c) then set else buf[c]?.getD 0 := by
  intro ps
  induction ps with
  | nil =>
    intro buf _
    exact ⟨buf, rfl, rfl, fun c => by simp⟩
  | cons p rest ih =>
    intro buf h
    obtain ⟨h0, h1⟩ := h p (List.mem_cons_self _ _)
    rw [fillRow]
    by_cases hy : p.y = row
    · rw [if_pos hy, assign_of_lt buf p.x set h0 h1]
      obtain ⟨buf', hb, hl, hget⟩ := ih (buf.set p.x.toNat set) (by
        intro q hq
        rw [List.length_set]
        exact h q (List.mem_cons_of_mem _ hq))
      refine ⟨buf', hb, by rw [hl, List.length_set], ?_⟩
      intro c
      rw [hget c]
      by_cases hrest : ∃ q ∈ rest, q.y = row ∧ q.x.toNat = c
      · have hall : ∃ q ∈ p :: rest, q.y = row ∧ q.x.toNat = c := by
          obtain ⟨q, hq, hq'⟩ := hrest
          exact ⟨q, List.mem_cons_of_mem _ hq, hq'⟩
        rw [if_pos hrest, if_pos hall]
      · rw [if_neg hrest]
        by_cases hpc : p.x.toNat = c
        · have hall : ∃ q ∈ p :: rest, q.y = row ∧ q.x.toNat = c :=
            ⟨p, List.mem_cons_self _ _, hy, hpc⟩
          rw [if_pos hall, ← hpc, List.getElem?_set_self h1]
          rfl
        · have hall : ¬ ∃ q ∈ p :: rest, q.y = row ∧ q.x.toNat = c := by
            rintro ⟨q, hq, hq1, hq2⟩
            rcases List.mem_cons.mp hq with rfl | hq
            · exact hpc hq2
            · exact hrest ⟨q, hq, hq1, hq2⟩
          rw [if_neg hall, List.getElem?_set_ne hpc]
    · rw [if_neg hy]
      obtain ⟨buf', hb, hl, hget⟩ := ih buf (fun q hq => h q (List.mem_cons_of_mem _ hq))
      refine ⟨buf', hb, hl, ?_⟩
      intro c
      rw [hget c]
      have hiff : (∃ q ∈ rest, q.y = row ∧ q.x.toNat = c) ↔
          (∃ q ∈ p :: rest, q.y = row ∧ q.x.toNat = c) := by
        constructor
        · rintro ⟨q, hq, hq'⟩
          exact ⟨q, List.mem_cons_of_mem _ hq, hq'⟩
        · rintro ⟨q, hq, hq1, hq2⟩
          rcases List.mem_cons.mp hq with rfl | hq
          · exact absurd hq1 hy
          · exact ⟨q, hq, hq1, hq2⟩
      simp only [hiff]

theorem join_cells_data : ∀ (l : List Int), (∀ v ∈ l, v = unset ∨ v = set) →
    (String.join (l.map (fun p =>
      if p = set then "X" else if p = unset then " " else ""))).data =
      l.map (fun v => if v = set then 'X' else ' ') := by
  intro l
  induction l with
  | nil => intro _; rfl
  | cons a rest ih =>
    intro h
    have ih' := ih (fun v hv => h v (List.mem_cons_of_mem _ hv))
    rw [String.data_join] at ih' ⊢
    simp only [List.map_cons, List.flatten_cons]
    rw [ih']
    rcases h a (List.mem_cons_self _ _) with ha | ha
    · subst ha
      rfl
    · subst ha
      rfl

theorem rowState_print_eq (buf : List Int) (n : Nat) (Q : Nat → Prop) [DecidablePred Q]
    (hlen : buf.length = n)
    (hget : ∀ c : Nat, buf[c]?.getD 0 = if Q c then set else 0) :
    rowState.print buf =
      leftPadding ++ String.mk ((List.range n).map (fun c => if Q c then 'X' else ' ')) ++
        "\n" := by
  have hval : ∀ v ∈ buf, v = unset ∨ v = set := by
    intro v hv
    obtain ⟨c, hc, rfl⟩ := List.getElem_of_mem hv
    have := hget c
    rw [List.getElem?_eq_getElem hc] at this
    simp only [Option.getD_some] at this
    rw [this]
    split
    · exact Or.inr rfl
    · exact Or.inl rfl
  apply String.ext
  unfold rowState.print
  simp only [String.data_append]
  rw [join_cells_data buf hval]
  congr 2
  apply List.ext_getElem
  · simp [hlen]
  · intro c h1 h2
    simp only [List.getElem_map, List.getElem_range]
    have hc : c < buf.length := by simpa using h1
    have := hget c
    rw [List.getElem?_eq_getElem hc] at this
    simp only [Option.getD_some] at this
    rw [this]
    by_cases hq : Q c
    · simp [hq]
    · simp only [hq, if_false]
      rfl

theorem String_join_cons (a : String) (l : List String) :
    String.join (a :: l) = a ++ String.join l := by
  apply String.ext
  simp [String.data_join]

theorem foldlM_join (f : String → Nat → Except Fault String) (line : Nat → String) :
    ∀ (l : List Nat) (out : String), (∀ r ∈ l, ∀ o, f o r = .ok (o ++ line r)) →
      l.foldlM f out = .ok (out ++ String.join (l.map line)) := by
  intro l
  induction l with
  | nil =>
    intro out _
    simp only [List.foldlM_nil, List.map_nil]
    have : String.join [] = "" := rfl
    rw [this, String.append_empty]
    rfl
  | cons r rest ih =>
    intro out h
    rw [List.foldlM_cons, h r (List.mem_cons_self _ _) out]
    simp only [bind, Except.bind]
    rw [ih (out ++ line r) (fun r' hr' => h r' (List.mem_cons_of_mem _ hr')),
      List.map_cons, String_join_cons, String.append_assoc]

theorem transform_exact (ps : List point) (rows cols : Int) (hr : 0 < rows) (hc : 0 < cols)
    (lowX highX lowY highY : Int)
    (hdims : shapeDimensions (ps.map (fun p => (⟨p.x % cols, p.y % rows⟩ : point))) rows cols =
      (lowX, highX, lowY, highY)) :
    transform ps rows cols = .ok
      ((ps.map (fun p => (⟨p.x % cols, p.y % rows⟩ : point))).map
        (fun p => ⟨p.x - lowX, p.y - lowY⟩), highY - lowY + 1, highX - lowX + 1) := by
  unfold transform
  rw [mapM_transform_dims rows cols hr hc ps]
  simp only [bind, Except.bind]
  rw [hdims]
  rfl

theorem printRow_eq (cells : List point) (lowX highX lowY : Int)
    (hw : 0 ≤ highX - lowX + 1)
    (hlow : ∀ c ∈ cells, lowX ≤ c.x ∧ c.x ≤ highX) (sorted : List point)
    (hperm : sorted.Perm (cells.map (fun p => ⟨p.x - lowX, p.y - lowY⟩)))
    (out : String) (r : Nat) :
    printRow (highX - lowX + 1) sorted out r =
      .ok (out ++ blockLine cells lowX lowY (highX - lowX + 1).toNat r) := by
  have hmem : ∀ p, p ∈ sorted ↔ ∃ q ∈ cells, p = ⟨q.x - lowX, q.y - lowY⟩ := by
    intro p
    rw [hperm.mem_iff, List.mem_map]
    constructor
    · rintro ⟨q, hq, rfl⟩
      exact ⟨q, hq, rfl⟩
    · rintro ⟨q, hq, rfl⟩
      exact ⟨q, hq, rfl⟩
  obtain ⟨buf, hbuf, hlen, hget⟩ := fillRow_spec (r : Int) sorted
    (List.replicate (highX - lowX + 1).toNat 0) (by
      intro p hp
      obtain ⟨q, hq, rfl⟩ := (hmem p).mp hp
      have := hlow q hq
      rw [List.length_replicate]
      exact ⟨by simp only; omega, by simp only; omega⟩)
  rw [List.length_replicate] at hlen
  have hget' : ∀ c : Nat, buf[c]?.getD 0 =
      if (∃ p ∈ sorted, p.y = (r : Int) ∧ p.x.toNat = c) then set else 0 := by
    intro c
    rw [hget c]
    have : (List.replicate (highX - lowX + 1).toNat (0 : Int))[c]?.getD 0 = 0 := by
      rw [List.getElem?_replicate]
      split <;> rfl
    rw [this]
  unfold printRow makeRow
  rw [if_neg (by omega)]
  simp only [bind, Except.bind, pure, Except.pure]
  rw [hbuf]
  simp only []
  rw [rowState_print_eq buf (highX - lowX + 1).toNat
    (fun c => ∃ p ∈ sorted, p.y = (r : Int) ∧ p.x.toNat = c) hlen hget']
  unfold blockLine
  congr 5
  apply List.map_congr_left
  intro c _
  have hiff : (∃ p ∈ sorted, p.y = (r : Int) ∧ p.x.toNat = c) ↔
      (⟨lowX + (c : Int), lowY + (r : Int)⟩ : point) ∈ cells := by
    constructor
    · rintro ⟨p, hp, hy, hx⟩
      obtain ⟨q, hq, rfl⟩ := (hmem p).mp hp
      have := hlow q hq
      simp only at hy hx
      have e : q = ⟨lowX + (c : Int), lowY + (r : Int)⟩ := by
        cases q
        simp only [point.mk.injEq] at *
        constructor <;> omega
      rw [← e]
      exact hq
    · intro hq
      refine ⟨⟨lowX + (c : Int) - lowX, lowY + (r : Int) - lowY⟩,
        (hmem _).mpr ⟨_, hq, rfl⟩, by simp only; omega, by simp only; omega⟩
  simp only [hiff]

theorem print_format (shp : shape) (rows cols : Int) (hr : 0 < rows) (hc : 0 < cols)
    (hne : shp.points ≠ []) (lowX highX lowY highY : Int)
    (hlx : (∃ c ∈ shp.points.map (fun p => (⟨p.x % cols, p.y % rows⟩ : point)), c.x = lowX) ∧
      ∀ c ∈ shp.points.map (fun p => (⟨p.x % cols, p.y % rows⟩ : point)), lowX ≤ c.x)
    (hhx : (∃ c ∈ shp.points.map (fun p => (⟨p.x % cols, p.y % rows⟩ : point)), c.x = highX) ∧
      ∀ c ∈ shp.points.map (fun p => (⟨p.x % cols, p.y % rows⟩ : point)), c.x ≤ highX)
    (hly : (∃ c ∈ shp.points.map (fun p => (⟨p.x % cols, p.y % rows⟩ : point)), c.y = lowY) ∧
      ∀ c ∈ shp.points.map (fun p => (⟨p.x % cols, p.y % rows⟩ : point)), lowY ≤ c.y)
    (hhy : (∃ c ∈ shp.points.map (fun p => (⟨p.x % cols, p.y % rows⟩ : point)), c.y = highY) ∧
      ∀ c ∈ shp.points.map (fun p => (⟨p.x % cols, p.y % rows⟩ : point)), c.y ≤ highY) :
    shp.print rows cols = .ok
      (expectedBlock (shp.points.map (fun p => (⟨p.x % cols, p.y % rows⟩ : point)))
        lowX lowY (highY - lowY + 1).toNat (highX - lowX + 1).toNat) := by
  have hcne : shp.points.map (fun p => (⟨p.x % cols, p.y % rows⟩ : point)) ≠ [] := by
    simpa using hne
  have hin : ∀ c ∈ shp.points.map (fun p => (⟨p.x % cols, p.y % rows⟩ : point)),
      0 ≤ c.x ∧ c.x < cols ∧ 0 ≤ c.y ∧ c.y < rows := by
    intro c hcm
    obtain ⟨p, _, rfl⟩ := List.mem_map.mp hcm
    exact ⟨Int.emod_nonneg _ (by omega), Int.emod_lt_of_pos _ hc,
      Int.emod_nonneg _ (by omega), Int.emod_lt_of_pos _ hr⟩
  have hdims := shapeDimensions_exact _ rows cols hcne hin lowX highX lowY highY
    hlx hhx hly hhy
  obtain ⟨⟨c1, hc1, e1⟩, l1⟩ := hlx
  obtain ⟨⟨c3, hc3, e3⟩, l3⟩ := hly
  have hw : 0 < highX - lowX + 1 := by
    have := hhx.2 c1 hc1
    omega
  have hh : 0 < highY - lowY + 1 := by
    have := hhy.2 c3 hc3
    omega
  obtain ⟨sorted, hsort, hperm⟩ := sortByIndex_ok
    ((shp.points.map (fun p => (⟨p.x % cols, p.y % rows⟩ : point))).map
      (fun p => ⟨p.x - lowX, p.y - lowY⟩))
    (highY - lowY + 1) (highX - lowX + 1) (fun _ => ⟨hh, hw⟩)
  have hbody := foldlM_join (printRow (highX - lowX + 1) sorted)
    (blockLine (shp.points.map (fun p => (⟨p.x % cols, p.y % rows⟩ : point))) lowX lowY
      (highX - lowX + 1).toNat)
    (List.range (highY - lowY + 1).toNat) "" (fun r _ o =>
      printRow_eq _ lowX highX lowY (le_of_lt hw) (fun c hcm => ⟨l1 c hcm, hhx.2 c hcm⟩)
        sorted hperm o r)
  have hpad : (leftPadding.length : Int) = 4 := by decide
  have hdash : (highX - lowX + 1 + 4).toNat = (highX - lowX + 1).toNat + 4 := by omega
  unfold shape.print
  rw [transform_exact shp.points rows cols hr hc lowX highX lowY highY hdims]
  simp only [bind, Except.bind]
  rw [hsort]
  simp only []
  rw [hbody]
  simp only [repeatDash, hpad]
  rw [if_neg (by omega), hdash]
  rfl

/-- C12: for positive grid dimensions and a shape with at least one point, whose
wrapped points have the least and greatest coordinates `lowX, highX, lowY, highY`,
`shape.print` writes `highY - lowY + 1` text rows, each the 4-space margin, then
`highX - lowX + 1` characters, an `X` where a point of the shape wraps to
`(lowX + c, lowY + r)` and a space elsewhere, then a line break; after them one line
of `highX - lowX + 1 + 4` dashes and a line break. -/
theorem print_block_format (shp : shape) (rows cols : Int) (hr : 1 ≤ rows) (hc : 1 ≤ cols)
    (hne : shp.points ≠ []) (cells : List point)
    (hcells : shp.points.mapM (fun q => q.transform rows cols) = .ok cells)
    (lowX highX lowY highY : Int)
    (hlx : (∃ c ∈ cells, c.x = lowX) ∧ ∀ c ∈ cells, lowX ≤ c.x)
    (hhx : (∃ c ∈ cells, c.x = highX) ∧ ∀ c ∈ cells, c.x ≤ highX)
    (hly : (∃ c ∈ cells, c.y = lowY) ∧ ∀ c ∈ cells, lowY ≤ c.y)
    (hhy : (∃ c ∈ cells, c.y = highY) ∧ ∀ c ∈ cells, c.y ≤ highY) :
    shp.print rows cols = .ok
      (expectedBlock cells lowX lowY (highY - lowY + 1).toNat (highX - lowX + 1).toNat) ∧
    leftPadding = "    " ∧
    0 < (highY - lowY + 1).toNat ∧ 0 < (highX - lowX + 1).toNat ∧
    (∀ r, (blockLine cells lowX lowY (highX - lowX + 1).toNat r).length =
      4 + (highX - lowX + 1).toNat + 1) := by
  rw [mapM_transform_dims rows cols (by omega) (by omega)] at hcells
  injection hcells with hcells
  subst hcells
  refine ⟨print_format shp rows cols (by omega) (by omega) hne lowX highX lowY highY
    hlx hhx hly hhy, rfl, ?_, ?_, ?_⟩
  · obtain ⟨⟨c3, hc3, e3⟩, _⟩ := hly
    have := hhy.2 c3 hc3
    omega
  · obtain ⟨⟨c1, hc1, e1⟩, _⟩ := hlx
    have := hhx.2 c1 hc1
    omega
  · intro r
    unfold blockLine
    simp only [String.length_append, String.length_mk, List.length_map, List.length_range]
    rfl

/-- C12, at the shape of the last grid of `TestIntegration`, 3 rows and 4 columns. -/
theorem print_block_format_witness :
    (1 : Int) ≤ 3 ∧ (1 : Int) ≤ 4 ∧ edgeShape.points ≠ [] ∧
    edgeShape.points.mapM (fun q => q.transform 3 4) = .ok edgeCells ∧
    ((∃ c ∈ edgeCells, c.x = 0) ∧ ∀ c ∈ edgeCells, 0 ≤ c.x) ∧
    ((∃ c ∈ edgeCells, c.x = 3) ∧ ∀ c ∈ edgeCells, c.x ≤ 3) ∧
    ((∃ c ∈ edgeCells, c.y = 0) ∧ ∀ c ∈ edgeCells, 0 ≤ c.y) ∧
    ((∃ c ∈ edgeCells, c.y = 2) ∧ ∀ c ∈ edgeCells, c.y ≤ 2) ∧
    expectedBlock edgeCells 0 0 ((2 : Int) - 0 + 1).toNat ((3 : Int) - 0 + 1).toNat =
      "       X\n    XXXX\n       X\n--------\n" ∧
    edgeShape.print 3 4 = .ok
      (expectedBlock edgeCells 0 0 ((2 : Int) - 0 + 1).toNat ((3 : Int) - 0 + 1).toNat) :=
  ⟨by decide, by decide, by decide, by decide, by decide, by decide, by decide, by decide,
    by decide,
    (print_block_format edgeShape 3 4 (by decide) (by decide) (by decide) edgeCells
      (by decide) 0 3 0 2 (by decide) (by decide) (by decide) (by decide)).1⟩

/-! ## The width of a block -/

theorem shapeDimensions_extremes (cells : List point) (rows cols : Int) (hne : cells ≠ [])
    (hin : ∀ c ∈ cells, 0 ≤ c.x ∧ c.x < cols ∧ 0 ≤ c.y ∧ c.y < rows) :
    ((∃ c ∈ cells, c.x = (shapeDimensions cells rows cols).1) ∧
      ∀ c ∈ cells, (shapeDimensions cells rows cols).1 ≤ c.x) ∧
    ((∃ c ∈ cells, c.x = (shapeDimensions cells rows cols).2.1) ∧
      ∀ c ∈ cells, c.x ≤ (shapeDimensions cells rows cols).2.1) ∧
    ((∃ c ∈ cells, c.y = (shapeDimensions cells rows cols).2.2.1) ∧
      ∀ c ∈ cells, (shapeDimensions cells rows cols).2.2.1 ≤ c.y) ∧
    ((∃ c ∈ cells, c.y = (shapeDimensions cells rows cols).2.2.2) ∧
      ∀ c ∈ cells, c.y ≤ (shapeDimensions cells rows cols).2.2.2) := by
  obtain ⟨q, hq⟩ := List.exists_mem_of_ne_nil _ hne
  have hb := shapeDimensions_bounds cells rows cols
  obtain ⟨a1, a2, a3, a4⟩ := dimStep_fold_attained cells (cols, 0, rows, 0)
  have hq' := hb q hq
  have hqin := hin q hq
  refine ⟨⟨?_, fun c hc => (hb c hc).1⟩, ⟨?_, fun c hc => (hb c hc).2.1⟩,
    ⟨?_, fun c hc => (hb c hc).2.2.1⟩, ⟨?_, fun c hc => (hb c hc).2.2.2⟩⟩
  · rcases a1 with h | ⟨p, hp, h⟩
    · have : (shapeDimensions cells rows cols).1 = cols := h
      omega
    · exact ⟨p, hp, h.symm⟩
  · rcases a2 with h | ⟨p, hp, h⟩
    · have : (shapeDimensions cells rows cols).2.1 = 0 := h
      exact ⟨q, hq, by omega⟩
    · exact ⟨p, hp, h.symm⟩
  · rcases a3 with h | ⟨p, hp, h⟩
    · have : (shapeDimensions cells rows cols).2.2.1 = rows := h
      omega
    · exact ⟨p, hp, h.symm⟩
  · rcases a4 with h | ⟨p, hp, h⟩
    · have : (shapeDimensions cells rows cols).2.2.2 = 0 := h
      exact ⟨q, hq, by omega⟩
    · exact ⟨p, hp, h.symm⟩

/-- C13, refuted as stated: in the one-row grid `1 0 0 1` the scan finds the shape
`[(0, 0), (-1, 0)]`, which spans the edge; its unwrapped extent is 2, yet `transform`
gives the block the width 4, the width of the grid, and `Print` writes rows of 4
characters. -/
theorem wraparound_width_counterexample :
    New rowGrid14 = .ok (.ok ⟨[[2, 2, 2, 2]], [⟨[⟨0, 0⟩, ⟨-1, 0⟩]⟩], 1, 4⟩) ∧
    rawExtentX [⟨0, 0⟩, ⟨-1, 0⟩] = 2 ∧
    transform [⟨0, 0⟩, ⟨-1, 0⟩] 1 4 = .ok ([⟨0, 0⟩, ⟨3, 0⟩], 1, 4) ∧
    state.Print ⟨[[2, 2, 2, 2]], [⟨[⟨0, 0⟩, ⟨-1, 0⟩]⟩], 1, 4⟩ =
      .ok "    X  X\n--------\n" ∧
    (4 : Int) ≠ rawExtentX [⟨0, 0⟩, ⟨-1, 0⟩] := by
  refine ⟨by decide, by decide, by decide, by decide, by decide⟩

/-- C13, amended: for positive grid dimensions, a shape with a point that wraps to the
first column and a point that wraps to the last column is rendered with the width of
the grid: `transform` returns the width `cols` and every text row of the block holds
`cols` characters after the margin. -/
theorem print_width_across_edge (shp : shape) (rows cols : Int) (hr : 1 ≤ rows)
    (hc : 1 ≤ cols) (cells : List point)
    (hcells : shp.points.mapM (fun q => q.transform rows cols) = .ok cells)
    (hfirst : ∃ c ∈ cells, c.x = 0) (hlast : ∃ c ∈ cells, c.x = cols - 1) :
    ∃ tp height lowY, transform shp.points rows cols = .ok (tp, height, cols) ∧
      shp.print rows cols = .ok (expectedBlock cells 0 lowY height.toNat cols.toNat) ∧
      ∀ r, (blockLine cells 0 lowY cols.toNat r).length = 4 + cols.toNat + 1 := by
  rw [mapM_transform_dims rows cols (by omega) (by omega)] at hcells
  injection hcells with hcells
  subst hcells
  have hne : shp.points ≠ [] := by
    obtain ⟨c, hcm, _⟩ := hfirst
    intro e
    rw [e] at hcm
    simp at hcm
  have hcne : shp.points.map (fun p => (⟨p.x % cols, p.y % rows⟩ : point)) ≠ [] := by
    simpa using hne
  have hin : ∀ c ∈ shp.points.map (fun p => (⟨p.x % cols, p.y % rows⟩ : point)),
      0 ≤ c.x ∧ c.x < cols ∧ 0 ≤ c.y ∧ c.y < rows := by
    intro c hcm
    obtain ⟨p, _, rfl⟩ := List.mem_map.mp hcm
    exact ⟨Int.emod_nonneg _ (by omega), Int.emod_lt_of_pos _ (by omega),
      Int.emod_nonneg _ (by omega), Int.emod_lt_of_pos _ (by omega)⟩
  obtain ⟨_, _, hly, hhy⟩ := shapeDimensions_extremes _ rows cols hcne hin
  have hlx : (∃ c ∈ shp.points.map (fun p => (⟨p.x % cols, p.y % rows⟩ : point)), c.x = 0) ∧
      ∀ c ∈ shp.points.map (fun p => (⟨p.x % cols, p.y % rows⟩ : point)), 0 ≤ c.x :=
    ⟨hfirst, fun c hcm => (hin c hcm).1⟩
  have hhx : (∃ c ∈ shp.points.map (fun p => (⟨p.x % cols, p.y % rows⟩ : point)),
      c.x = cols - 1) ∧
      ∀ c ∈ shp.points.map (fun p => (⟨p.x % cols, p.y % rows⟩ : point)), c.x ≤ cols - 1 :=
    ⟨hlast, fun c hcm => by have := (hin c hcm).2.1; omega⟩
  have hdims := shapeDimensions_exact _ rows cols hcne hin 0 (cols - 1) _ _ hlx hhx hly hhy
  have hw : cols - 1 - 0 + 1 = cols := by ring
  have ht := transform_exact shp.points rows cols (by omega) (by omega) _ _ _ _ hdims
  have hp := print_format shp rows cols (by omega) (by omega) hne 0 (cols - 1) _ _
    hlx hhx hly hhy
  rw [hw] at ht hp
  refine ⟨_, _, _, ht, hp, ?_⟩
  intro r
  unfold blockLine
  simp only [String.length_append, String.length_mk, List.length_map, List.length_range]
  rfl

/-- C13, amended, at the shape of the last grid of `TestIntegration`. -/
theorem print_width_across_edge_witness :
    (1 : Int) ≤ 3 ∧ (1 : Int) ≤ 4 ∧
    edgeShape.points.mapM (fun q => q.transform 3 4) = .ok edgeCells ∧
    (∃ c ∈ edgeCells, c.x = 0) ∧ (∃ c ∈ edgeCells, c.x = 4 - 1) ∧
    ∃ tp height lowY, transform edgeShape.points 3 4 = .ok (tp, height, 4) ∧
      edgeShape.print 3 4 = .ok (expectedBlock edgeCells 0 lowY height.toNat (4 : Int).toNat) ∧
      ∀ r, (blockLine edgeCells 0 lowY (4 : Int).toNat r).length = 4 + (4 : Int).toNat + 1 :=
  ⟨by decide, by decide, by decide, by decide, by decide,
    print_width_across_edge edgeShape 3 4 (by decide) (by decide) edgeCells (by decide)
      (by decide) (by decide)⟩

/-! ## The scan, cell by cell -/

theorem range_foldlM_inv {σ : Type} (I : Nat → σ → Prop) (f : σ → Nat → Except Fault σ) :
    ∀ (n : Nat), (∀ k s, k < n → I k s → ∃ s', f s k = .ok s' ∧ I (k + 1) s') →
      ∀ s, I 0 s → ∃ s', (List.range n).foldlM f s = .ok s' ∧ I n s' := by
  intro n
  induction n with
  | zero =>
    intro _ s hs
    exact ⟨s, rfl, hs⟩
  | succ n ih =>
    intro h s hs
    obtain ⟨s1, h1, hI1⟩ := ih (fun k t hk ht => h k t (by omega) ht) s hs
    obtain ⟨s2, h2, hI2⟩ := h n s1 (by omega) hI1
    refine ⟨s2, ?_, hI2⟩
    rw [List.range_succ, List.foldlM_append, h1]
    simp only [bind, Except.bind, List.foldlM_cons, List.foldlM_nil]
    rw [h2]
    rfl

theorem cellAt_congr (s s' : state) (hg : s'.grid = s.grid) (r c : Nat) :
    s'.cellAt r c = s.cellAt r c := by
  simp only [state.cellAt, hg]

theorem occupied_congr (s s' : state) (hg : s'.grid = s.grid) (hr : s'.rows = s.rows)
    (hc : s'.cols = s.cols) (c : point) : s'.occupied c ↔ s.occupied c := by
  simp only [state.occupied, state.inGrid, hr, hc, cellAt_congr s s' hg]

theorem normRow_getPoint (s : state) (hs : s.rectangular) (r c : Nat)
    (hr : r < s.rows.toNat) : s.normRow (getPoint (c : Int) (r : Int)) = r := by
  have := hs.1
  unfold state.normRow getPoint
  simp only
  rw [Int.emod_eq_of_lt (by omega) (by omega)]
  simp

theorem normCol_getPoint (s : state) (hs : s.rectangular) (r c : Nat)
    (hc : c < s.cols.toNat) : s.normCol (getPoint (c : Int) (r : Int)) = c := by
  have := hs.2.1
  unfold state.normCol getPoint
  simp only
  rw [Int.emod_eq_of_lt (by omega) (by omega)]
  simp

theorem norm_getPoint (s : state) (hs : s.rectangular) (r c : Nat)
    (hr : r < s.rows.toNat) (hc : c < s.cols.toNat) :
    s.norm (getPoint (c : Int) (r : Int)) = getPoint (c : Int) (r : Int) := by
  have h1 := hs.1
  have h2 := hs.2.1
  apply norm_of_inGrid
  unfold state.inGrid getPoint
  simp only
  omega

theorem scanCell_visits (fuel : Nat) (rows cols : Int)
    (hfuel : rows.toNat * cols.toNat < fuel) (s : state) (r c : Nat)
    (hr : r < rows.toNat) (hc : c < cols.toNat) (hI : ScanInv rows cols s)
    (hb : s.visitedBefore r c) :
    ∃ s', s.scanCell fuel r c = .ok s' ∧ ScanInv rows cols s' ∧ s'.visitedBefore r (c + 1) := by
  obtain ⟨s1, res, s', _, hP, hrun, hg, hrw, hcl, hreg, hcls, _⟩ :=
    scanCell_spec fuel s r c hI.rect (by rw [hI.rows, hI.cols]; exact hfuel)
      hI.regOK hI.classes
  have hrect : s'.rectangular := rectangular_congr s1 s' hg (hrw.trans hP.frame.rows.symm)
    (hcl.trans hP.frame.cols.symm) hP.frame.rect
  refine ⟨s', hrun, ⟨hrect, hrw.trans hI.rows, hcl.trans hI.cols, hreg, hcls⟩, ?_⟩
  intro r' c' hr' hc' hlt
  rw [cellAt_congr s1 s' hg]
  rw [hrw] at hr'
  rw [hcl] at hc'
  by_cases hcur : r' = r ∧ c' = c
  · obtain ⟨rfl, rfl⟩ := hcur
    have := hP.seedMarked
    rw [normRow_getPoint s hI.rect r' c' hr', normCol_getPoint s hI.rect r' c' hc'] at this
    exact this
  · refine hP.frame.visited_stays r' c' (hb r' c' hr' hc' ?_)
    rcases hlt with h | ⟨h1, h2⟩
    · exact Or.inl h
    · refine Or.inr ⟨h1, ?_⟩
      by_contra hge
      exact hcur ⟨h1, by omega⟩

theorem scan_inv (fuel : Nat) (rows cols : Int) (hfuel : rows.toNat * cols.toNat < fuel)
    (J : state → Prop)
    (hstep : ∀ s r c s', r < rows.toNat → c < cols.toNat → ScanInv rows cols s → J s →
      s.visitedBefore r c → s.scanCell fuel r c = .ok s' → J s')
    (s : state) (hI : ScanInv rows cols s) (hJ : J s) :
    ∃ s', s.findShapes fuel = .ok s' ∧ ScanInv rows cols s' ∧ J s' ∧
      ∀ r c, r < rows.toNat → c < cols.toNat → s'.cellAt r c = some visited := by
  unfold state.findShapes
  rw [hI.rows, hI.cols]
  obtain ⟨s', hrun, hI', hJ', hvis⟩ := range_foldlM_inv
    (fun r st => ScanInv rows cols st ∧ J st ∧ st.visitedBefore r 0) _ rows.toNat
    (by
      intro r st hr ⟨hst, hJst, hvb⟩
      obtain ⟨st', hrun', hI', hJ', hvis'⟩ := range_foldlM_inv
        (fun c st => ScanInv rows cols st ∧ J st ∧ st.visitedBefore r c) _ cols.toNat
        (by
          intro c st2 hc ⟨hst2, hJst2, hvb2⟩
          obtain ⟨st3, hrun3, hI3, hvb3⟩ :=
            scanCell_visits fuel rows cols hfuel st2 r c hr hc hst2 hvb2
          exact ⟨st3, hrun3, hI3, hstep st2 r c st3 hr hc hst2 hJst2 hvb2 hrun3, hvb3⟩)
        st ⟨hst, hJst, hvb⟩
      refine ⟨st', hrun', hI', hJ', ?_⟩
      intro r' c' hr' hc' hlt
      refine hvis' r' c' hr' hc' ?_
      rcases hlt with h | ⟨_, h⟩
      · rcases Nat.lt_succ_iff_lt_or_eq.mp h with h | h
        · exact Or.inl h
        · exact Or.inr ⟨h, by rw [hI'.cols] at hc'; exact hc'⟩
      · omega)
    s ⟨hI, hJ, by
      intro r' c' _ _ hlt
      omega⟩
  refine ⟨s', hrun, hI', hJ', ?_⟩
  intro r c hr hc
  exact hvis r c (by rw [hI'.rows]; exact hr) (by rw [hI'.cols]; exact hc) (Or.inl hr)

theorem initState_scanInv (g : List (List Int)) (hg : rectangularGrid g) :
    ScanInv (g.length : Int) ((g.headD []).length : Int) (initState g) := by
  obtain ⟨hne, hall⟩ := hg
  cases g with
  | nil => exact absurd rfl hne
  | cons row0 rest =>
    have h0 := hall row0 (List.mem_cons_self _ _)
    have hlen0 : 0 < row0.length := List.length_pos.mpr h0.1
    refine ⟨⟨?_, ?_, rfl, ?_⟩, rfl, rfl, ?_, List.Pairwise.nil⟩
    · show (0 : Int) < ((row0 :: rest).length : Int)
      exact Int.ofNat_lt.mpr (Nat.succ_pos _)
    · show (0 : Int) < (row0.length : Int)
      omega
    · intro row hrow
      have := (hall row hrow).2
      simp only [List.headD_cons] at this
      show (row.length : Int) = (row0.length : Int)
      rw [this]
    · intro shp hshp
      simp [initState] at hshp

theorem New_eq_scan (g : List (List Int)) (hg : rectangularGrid g) :
    New g = (state.findShapes (g.length * (g.headD []).length + 1) (initState g)).map
      Except.ok := by
  obtain ⟨hne, hall⟩ := hg
  cases g with
  | nil => exact absurd rfl hne
  | cons row0 rest =>
    cases row0 with
    | nil => exact absurd rfl (hall [] (List.mem_cons_self _ _)).1
    | cons a row => exact New_cons_cons a row rest

theorem New_scan (g : List (List Int)) (hg : rectangularGrid g) (J : state → Prop)
    (hstep : ∀ s r c s', r < g.length → c < (g.headD []).length →
      ScanInv (g.length : Int) ((g.headD []).length : Int) s → J s →
      s.visitedBefore r c →
      s.scanCell (g.length * (g.headD []).length + 1) r c = .ok s' → J s')
    (hJ : J (initState g)) :
    ∃ st, New g = .ok (.ok st) ∧
      ScanInv (g.length : Int) ((g.headD []).length : Int) st ∧ J st ∧
      ∀ r c, r < g.length → c < (g.headD []).length → st.cellAt r c = some visited := by
  obtain ⟨st, hrun, hI, hJ', hvis⟩ := scan_inv (g.length * (g.headD []).length + 1)
    (g.length : Int) ((g.headD []).length : Int) (by simp) J
    (fun s r c s' hr hc => hstep s r c s' (by simpa using hr) (by simpa using hc))
    (initState g) (initState_scanInv g hg) hJ
  refine ⟨st, ?_, hI, hJ', fun r c hr hc => hvis r c (by simpa using hr) (by simpa using hc)⟩
  rw [New_eq_scan g hg, hrun]
  rfl

theorem scanCell_unoccupied (fuel : Nat) (rows cols : Int)
    (hfuel : rows.toNat * cols.toNat < fuel) (s : state) (r c : Nat) (s' : state)
    (hI : ScanInv rows cols s)
    (hno : ¬ s.occupied (s.norm (getPoint (c : Int) (r : Int))))
    (hrun : s.scanCell fuel r c = .ok s') :
    s'.shapes = s.shapes ∧ ∀ q, s'.occupied q ↔ s.occupied q := by
  obtain ⟨s1, res, s'', _, hP, hrun', hg, hrw, hcl, _, _, hcase⟩ :=
    scanCell_spec fuel s r c hI.rect (by rw [hI.rows, hI.cols]; exact hfuel)
      hI.regOK hI.classes
  rw [hrun] at hrun'
  injection hrun' with e
  subst e
  have hres : res = none := by
    cases res with
    | none => rfl
    | some shp => exact absurd (hP.first shp rfl).1 hno
  subst hres
  refine ⟨?_, ?_⟩
  · rcases hcase with ⟨shp, h, _⟩ | ⟨h, _⟩
    · cases h
    · exact h
  · intro q
    rw [occupied_congr s1 s' hg (hrw.trans hP.frame.rows.symm) (hcl.trans hP.frame.cols.symm)]
    constructor
    · exact hP.frame.occupied q
    · intro hq
      exact hP.kept q hq (by simp [resultPoints])

theorem scanCell_occupied (fuel : Nat) (rows cols : Int)
    (hfuel : rows.toNat * cols.toNat < fuel) (s : state) (r c : Nat) (s' : state)
    (hI : ScanInv rows cols s)
    (hocc : s.occupied (s.norm (getPoint (c : Int) (r : Int))))
    (hrun : s.scanCell fuel r c = .ok s') :
    ∃ s1 shp, s.findShape fuel (getPoint (c : Int) (r : Int)) = .ok (s1, some shp) ∧
      Post s (getPoint (c : Int) (r : Int)) s1 (some shp) ∧
      (∀ q, s'.occupied q ↔ s1.occupied q) ∧
      ((s1.hasShape shp = .ok false ∧ s'.shapes = s.shapes ++ [shp]) ∨
        (s1.hasShape shp = .ok true ∧ s'.shapes = s.shapes)) := by
  obtain ⟨s1, res, s'', hfind, hP, hrun', hg, hrw, hcl, _, _, hcase⟩ :=
    scanCell_spec fuel s r c hI.rect (by rw [hI.rows, hI.cols]; exact hfuel)
      hI.regOK hI.classes
  rw [hrun] at hrun'
  injection hrun' with e
  subst e
  obtain ⟨shp, hshp⟩ := hP.produces hocc
  subst hshp
  refine ⟨s1, shp, hfind, hP, ?_, ?_⟩
  · intro q
    exact occupied_congr s1 s' hg (hrw.trans hP.frame.rows.symm)
      (hcl.trans hP.frame.cols.symm) q
  · rcases hcase with ⟨shp', h1, h2, h3⟩ | ⟨h1, h2⟩
    · injection h1 with h1
      subst h1
      exact Or.inl ⟨h2, h3⟩
    · rcases h2 with h2 | ⟨shp', h2, h3⟩
      · cases h2
      · injection h2 with h2
        subst h2
        exact Or.inr ⟨h3, h1⟩

/-! ## A single occupied cell -/

theorem print_single (rows cols : Int) (hr : 0 < rows) (hc : 0 < cols) (p : point) :
    (⟨[p]⟩ : shape).print rows cols = .ok "    X\n-----\n" := by
  have h := print_format ⟨[p]⟩ rows cols hr hc (by simp) (p.x % cols) (p.x % cols)
    (p.y % rows) (p.y % rows) (by simp) (by simp) (by simp) (by simp)
  rw [h]
  simp only [sub_self, zero_add, Int.toNat_one, List.map_cons, List.map_nil]
  have hline : blockLine [(⟨p.x % cols, p.y % rows⟩ : point)] (p.x % cols) (p.y % rows) 1 0 =
      "    X\n" := by
    unfold blockLine
    simp only [List.range_succ, List.range_zero, List.nil_append, List.map_cons, List.map_nil,
      Nat.cast_zero, add_zero, List.mem_singleton, if_true]
    decide
  unfold expectedBlock
  simp only [List.range_succ, List.range_zero, List.nil_append, List.map_cons, List.map_nil,
    hline]
  decide

theorem single_cell_step (fuel : Nat) (rows cols : Int)
    (hfuel : rows.toNat * cols.toNat < fuel) (c0 : point) (s : state) (r c : Nat)
    (s' : state) (hr : r < rows.toNat) (hc : c < cols.toNat) (hI : ScanInv rows cols s)
    (hJ : (s.shapes = [] ∧ ∀ q, s.occupied q ↔ q = c0) ∨
      (s.shapes = [⟨[c0]⟩] ∧ ∀ q, ¬ s.occupied q))
    (hrun : s.scanCell fuel r c = .ok s') :
    (s'.shapes = [] ∧ ∀ q, s'.occupied q ↔ q = c0) ∨
      (s'.shapes = [⟨[c0]⟩] ∧ ∀ q, ¬ s'.occupied q) := by
  have hnorm : s.norm (getPoint (c : Int) (r : Int)) = getPoint (c : Int) (r : Int) :=
    norm_getPoint s hI.rect r c (by rw [hI.rows]; exact hr) (by rw [hI.cols]; exact hc)
  by_cases hocc : s.occupied (s.norm (getPoint (c : Int) (r : Int)))
  · rcases hJ with ⟨hsh, hiff⟩ | ⟨_, hnone⟩
    · obtain ⟨s1, shp, _, hP, hocc', hcase⟩ :=
        scanCell_occupied fuel rows cols hfuel s r c s' hI hocc hrun
      have hp0 : getPoint (c : Int) (r : Int) = c0 := by
        rw [← hnorm]
        exact (hiff _).mp hocc
      obtain ⟨_, rest, hrest⟩ := hP.first shp rfl
      have hnd := hP.nodup
      simp only [resultPoints, hrest, List.map_cons] at hnd
      have hrest_nil : rest = [] := by
        cases rest with
        | nil => rfl
        | cons q rest' =>
          exfalso
          have hq : s.norm q ∈ (resultPoints (some shp)).map s.norm := by
            simp [resultPoints, hrest]
          have hq0 : s.norm q = c0 :=
            (hiff _).mp (reachable_occupied s _ _ (hP.sound _ hq))
          have hpn : s.norm (getPoint (c : Int) (r : Int)) = c0 := (hiff _).mp hocc
          rw [hpn, List.map_cons, hq0] at hnd
          simp at hnd
      have hshp : shp = ⟨[c0]⟩ := by
        cases shp
        simp only at hrest
        rw [hrest, hrest_nil, hp0]
      have hhas : s1.hasShape shp = .ok false := by
        rw [state.hasShape, hP.frame.shapes, hsh]
        rfl
      right
      refine ⟨?_, ?_⟩
      · rcases hcase with ⟨_, h⟩ | ⟨h, _⟩
        · rw [h, hsh, hshp]
          rfl
        · rw [hhas] at h
          cases h
      · intro q hq
        have hq1 := (hocc' q).mp hq
        have hq0 : q = c0 := (hiff q).mp (hP.frame.occupied q hq1)
        have hmem : q ∈ (resultPoints (some shp)).map s.norm := by
          rw [hq0]
          simp only [resultPoints, hrest, List.map_cons, List.mem_cons]
          left
          rw [hnorm, hp0]
        exact occupied_ne_visited s1 q hq1 (hP.marked q hmem)
    · exact absurd hocc (hnone _)
  · obtain ⟨hsh, hiff⟩ := scanCell_unoccupied fuel rows cols hfuel s r c s' hI hocc hrun
    rcases hJ with ⟨h1, h2⟩ | ⟨h1, h2⟩
    · exact Or.inl ⟨hsh.trans h1, fun q => (hiff q).trans (h2 q)⟩
    · exact Or.inr ⟨hsh.trans h1, fun q hq => h2 q ((hiff q).mp hq)⟩

theorem initState_occupied_iff (g : List (List Int)) (hg : rectangularGrid g) (r0 c0 : Nat)
    (h : onlyOccupied g r0 c0) (q : point) :
    (initState g).occupied q ↔ q = getPoint (c0 : Int) (r0 : Int) := by
  obtain ⟨hcell, hother⟩ := h
  have hrect := (initState_scanInv g hg).rect
  constructor
  · rintro ⟨⟨hx0, hx1, hy0, hy1⟩, hq⟩
    have hx1' : q.x < ((g.headD []).length : Int) := hx1
    have hy1' : q.y < (g.length : Int) := hy1
    by_contra hne
    apply hother q.y.toNat (by omega) q.x.toNat (by omega) ?_ hq
    intro e
    simp only [Prod.mk.injEq] at e
    apply hne
    cases q
    simp only [getPoint, point.mk.injEq] at *
    constructor <;> omega
  · rintro rfl
    obtain ⟨row, h1, h2⟩ := (cellAt_some_iff (initState g) r0 c0 set).mp hcell
    have hr0 : r0 < g.length := (List.getElem?_eq_some_iff.mp h1).1
    have hc0 : c0 < row.length := (List.getElem?_eq_some_iff.mp h2).1
    have hrow : (row.length : Int) = ((g.headD []).length : Int) :=
      hrect.2.2.2 row (List.getElem?_mem h1)
    refine ⟨⟨?_, ?_, ?_, ?_⟩, ?_⟩
    · show (0 : Int) ≤ (c0 : Int)
      omega
    · show (c0 : Int) < ((g.headD []).length : Int)
      omega
    · show (0 : Int) ≤ (r0 : Int)
      omega
    · show (r0 : Int) < (g.length : Int)
      omega
    · simpa [getPoint] using hcell

/-- C14: for every rectangular grid whose only occupied cell is in row `r0`, column
`c0`, wherever that is, `New` returns a state whose registry holds the single shape
`[(c0, r0)]`, and `Print` writes exactly the block of one `X` after the margin and a
separator of five dashes. -/
theorem single_cell_end_to_end (g : List (List Int)) (hg : rectangularGrid g)
    (r0 c0 : Nat) (h : onlyOccupied g r0 c0) :
    ∃ st, New g = .ok (.ok st) ∧
      st.shapes = [⟨[getPoint (c0 : Int) (r0 : Int)]⟩] ∧
      st.Print = .ok "    X\n-----\n" := by
  obtain ⟨st, hnew, hI, hJ, hvis⟩ := New_scan g hg
    (fun s => (s.shapes = [] ∧ ∀ q, s.occupied q ↔ q = getPoint (c0 : Int) (r0 : Int)) ∨
      (s.shapes = [⟨[getPoint (c0 : Int) (r0 : Int)]⟩] ∧ ∀ q, ¬ s.occupied q))
    (fun s r c s' hr hc hI hJ _ hrun =>
      single_cell_step _ _ _ (by simp) _ s r c s' (by simpa using hr) (by simpa using hc)
        hI hJ hrun)
    (Or.inl ⟨rfl, initState_occupied_iff g hg r0 c0 h⟩)
  have hshapes : st.shapes = [⟨[getPoint (c0 : Int) (r0 : Int)]⟩] := by
    rcases hJ with ⟨_, hiff⟩ | ⟨hsh, _⟩
    · exfalso
      have hocc : st.occupied (getPoint (c0 : Int) (r0 : Int)) := (hiff _).mpr rfl
      have hin := (initState_occupied_iff g hg r0 c0 h (getPoint (c0 : Int) (r0 : Int))).mpr
        rfl
      obtain ⟨⟨hx0, hx1, hy0, hy1⟩, _⟩ := hin
      have hx1' : (c0 : Int) < ((g.headD []).length : Int) := hx1
      have hy1' : (r0 : Int) < (g.length : Int) := hy1
      have hv := hvis r0 c0 (by omega) (by omega)
      exact occupied_ne_visited st _ hocc (by simpa [getPoint] using hv)
    · exact hsh
  refine ⟨st, hnew, hshapes, ?_⟩
  unfold state.Print
  rw [hshapes]
  simp only [List.foldlM_cons, List.foldlM_nil]
  rw [print_single st.rows st.cols hI.rect.1 hI.rect.2.1]
  rfl

/-- C14, at the first grid of `TestIntegration`, only the centre occupied. -/
theorem single_cell_end_to_end_witness :
    rectangularGrid centreGrid ∧ onlyOccupied centreGrid 1 1 ∧
    ∃ st, New centreGrid = .ok (.ok st) ∧
      st.shapes = [⟨[getPoint ((1 : Nat) : Int) ((1 : Nat) : Int)]⟩] ∧
      st.Print = .ok "    X\n-----\n" :=
  ⟨by decide, by decide, single_cell_end_to_end centreGrid (by decide) 1 1 (by decide)⟩

/-! ## A blank row on the torus -/

theorem adjacent_symm (rows cols : Int) (a b : point) (h : adjacent rows cols a b) :
    adjacent rows cols b a := by
  rcases h with ⟨h1, h2 | h2⟩ | ⟨h1, h2 | h2⟩
  · exact Or.inl ⟨h1.symm, Or.inr h2⟩
  · exact Or.inl ⟨h1.symm, Or.inl h2⟩
  · exact Or.inr ⟨h1.symm, Or.inr h2⟩
  · exact Or.inr ⟨h1.symm, Or.inl h2⟩

theorem adjacent_last_first_row (rows cols x : Int) :
    adjacent rows cols ⟨x, rows - 1⟩ ⟨x, 0⟩ := by
  refine Or.inl ⟨rfl, Or.inl ?_⟩
  simp

/-- C16, refuted as stated: in the 5 × 5 grid of `TestIntegration` row 3 is blank and
there are occupied cells above and below it, yet the scan finds one component: the
first seed that gives a shape, `(1, 0)`, gives a shape with all 10 occupied cells,
after which no cell is occupied; the registry holds that one shape and `Print` writes
one block of five rows. -/
theorem blank_row_counterexample :
    blankRowGrid[3]? = some [0, 0, 0, 0, 0] ∧ occupiedCount blankRowGrid = 10 ∧
    (∃ s1 s2, (initState blankRowGrid).scanCell 26 0 0 = .ok s1 ∧
      s1.findShape 26 ⟨1, 0⟩ = .ok (s2, some blankRowShape) ∧
      occupiedCount s2.grid = 0) ∧
    blankRowShape.points.length = 10 ∧
    (∃ st, New blankRowGrid = .ok (.ok st) ∧ st.shapes = [blankRowShape] ∧
      st.Print = .ok "    XXX\n    X X\n    XXX\n       \n    XX \n-------\n") := by
  refine ⟨by decide, by decide, ?_, by decide, ?_⟩
  · exact ⟨⟨[[2, 1, 1, 1, 0], [0, 1, 0, 1, 0], [0, 1, 1, 1, 0], [0, 0, 0, 0, 0],
        [0, 1, 1, 0, 0]], [], 5, 5⟩,
      ⟨[[2, 2, 2, 2, 2], [2, 2, 2, 2, 2], [2, 2, 2, 2, 2], [0, 2, 2, 2, 0],
        [2, 2, 2, 2, 0]], [], 5, 5⟩, by decide, by decide, by decide⟩
  · exact ⟨⟨[[2, 2, 2, 2, 2], [2, 2, 2, 2, 2], [2, 2, 2, 2, 2], [2, 2, 2, 2, 2],
        [2, 2, 2, 2, 2]], [blankRowShape], 5, 5⟩, by decide, rfl, by decide⟩

/-! ## The log of the calls of `visit` -/

theorem logPost_nil (s : state) : LogPost s s [] :=
  ⟨List.nodup_nil, fun c hc => by simp at hc, fun c hc => by simp at hc, by simp⟩

theorem logPost_append (s0 s s' : state) (log l : List point) (h0 : Frame s0 s)
    (h1 : Frame s s') (hL : LogPost s0 s log) (hl : LogPost s s' l) :
    LogPost s0 s' (log ++ l) := by
  have hn : ∀ q, s.norm q = s0.norm q := h0.norm_eq
  have hmap : l.map s.norm = l.map s0.norm := List.map_congr_left (fun q _ => hn q)
  have hnodup := hl.nodup
  have hfresh := hl.fresh
  have hmarked := hl.marked
  rw [hmap] at hnodup hfresh hmarked
  refine ⟨?_, ?_, ?_, ?_⟩
  · rw [List.map_append, List.nodup_append]
    refine ⟨hL.nodup, hnodup, ?_⟩
    intro c hc1 hc2
    exact hfresh c hc2 (hL.marked c hc1)
  · intro c hc
    rw [List.map_append, List.mem_append] at hc
    rcases hc with hc | hc
    · exact hL.fresh c hc
    · intro hv
      exact hfresh c hc (h0.visited_stays _ _ hv)
  · intro c hc
    rw [List.map_append, List.mem_append] at hc
    rcases hc with hc | hc
    · exact h1.visited_stays _ _ (hL.marked c hc)
    · exact hmarked c hc
  · have := hL.count
    have := hl.count
    rw [List.length_append]
    omega

theorem logPost_mark (s : state) (hs : s.rectangular) (p : point) (v : Int)
    (hv : s.cellAt (s.normRow p) (s.normCol p) = some v) (hne : v ≠ visited) :
    LogPost s (s.mark (s.normRow p) (s.normCol p)) [p] := by
  refine ⟨List.nodup_singleton _, ?_, ?_, ?_⟩
  · intro c hc
    simp only [List.map_cons, List.map_nil, List.mem_singleton] at hc
    rw [hc, ← normRow_eq, ← normCol_eq, hv]
    intro e
    injection e with e
    exact hne e
  · intro c hc
    simp only [List.map_cons, List.map_nil, List.mem_singleton] at hc
    rw [hc]
    exact cellAt_mark_self s _ _ v hv
  · have := unvisited_mark_lt s hs p v hv hne
    simp only [List.length_singleton]
    omega

theorem exploreDirsLog_cons
    (recLog : state → point → Except Fault (state × Option shape × List point))
    (p : point) (d : direction) (dirs : List direction) (s s' : state)
    (acc log l : List point) (res : Option shape)
    (h : recLog s (nextPoint p d) = .ok (s', res, l)) :
    exploreDirsLog recLog p (d :: dirs) s acc log =
      exploreDirsLog recLog p dirs s' (acc ++ resultPoints res) (log ++ l) := by
  rw [exploreDirsLog, h]
  cases res with
  | none => simp [resultPoints, bind, Except.bind]
  | some c => simp [resultPoints, bind, Except.bind]

theorem exploreDirsLog_ok
    (recLog : state → point → Except Fault (state × Option shape × List point))
    (rec : state → point → Except Fault (state × Option shape)) (fuel : Nat)
    (hrec : ∀ s q, s.rectangular → s.unvisited < fuel →
      ∃ s' res l, recLog s q = .ok (s', res, l) ∧ rec s q = .ok (s', res) ∧
        Frame s s' ∧ LogPost s s' l)
    (s0 : state) (p : point) (hfuel : s0.unvisited ≤ fuel) :
    ∀ dirs s acc log, Frame s0 s → s.unvisited < s0.unvisited → LogPost s0 s log →
      ∃ s' acc' log', exploreDirsLog recLog p dirs s acc log = .ok (s', acc', log') ∧
        exploreDirs rec p dirs s acc = .ok (s', acc') ∧ Frame s0 s' ∧
        LogPost s0 s' log' := by
  intro dirs
  induction dirs with
  | nil =>
    intro s acc log hF _ hL
    exact ⟨s, acc, log, rfl, rfl, hF, hL⟩
  | cons d dirs ih =>
    intro s acc log hF hlt hL
    obtain ⟨s', res, l, hrunL, hrun, hF', hl⟩ := hrec s (nextPoint p d) hF.rect
      (lt_of_lt_of_le hlt hfuel)
    rw [exploreDirsLog_cons recLog p d dirs s s' acc log l res hrunL,
      exploreDirs_cons rec p d dirs s s' acc res hrun]
    exact ih s' (acc ++ resultPoints res) (log ++ l) (hF.trans hF')
      (lt_of_le_of_lt hF'.unvisited_le hlt) (logPost_append s0 s s' log l hF hF' hL hl)

theorem findShapeLog_post : ∀ fuel (s : state) (p : point), s.rectangular →
    s.unvisited < fuel →
    ∃ s' res log, s.findShapeLog fuel p = .ok (s', res, log) ∧
      s.findShape fuel p = .ok (s', res) ∧ Frame s s' ∧ LogPost s s' log := by
  intro fuel
  induction fuel with
  | zero => intro s p _ h; omega
  | succ fuel ih =>
    intro s p hs hfuel
    obtain ⟨v, hv⟩ := cellAt_norm_exists s hs p
    by_cases h2 : v = visited
    · subst h2
      refine ⟨s, none, [], ?_, findShape_visited fuel s hs p hv, Frame.refl s hs,
        logPost_nil s⟩
      rw [state.findShapeLog, visited_eq s hs p visited hv]
      rfl
    by_cases h1 : v = set
    · subst h1
      obtain ⟨s', acc, log, hrunL, hrun, hF, hL⟩ := exploreDirsLog_ok
        (state.findShapeLog fuel) (state.findShape fuel) fuel ih s p (by omega)
        [.up, .right, .down, .left] (s.mark (s.normRow p) (s.normCol p)) [p] [p]
        (frame_mark s hs _ _ set hv) (unvisited_mark_lt s hs p set hv (by decide))
        (logPost_mark s hs p set hv (by decide))
      refine ⟨s', some ⟨acc⟩, log, ?_, ?_, hF, hL⟩
      · rw [state.findShapeLog, visited_eq s hs p set hv]
        simp only [show ¬ (set = visited) by decide, decide_False, bind, Except.bind,
          Bool.not_false, if_true]
        rw [visit_fresh s hs p set hv (by decide)]
        simp only [if_true]
        rw [hrunL]
        rfl
      · rw [state.findShape, visited_eq s hs p set hv]
        simp only [show ¬ (set = visited) by decide, decide_False, bind, Except.bind,
          Bool.not_false, if_true]
        rw [visit_fresh s hs p set hv (by decide)]
        simp only [if_true]
        rw [hrun]
        rfl
    · refine ⟨_, none, [p], ?_, findShape_not_set fuel s hs p v hv h2 h1,
        frame_mark s hs _ _ v hv, logPost_mark s hs p v hv h2⟩
      rw [state.findShapeLog, visited_eq s hs p v hv]
      simp only [h2, decide_False, bind, Except.bind, Bool.not_false, if_true]
      rw [visit_fresh s hs p v hv h2]
      simp only [h1, if_false]
      rfl

/-! ## Dropping the log gives back the functions of the program -/

theorem exploreDirsLog_erase
    (recLog : state → point → Except Fault (state × Option shape × List point))
    (rec : state → point → Except Fault (state × Option shape))
    (hrec : ∀ s q, (recLog s q).map (fun r => (r.1, r.2.1)) = rec s q) (p : point) :
    ∀ dirs s acc log, (exploreDirsLog recLog p dirs s acc log).map (fun r => (r.1, r.2.1)) =
      exploreDirs rec p dirs s acc := by
  intro dirs
  induction dirs with
  | nil => intro s acc log; rfl
  | cons d dirs ih =>
    intro s acc log
    have h := hrec s (nextPoint p d)
    rw [exploreDirsLog, exploreDirs]
    cases hL : recLog s (nextPoint p d) with
    | error e =>
      rw [hL] at h
      rw [← h]
      rfl
    | ok r =>
      obtain ⟨s', ch, l⟩ := r
      rw [hL] at h
      rw [← h]
      cases ch with
      | none => exact ih s' acc (log ++ l)
      | some c => exact ih s' (acc ++ c.points) (log ++ l)

theorem findShapeLog_erase : ∀ fuel (s : state) (p : point),
    (s.findShapeLog fuel p).map (fun r => (r.1, r.2.1)) = s.findShape fuel p := by
  intro fuel
  induction fuel with
  | zero => intro s p; rfl
  | succ fuel ih =>
    intro s p
    rw [state.findShapeLog, state.findShape]
    cases s.visited p with
    | error e => rfl
    | ok seen =>
      cases seen with
      | true => rfl
      | false =>
        simp only [bind, Except.bind, Bool.not_false, if_true]
        cases s.visit p with
        | error e => rfl
        | ok r =>
          obtain ⟨s1, old⟩ := r
          simp only
          by_cases hold : old = set
          · rw [if_pos hold, if_pos hold]
            have h := exploreDirsLog_erase (state.findShapeLog fuel) (state.findShape fuel)
              ih p [.up, .right, .down, .left] s1 [p] [p]
            rw [← h]
            cases exploreDirsLog (state.findShapeLog fuel) p
              [.up, .right, .down, .left] s1 [p] [p] with
            | error e => rfl
            | ok r2 => rfl
          · rw [if_neg hold, if_neg hold]
            rfl

theorem scanCellLog_of_log (fuel : Nat) (s : state) (row col : Nat) (s1 : state)
    (res : Option shape) (log : List point)
    (hL : s.findShapeLog fuel (getPoint (col : Int) (row : Int)) = .ok (s1, res, log)) :
    s.scanCellLog fuel row col = (s.scanCell fuel row col).map (fun st => (st, log)) := by
  have h := findShapeLog_erase fuel s (getPoint (col : Int) (row : Int))
  rw [hL] at h
  rw [state.scanCellLog, state.scanCell, hL, ← h]
  cases res with
  | none => rfl
  | some shp =>
    simp only [bind, Except.bind, Except.map]
    cases s1.hasShape shp with
    | error e => rfl
    | ok known =>
      cases known <;> rfl

theorem scanCellLog_erase (fuel : Nat) (s : state) (row col : Nat) :
    (s.scanCellLog fuel row col).map Prod.fst = s.scanCell fuel row col := by
  have h := findShapeLog_erase fuel s (getPoint (col : Int) (row : Int))
  cases hL : s.findShapeLog fuel (getPoint (col : Int) (row : Int)) with
  | error e =>
    rw [hL] at h
    rw [state.scanCellLog, state.scanCell, hL, ← h]
    rfl
  | ok r =>
    obtain ⟨s1, res, log⟩ := r
    rw [scanCellLog_of_log fuel s row col s1 res log hL]
    cases s.scanCell fuel row col <;> rfl

theorem foldlM_erase {σ τ α : Type} (fL : σ × τ → α → Except Fault (σ × τ))
    (f : σ → α → Except Fault σ) (h : ∀ a x, (fL a x).map Prod.fst = f a.1 x) :
    ∀ (l : List α) (a : σ × τ), (l.foldlM fL a).map Prod.fst = l.foldlM f a.1 := by
  intro l
  induction l with
  | nil => intro a; rfl
  | cons x rest ih =>
    intro a
    rw [List.foldlM_cons, List.foldlM_cons]
    have hx := h a x
    cases hfx : fL a x with
    | error e =>
      rw [hfx] at hx
      rw [← hx]
      rfl
    | ok a' =>
      rw [hfx] at hx
      rw [← hx]
      exact ih a'

theorem findShapesLog_erase (fuel : Nat) (s : state) :
    (s.findShapesLog fuel).map Prod.fst = s.findShapes fuel := by
  unfold state.findShapesLog state.findShapes
  refine foldlM_erase _ _ ?_ _ (s, [])
  intro a row
  refine foldlM_erase _ _ ?_ _ a
  intro a' col
  have h := scanCellLog_erase fuel a'.1 row col
  rw [← h]
  cases a'.1.scanCellLog fuel row col with
  | error e => rfl
  | ok r => rfl

/-! ## Counting the calls of `visit` -/

theorem unvisited_congr (s s' : state) (hg : s'.grid = s.grid) (hr : s'.rows = s.rows)
    (hc : s'.cols = s.cols) : s'.unvisited = s.unvisited := by
  unfold state.unvisited
  rw [hr, hc]
  congr 1
  apply Finset.filter_congr
  intro rc _
  rw [cellAt_congr s s' hg]

theorem scanCellLog_spec (fuel : Nat) (rows cols : Int)
    (hfuel : rows.toNat * cols.toNat < fuel) (s : state) (row col : Nat)
    (hI : ScanInv rows cols s) :
    ∃ s' l, s.scanCellLog fuel row col = .ok (s', l) ∧ s.scanCell fuel row col = .ok s' ∧
      ScanInv rows cols s' ∧ LogPost s s' l ∧
      (∀ r c, s'.cellAt r c = s.cellAt r c ∨ s'.cellAt r c = some visited) := by
  have hf : s.rows.toNat * s.cols.toNat < fuel := by rw [hI.rows, hI.cols]; exact hfuel
  obtain ⟨s1, res, log, hrunL, hrun, hF, hL⟩ := findShapeLog_post fuel s
    (getPoint (col : Int) (row : Int)) hI.rect (lt_of_le_of_lt (unvisited_le_cells s) hf)
  obtain ⟨s1', res', s', hrun', _, hscan, hg, hrw, hcl, hreg, hcls, _⟩ :=
    scanCell_spec fuel s row col hI.rect hf hI.regOK hI.classes
  rw [hrun] at hrun'
  injection hrun' with e
  injection e with e1 e2
  subst e1 e2
  have hrect : s'.rectangular := rectangular_congr s1 s' hg (hrw.trans hF.rows.symm)
    (hcl.trans hF.cols.symm) hF.rect
  refine ⟨s', log, ?_, hscan, ⟨hrect, hrw.trans hI.rows, hcl.trans hI.cols, hreg, hcls⟩,
    ⟨hL.nodup, hL.fresh, ?_, ?_⟩, ?_⟩
  · rw [scanCellLog_of_log fuel s row col s1 res log hrunL, hscan]
    rfl
  · intro c hc
    rw [cellAt_congr s1 s' hg]
    exact hL.marked c hc
  · rw [unvisited_congr s1 s' hg (hrw.trans hF.rows.symm) (hcl.trans hF.cols.symm)]
    exact hL.count
  · intro r c
    rw [cellAt_congr s1 s' hg]
    exact hF.mono r c

theorem findShapesLog_spec (fuel : Nat) (rows cols : Int)
    (hfuel : rows.toNat * cols.toNat < fuel) (s : state) (hI : ScanInv rows cols s) :
    ∃ st log, s.findShapesLog fuel = .ok (st, log) ∧ s.findShapes fuel = .ok st ∧
      st.unvisited + log.length ≤ s.unvisited := by
  have hfold : ∃ a, s.findShapesLog fuel = .ok a ∧
      (ScanInv rows cols a.1 ∧ a.1.unvisited + a.2.length ≤ s.unvisited) := by
    unfold state.findShapesLog
    refine foldlM_inv
      (fun a : state × List point =>
        ScanInv rows cols a.1 ∧ a.1.unvisited + a.2.length ≤ s.unvisited) _ _ ?_ (s, [])
      ⟨hI, by simp⟩
    intro a row _ ha
    refine foldlM_inv
      (fun a : state × List point =>
        ScanInv rows cols a.1 ∧ a.1.unvisited + a.2.length ≤ s.unvisited) _ _ ?_ a ha
    intro a' col _ ⟨hI', hcount⟩
    obtain ⟨s', l, hrunL, _, hI'', hL, _⟩ :=
      scanCellLog_spec fuel rows cols hfuel a'.1 row col hI'
    refine ⟨(s', a'.2 ++ l), ?_, hI'', ?_⟩
    · simp only [hrunL, bind, Except.bind]
      rfl
    · have := hL.count
      simp only [List.length_append]
      omega
  obtain ⟨⟨st, log⟩, hrun, _, hcount⟩ := hfold
  refine ⟨st, log, hrun, ?_, hcount⟩
  rw [← findShapesLog_erase, hrun]
  rfl

/-! ## The result does not depend on the fuel -/

theorem exploreDirs_mono (rec rec' : state → point → Except Fault (state × Option shape))
    (h : ∀ s q r, rec s q = .ok r → rec' s q = .ok r) (p : point) :
    ∀ dirs s acc r, exploreDirs rec p dirs s acc = .ok r →
      exploreDirs rec' p dirs s acc = .ok r := by
  intro dirs
  induction dirs with
  | nil => intro s acc r hr; exact hr
  | cons d dirs ih =>
    intro s acc r hr
    rw [exploreDirs] at hr ⊢
    cases hc : rec s (nextPoint p d) with
    | error e =>
      rw [hc] at hr
      cases hr
    | ok v =>
      rw [hc] at hr
      rw [h s (nextPoint p d) v hc]
      obtain ⟨s', ch⟩ := v
      cases ch with
      | none => exact ih s' acc r hr
      | some c => exact ih s' (acc ++ c.points) r hr

theorem findShape_fuel_succ : ∀ fuel (s : state) (p : point) r,
    s.findShape fuel p = .ok r → s.findShape (fuel + 1) p = .ok r := by
  intro fuel
  induction fuel with
  | zero =>
    intro s p r h
    rw [state.findShape] at h
    cases h
  | succ fuel ih =>
    intro s p r h
    rw [state.findShape] at h ⊢
    cases hv : s.visited p with
    | error e =>
      rw [hv] at h
      cases h
    | ok seen =>
      rw [hv] at h
      cases seen with
      | true => exact h
      | false =>
        simp only [bind, Except.bind, Bool.not_false, if_true] at h ⊢
        cases hvis : s.visit p with
        | error e =>
          rw [hvis] at h
          cases h
        | ok v =>
          obtain ⟨s1, old⟩ := v
          rw [hvis] at h
          simp only at h ⊢
          by_cases hold : old = set
          · rw [if_pos hold] at h ⊢
            cases hex : exploreDirs (state.findShape fuel) p
                [.up, .right, .down, .left] s1 [p] with
            | error e =>
              rw [hex] at h
              cases h
            | ok r2 =>
              rw [hex] at h
              rw [exploreDirs_mono (state.findShape fuel) (state.findShape (fuel + 1)) ih p
                _ s1 [p] r2 hex]
              exact h
          · rw [if_neg hold] at h ⊢
            exact h

theorem findShape_fuel_le (fuel fuel' : Nat) (hle : fuel ≤ fuel') (s : state) (p : point)
    (r : state × Option shape) (h : s.findShape fuel p = .ok r) :
    s.findShape fuel' p = .ok r := by
  induction hle with
  | refl => exact h
  | step _ ih => exact findShape_fuel_succ _ s p r ih

theorem visit_unvisited_lt (s : state) (hs : s.rectangular) (p : point) (s1 : state)
    (old : Int) (h : s.visit p = .ok (s1, old)) : s1.unvisited < s.unvisited := by
  obtain ⟨v, hv⟩ := cellAt_norm_exists s hs p
  by_cases hvis : v = visited
  · subst hvis
    rw [visit_visited s hs p hv] at h
    cases h
  · rw [visit_fresh s hs p v hv hvis] at h
    injection h with h
    injection h with h1 _
    rw [← h1]
    exact unvisited_mark_lt s hs p v hv hvis

/-- C17: on a rectangular grid, with fuel above the number of cells, `findShape` returns,
every cell visited before the call is visited after it, every cell that changed is now
visited, a cell that is occupied or empty afterwards is as it was, and the calls of
`visit` (the log) are on pairwise different cells, each unvisited before the call and
visited after it, so `visit` never aborts; the same holds for every step `scanCell`
of the scan. -/
theorem visited_is_permanent (fuel : Nat) (s : state) (hs : s.rectangular)
    (hfuel : s.rows.toNat * s.cols.toNat < fuel) (p : point) :
    (∃ s' res log cells, s.findShape fuel p = .ok (s', res) ∧
      s.findShapeLog fuel p = .ok (s', res, log) ∧
      log.mapM (fun q => q.transform s.rows s.cols) = .ok cells ∧
      (∀ r c, s.cellAt r c = some visited → s'.cellAt r c = some visited) ∧
      (∀ r c, s'.cellAt r c ≠ s.cellAt r c → s'.cellAt r c = some visited) ∧
      (∀ r c, s'.cellAt r c = some set ∨ s'.cellAt r c = some unset →
        s'.cellAt r c = s.cellAt r c) ∧
      cells.Nodup ∧
      (∀ c ∈ cells, s.cellAt c.y.toNat c.x.toNat ≠ some visited ∧
        s'.cellAt c.y.toNat c.x.toNat = some visited)) ∧
    s.findShape fuel p ≠ .error .doubleVisit ∧
    (registryOK s.shapes → noTwoMatch s.shapes → ∀ row col : Nat,
      ∃ s' log cells, s.scanCell fuel row col = .ok s' ∧
        s.scanCellLog fuel row col = .ok (s', log) ∧
        log.mapM (fun q => q.transform s.rows s.cols) = .ok cells ∧
        (∀ r c, s.cellAt r c = some visited → s'.cellAt r c = some visited) ∧
        (∀ r c, s'.cellAt r c ≠ s.cellAt r c → s'.cellAt r c = some visited) ∧
        (∀ r c, s'.cellAt r c = some set ∨ s'.cellAt r c = some unset →
          s'.cellAt r c = s.cellAt r c) ∧
        cells.Nodup ∧
        (∀ c ∈ cells, s.cellAt c.y.toNat c.x.toNat ≠ some visited ∧
          s'.cellAt c.y.toNat c.x.toNat = some visited)) := by
  have hmono : ∀ (s' : state),
      (∀ r c, s'.cellAt r c = s.cellAt r c ∨ s'.cellAt r c = some visited) →
      (∀ r c, s.cellAt r c = some visited → s'.cellAt r c = some visited) ∧
      (∀ r c, s'.cellAt r c ≠ s.cellAt r c → s'.cellAt r c = some visited) ∧
      (∀ r c, s'.cellAt r c = some set ∨ s'.cellAt r c = some unset →
        s'.cellAt r c = s.cellAt r c) := by
    intro s' hm
    refine ⟨?_, ?_, ?_⟩
    · intro r c hv
      rcases hm r c with h | h
      · rw [h, hv]
      · exact h
    · intro r c hne
      rcases hm r c with h | h
      · exact absurd h hne
      · exact h
    · intro r c hv
      rcases hm r c with h | h
      · exact h
      · rw [h] at hv
        rcases hv with hv | hv
        · exact absurd hv (by decide)
        · exact absurd hv (by decide)
  obtain ⟨s', res, log, hrunL, hrun, hF, hL⟩ := findShapeLog_post fuel s p hs
    (lt_of_le_of_lt (unvisited_le_cells s) hfuel)
  refine ⟨⟨s', res, log, log.map s.norm, hrun, hrunL, mapM_transform s hs log,
    (hmono s' hF.mono).1, (hmono s' hF.mono).2.1, (hmono s' hF.mono).2.2, hL.nodup,
    fun c hc => ⟨hL.fresh c hc, hL.marked c hc⟩⟩, ?_, ?_⟩
  · rw [hrun]
    intro h
    cases h
  · intro hreg hcls row col
    obtain ⟨s'', l, hscanL, hscan, _, hL', hm⟩ :=
      scanCellLog_spec fuel s.rows s.cols hfuel s row col ⟨hs, rfl, rfl, hreg, hcls⟩
    exact ⟨s'', l, l.map s.norm, hscan, hscanL, mapM_transform s hs l, (hmono s'' hm).1,
      (hmono s'' hm).2.1, (hmono s'' hm).2.2, hL'.nodup,
      fun c hc => ⟨hL'.fresh c hc, hL'.marked c hc⟩⟩

/-- C17, at a grid with cells of all three kinds and a seed on its occupied cell of
the first row. -/
theorem visited_is_permanent_witness :
    mixedState.rectangular ∧ mixedState.rows.toNat * mixedState.cols.toNat < 7 ∧
    mixedState.findShape 7 ⟨1, 0⟩ ≠ .error .doubleVisit ∧
    mixedState.findShapeLog 7 ⟨1, 0⟩ =
      .ok (⟨[[2, 2, 2], [2, 2, 1]], [], 2, 3⟩, some ⟨[⟨1, 0⟩]⟩,
        [⟨1, 0⟩, ⟨1, -1⟩, ⟨0, 0⟩]) :=
  ⟨by decide, by decide,
    (visited_is_permanent 7 mixedState (by decide) (by decide) ⟨1, 0⟩).2.1, by decide⟩

/-- C18: on a rectangular grid `findShape` terminates: with fuel above the number of
cells it returns, and with more fuel it returns the same; every `visit` that returns
lowers the number of unvisited cells; the calls of `visit` made by one `findShape`,
and by the whole scan `findShapes`, number at most `rows * cols`. -/
theorem findShape_terminates (fuel : Nat) (s : state) (hs : s.rectangular)
    (hfuel : s.rows.toNat * s.cols.toNat < fuel) (p : point) :
    (∃ s' res log, s.findShape fuel p = .ok (s', res) ∧
      s.findShapeLog fuel p = .ok (s', res, log) ∧
      (∀ fuel', fuel ≤ fuel' → s.findShape fuel' p = .ok (s', res)) ∧
      s'.unvisited + log.length ≤ s.unvisited ∧
      log.length ≤ s.rows.toNat * s.cols.toNat) ∧
    (∀ s1 old, s.visit p = .ok (s1, old) → s1.unvisited < s.unvisited) ∧
    (registryOK s.shapes → noTwoMatch s.shapes →
      ∃ st log, s.findShapes fuel = .ok st ∧ s.findShapesLog fuel = .ok (st, log) ∧
        log.length ≤ s.rows.toNat * s.cols.toNat) := by
  obtain ⟨s', res, log, hrunL, hrun, _, hL⟩ := findShapeLog_post fuel s p hs
    (lt_of_le_of_lt (unvisited_le_cells s) hfuel)
  have hcells := unvisited_le_cells s
  refine ⟨⟨s', res, log, hrun, hrunL,
    fun fuel' hle => findShape_fuel_le fuel fuel' hle s p _ hrun, hL.count, ?_⟩,
    fun s1 old h => visit_unvisited_lt s hs p s1 old h, ?_⟩
  · have := hL.count
    omega
  · intro hreg hcls
    obtain ⟨st, slog, hscanL, hscan, hcount⟩ :=
      findShapesLog_spec fuel s.rows s.cols hfuel s ⟨hs, rfl, rfl, hreg, hcls⟩
    exact ⟨st, slog, hscan, hscanL, by omega⟩

/-- C18, at the last grid of `TestIntegration` and the seed `(3, 0)`. -/
theorem findShape_terminates_witness :
    edgeState.rectangular ∧ edgeState.rows.toNat * edgeState.cols.toNat < 13 ∧
    (∀ s1 old, edgeState.visit ⟨3, 0⟩ = .ok (s1, old) →
      s1.unvisited < edgeState.unvisited) ∧
    (∃ st log, edgeState.findShapesLog 13 = .ok (st, log) ∧ log.length = 12) :=
  ⟨by decide, by decide,
    (findShape_terminates 13 edgeState (by decide) (by decide) ⟨3, 0⟩).2.1,
    ⟨⟨[[2, 2, 2, 2], [2, 2, 2, 2], [2, 2, 2, 2]], [edgeShape], 3, 4⟩,
      [⟨0, 0⟩, ⟨1, 0⟩, ⟨2, 0⟩, ⟨3, 0⟩, ⟨3, -1⟩, ⟨3, -2⟩, ⟨4, -2⟩, ⟨5, -2⟩, ⟨6, -2⟩,
        ⟨6, -1⟩, ⟨5, -1⟩, ⟨4, -1⟩], by decide, by decide⟩⟩

/-! ## Two copies of one shape: the second discovery repeats the first -/

theorem translate_points (shp : shape) (dx dy : Int) :
    (shp.translate dx dy).points = shp.points.map (fun p => p.shift dx dy) := rfl

theorem nextPoint_shift (p : point) (dx dy : Int) (d : direction) :
    nextPoint (p.shift dx dy) d = (nextPoint p d).shift dx dy := by
  cases p
  cases d <;> simp only [nextPoint, getPoint, point.shift, point.mk.injEq] <;>
    constructor <;> first | trivial | omega

theorem norm_shift (s : state) (p c : point) (dx dy : Int) (hc : s.norm p = c)
    (hin : s.inGrid (c.shift dx dy)) : s.norm (p.shift dx dy) = c.shift dx dy := by
  obtain ⟨h1, h2, h3, h4⟩ := hin
  subst hc
  simp only [state.norm, point.shift, point.mk.injEq] at *
  constructor
  · rw [← Int.emod_add_emod, Int.emod_eq_of_lt h1 h2]
  · rw [← Int.emod_add_emod, Int.emod_eq_of_lt h3 h4]

theorem shift_injective (a b : point) (dx dy : Int) (h : a.shift dx dy = b.shift dx dy) :
    a = b := by
  cases a; cases b
  simp only [point.shift, point.mk.injEq] at *
  constructor <;> omega

theorem Within.within_refl (s0 : state) (hs : s0.rectangular) : Within s0 s0 :=
  ⟨hs, rfl, rfl, fun _ h => h⟩

theorem Within.frame {s0 s s' : state} (h : Within s0 s) (hF : Frame s s') : Within s0 s' :=
  ⟨hF.rect, hF.rows.trans h.rows, hF.cols.trans h.cols,
    fun c hc => h.occ c (hF.occupied c hc)⟩

theorem Within.within_norm_eq {s0 s : state} (h : Within s0 s) (p : point) :
    s.norm p = s0.norm p := by
  simp only [state.norm, h.rows, h.cols]

theorem findShape_unoccupied (fuel : Nat) (s : state) (p : point) (hs : s.rectangular)
    (hfuel : s.unvisited < fuel) (hno : ¬ s.occupied (s.norm p)) :
    ∃ s', s.findShape fuel p = .ok (s', none) ∧ Frame s s' ∧
      ∀ c, s'.occupied c ↔ s.occupied c := by
  obtain ⟨s', res, hrun, hP⟩ := findShape_post fuel s p hs hfuel
  have hres : res = none := by
    cases res with
    | none => rfl
    | some shp => exact absurd (hP.first shp rfl).1 hno
  subst hres
  refine ⟨s', hrun, hP.frame, fun c => ⟨hP.frame.occupied c, fun hc => ?_⟩⟩
  exact hP.kept c hc (by simp [resultPoints])

theorem occupied_mark (s : state) (hs : s.rectangular) (p : point) (v : Int)
    (hv : s.cellAt (s.normRow p) (s.normCol p) = some v) (c : point) :
    (s.mark (s.normRow p) (s.normCol p)).occupied c ↔ (s.occupied c ∧ c ≠ s.norm p) := by
  have hin : (s.mark (s.normRow p) (s.normCol p)).inGrid c ↔ s.inGrid c := by
    simp only [state.inGrid, mark_rows, mark_cols]
  constructor
  · rintro ⟨h1, h2⟩
    have hne : c ≠ s.norm p := by
      rintro rfl
      rw [← normRow_eq, ← normCol_eq, cellAt_mark_self s _ _ v hv] at h2
      exact absurd h2 (by decide)
    have hne' := cell_ne_of_inGrid s c (s.norm p) (hin.mp h1) (norm_inGrid s hs p) hne
    rw [← normRow_eq, ← normCol_eq] at hne'
    rw [cellAt_mark_other s _ _ _ _ hne'] at h2
    exact ⟨⟨hin.mp h1, h2⟩, hne⟩
  · rintro ⟨⟨h1, h2⟩, hne⟩
    have hne' := cell_ne_of_inGrid s c (s.norm p) h1 (norm_inGrid s hs p) hne
    rw [← normRow_eq, ← normCol_eq] at hne'
    refine ⟨hin.mpr h1, ?_⟩
    rw [cellAt_mark_other s _ _ _ _ hne']
    exact h2

theorem findShape_occupied_eq (fuel : Nat) (s : state) (p : point) (hs : s.rectangular)
    (hocc : s.occupied (s.norm p)) :
    s.findShape (fuel + 1) p =
      (exploreDirs (state.findShape fuel) p [.up, .right, .down, .left]
        (s.mark (s.normRow p) (s.normCol p)) [p]).map (fun r => (r.1, some ⟨r.2⟩)) := by
  have hv : s.cellAt (s.normRow p) (s.normCol p) = some set := hocc.2
  rw [state.findShape, visited_eq s hs p set hv]
  simp only [show ¬ (set = visited) by decide, decide_False, bind, Except.bind,
    Bool.not_false, if_true]
  rw [visit_fresh s hs p set hv (by decide)]
  simp only [if_true]
  cases exploreDirs (state.findShape fuel) p [.up, .right, .down, .left]
    (s.mark (s.normRow p) (s.normCol p)) [p] <;> rfl

theorem norm_unshift (s : state) (q a : point) (dx dy : Int) (ha : s.inGrid a)
    (h : s.norm (q.shift dx dy) = a.shift dx dy) : s.norm q = a := by
  obtain ⟨h1, h2, h3, h4⟩ := ha
  cases q with
  | mk qx qy =>
    cases a with
    | mk ax ay =>
      simp only [state.norm, point.shift, point.mk.injEq] at *
      obtain ⟨hx, hy⟩ := h
      constructor
      · have e : (qx + dx) % s.cols = (ax + dx) % s.cols := by
          rw [← hx, Int.emod_emod_of_dvd _ (dvd_refl _)]
        have e' : qx % s.cols = ax % s.cols := Int.ModEq.add_right_cancel' dx e
        rw [e', Int.emod_eq_of_lt h1 h2]
      · have e : (qy + dy) % s.rows = (ay + dy) % s.rows := by
          rw [← hy, Int.emod_emod_of_dvd _ (dvd_refl _)]
        have e' : qy % s.rows = ay % s.rows := Int.ModEq.add_right_cancel' dy e
        rw [e', Int.emod_eq_of_lt h3 h4]

theorem resultPoints_translate (res : Option shape) (dx dy : Int) :
    resultPoints (res.map (fun shp => shp.translate dx dy)) =
      (resultPoints res).map (fun p => p.shift dx dy) := by
  cases res <;> rfl

theorem sim_child_pre (s0 : state) (A : List point) (dx dy : Int)
    (hC : Copies s0 A dx dy) (s_a s_b : state) (hWa : Within s0 s_a) (hWb : Within s0 s_b)
    (hsim : ∀ a ∈ A, s_a.occupied a ↔ s_b.occupied (a.shift dx dy))
    (p : point) (hp : s0.norm p ∈ A) (d : direction) :
    s0.norm (nextPoint p d) ∈ A ∨
      (¬ s_a.occupied (s0.norm (nextPoint p d)) ∧
        ¬ s_b.occupied (s0.norm ((nextPoint p d).shift dx dy))) := by
  by_cases hq : s_a.occupied (s0.norm (nextPoint p d))
  · exact Or.inl (hC.closedA _ hp _ (adjacent_nextPoint s0 p d) (hWa.occ _ hq))
  · refine Or.inr ⟨hq, fun hb => ?_⟩
    have hadj := adjacent_nextPoint s0 (p.shift dx dy) d
    rw [nextPoint_shift, norm_shift s0 p _ dx dy rfl (hC.inB _ hp)] at hadj
    obtain ⟨a', ha', he⟩ := hC.closedB _ hp _ hadj (hWb.occ _ hb)
    have hqa : s0.norm (nextPoint p d) = a' := norm_unshift s0 _ a' dx dy (hC.inA a' ha') he
    apply hq
    rw [hqa]
    apply (hsim a' ha').mpr
    rw [← he]
    exact hb

theorem sim_explore (s0 : state) (A : List point) (dx dy : Int) (hC : Copies s0 A dx dy)
    (fuel : Nat)
    (ih : ∀ (s_a s_b : state) (q : point), Within s0 s_a → Within s0 s_b →
      (∀ a ∈ A, s_a.occupied a ↔ s_b.occupied (a.shift dx dy)) →
      (s0.norm q ∈ A ∨
        (¬ s_a.occupied (s0.norm q) ∧ ¬ s_b.occupied (s0.norm (q.shift dx dy)))) →
      s_a.unvisited < fuel → s_b.unvisited < fuel →
      ∃ s_a' s_b' res, s_a.findShape fuel q = .ok (s_a', res) ∧
        s_b.findShape fuel (q.shift dx dy) =
          .ok (s_b', res.map (fun shp => shp.translate dx dy)) ∧
        Frame s_a s_a' ∧ Frame s_b s_b' ∧
        (∀ a ∈ A, s_a'.occupied a ↔ s_b'.occupied (a.shift dx dy)))
    (p : point) (hp : s0.norm p ∈ A) :
    ∀ (dirs : List direction) (s_a s_b : state) (acc : List point),
      Within s0 s_a → Within s0 s_b →
      (∀ a ∈ A, s_a.occupied a ↔ s_b.occupied (a.shift dx dy)) →
      s_a.unvisited < fuel → s_b.unvisited < fuel →
      ∃ s_a' s_b' acc',
        exploreDirs (state.findShape fuel) p dirs s_a acc = .ok (s_a', acc') ∧
        exploreDirs (state.findShape fuel) (p.shift dx dy) dirs s_b
          (acc.map (fun q => q.shift dx dy)) =
            .ok (s_b', acc'.map (fun q => q.shift dx dy)) ∧
        Frame s_a s_a' ∧ Frame s_b s_b' ∧
        (∀ a ∈ A, s_a'.occupied a ↔ s_b'.occupied (a.shift dx dy)) := by
  intro dirs
  induction dirs with
  | nil =>
    intro s_a s_b acc hWa hWb hsim _ _
    exact ⟨s_a, s_b, acc, rfl, rfl, Frame.refl _ hWa.rect, Frame.refl _ hWb.rect, hsim⟩
  | cons d dirs ihd =>
    intro s_a s_b acc hWa hWb hsim hfa hfb
    obtain ⟨s_a1, s_b1, res, hra, hrb, hFa, hFb, hsim1⟩ := ih s_a s_b (nextPoint p d) hWa hWb
      hsim (sim_child_pre s0 A dx dy hC s_a s_b hWa hWb hsim p hp d) hfa hfb
    rw [← nextPoint_shift] at hrb
    obtain ⟨s_a', s_b', acc', hea, heb, hFa', hFb', hsim'⟩ := ihd s_a1 s_b1
      (acc ++ resultPoints res) (hWa.frame hFa) (hWb.frame hFb) hsim1
      (lt_of_le_of_lt hFa.unvisited_le hfa) (lt_of_le_of_lt hFb.unvisited_le hfb)
    refine ⟨s_a', s_b', acc', ?_, ?_, hFa.trans hFa', hFb.trans hFb', hsim'⟩
    · rw [exploreDirs_cons _ p d dirs s_a s_a1 acc res hra]
      exact hea
    · rw [exploreDirs_cons _ (p.shift dx dy) d dirs s_b s_b1 _ _ hrb,
        resultPoints_translate, ← List.map_append]
      exact heb

theorem sim_findShape (s0 : state) (A : List point) (dx dy : Int) (hC : Copies s0 A dx dy) :
    ∀ (fuel : Nat) (s_a s_b : state) (p : point), Within s0 s_a → Within s0 s_b →
      (∀ a ∈ A, s_a.occupied a ↔ s_b.occupied (a.shift dx dy)) →
      (s0.norm p ∈ A ∨
        (¬ s_a.occupied (s0.norm p) ∧ ¬ s_b.occupied (s0.norm (p.shift dx dy)))) →
      s_a.unvisited < fuel → s_b.unvisited < fuel →
      ∃ s_a' s_b' res, s_a.findShape fuel p = .ok (s_a', res) ∧
        s_b.findShape fuel (p.shift dx dy) =
          .ok (s_b', res.map (fun shp => shp.translate dx dy)) ∧
        Frame s_a s_a' ∧ Frame s_b s_b' ∧
        (∀ a ∈ A, s_a'.occupied a ↔ s_b'.occupied (a.shift dx dy)) := by
  intro fuel
  induction fuel with
  | zero => intro s_a s_b p _ _ _ _ h _; omega
  | succ fuel ih =>
    intro s_a s_b p hWa hWb hsim hpre hfa hfb
    have hna : s_a.norm p = s0.norm p := hWa.within_norm_eq p
    have hnb : s_b.norm (p.shift dx dy) = s0.norm (p.shift dx dy) := hWb.within_norm_eq _
    by_cases hocc : s_a.occupied (s0.norm p)
    · have hpA : s0.norm p ∈ A := by
        rcases hpre with h | ⟨h, _⟩
        · exact h
        · exact absurd hocc h
      have hshift : s0.norm (p.shift dx dy) = (s0.norm p).shift dx dy :=
        norm_shift s0 p _ dx dy rfl (hC.inB _ hpA)
      have hoccb : s_b.occupied (s0.norm (p.shift dx dy)) := by
        rw [hshift]
        exact (hsim _ hpA).mp hocc
      have hva : s_a.cellAt (s_a.normRow p) (s_a.normCol p) = some set := by
        rw [normRow_eq, normCol_eq, hna]
        exact hocc.2
      have hvb : s_b.cellAt (s_b.normRow (p.shift dx dy)) (s_b.normCol (p.shift dx dy)) =
          some set := by
        rw [normRow_eq, normCol_eq, hnb]
        exact hoccb.2
      have hsim1 : ∀ a ∈ A, (s_a.mark (s_a.normRow p) (s_a.normCol p)).occupied a ↔
          (s_b.mark (s_b.normRow (p.shift dx dy)) (s_b.normCol (p.shift dx dy))).occupied
            (a.shift dx dy) := by
        intro a ha
        rw [occupied_mark s_a hWa.rect p set hva, occupied_mark s_b hWb.rect _ set hvb,
          hna, hnb, hshift, hsim a ha]
        constructor
        · rintro ⟨h1, h2⟩
          exact ⟨h1, fun e => h2 (shift_injective _ _ dx dy e)⟩
        · rintro ⟨h1, h2⟩
          exact ⟨h1, fun e => h2 (by rw [e])⟩
      have hFa1 := frame_mark s_a hWa.rect _ _ set hva
      have hFb1 := frame_mark s_b hWb.rect _ _ set hvb
      have hlta := unvisited_mark_lt s_a hWa.rect p set hva (by decide)
      have hltb := unvisited_mark_lt s_b hWb.rect (p.shift dx dy) set hvb (by decide)
      obtain ⟨s_a', s_b', acc', hea, heb, hFa, hFb, hsim'⟩ :=
        sim_explore s0 A dx dy hC fuel ih p hpA [.up, .right, .down, .left] _ _ [p]
          (hWa.frame hFa1) (hWb.frame hFb1) hsim1 (by omega) (by omega)
      refine ⟨s_a', s_b', some ⟨acc'⟩, ?_, ?_, hFa1.trans hFa, hFb1.trans hFb, hsim'⟩
      · rw [findShape_occupied_eq fuel s_a p hWa.rect (by rw [hna]; exact hocc), hea]
        rfl
      · rw [findShape_occupied_eq fuel s_b _ hWb.rect (by rw [hnb]; exact hoccb)]
        simp only [List.map_cons, List.map_nil] at heb
        rw [heb]
        rfl
    · have hnoccb : ¬ s_b.occupied (s0.norm (p.shift dx dy)) := by
        rcases hpre with h | ⟨_, h⟩
        · rw [norm_shift s0 p _ dx dy rfl (hC.inB _ h)]
          exact fun hb => hocc ((hsim _ h).mpr hb)
        · exact h
      obtain ⟨s_a', hra, hFa, hia⟩ := findShape_unoccupied (fuel + 1) s_a p hWa.rect hfa
        (by rw [hna]; exact hocc)
      obtain ⟨s_b', hrb, hFb, hib⟩ := findShape_unoccupied (fuel + 1) s_b (p.shift dx dy)
        hWb.rect hfb (by rw [hnb]; exact hnoccb)
      refine ⟨s_a', s_b', none, hra, hrb, hFa, hFb, ?_⟩
      intro a ha
      rw [hia, hib]
      exact hsim a ha

/-! ## Two copies of one shape: the scan -/

theorem seed_is_first (s : state) (r c : Nat) (hb : s.visitedBefore r c) (q : point)
    (hq : s.occupied q) : (r : Int) < q.y ∨ ((r : Int) = q.y ∧ (c : Int) ≤ q.x) := by
  by_contra hcon
  obtain ⟨h1, h2, h3, h4⟩ := hq.1
  have hv := hb q.y.toNat q.x.toNat (by omega) (by omega) (by omega)
  exact occupied_ne_visited s q hq hv

theorem Within.within_reachable {s0 s : state} (h : Within s0 s) (a b : point)
    (hr : s.reachable a b) : s0.reachable a b := by
  refine ⟨h.occ a hr.1, ?_⟩
  refine Relation.ReflTransGen.mono ?_ hr.2
  intro u v huv
  refine ⟨?_, h.occ v huv.2⟩
  rw [← h.rows, ← h.cols]
  exact huv.1

theorem reachable_lift (s0 s : state) (hr : s.rows = s0.rows) (hc : s.cols = s0.cols)
    (a : point) (hocc : ∀ x, s0.reachable a x → s.occupied x) (c : point)
    (h : s0.reachable a c) : s.reachable a c := by
  refine ⟨hocc a (reachable_refl s0 a h.1), ?_⟩
  obtain ⟨ha, hpath⟩ := h
  have key : Relation.ReflTransGen
      (fun u v => adjacent s.rows s.cols u v ∧ s.occupied v) a c ∧ s0.reachable a c := by
    induction hpath with
    | refl => exact ⟨Relation.ReflTransGen.refl, reachable_refl s0 a ha⟩
    | tail _ hstep ih =>
      have hr0 := reachable_step s0 a _ _ ih.2 hstep.1 hstep.2
      refine ⟨Relation.ReflTransGen.tail ih.1 ⟨?_, hocc _ hr0⟩, hr0⟩
      rw [hr, hc]
      exact hstep.1
  exact key.1

theorem TwoCopies.copies {g : List (List Int)} {a0 : point} {A : List point} {dx dy : Int}
    (h : TwoCopies g a0 A dx dy) (hg : rectangularGrid g) :
    Copies (initState g) A dx dy := by
  have hrect := (initState_scanInv g hg).rect
  refine ⟨hrect, ?_, ?_, ?_, ?_⟩
  · intro a ha
    exact (reachable_occupied _ _ _ ((h.compA a).mpr ha)).1
  · intro a ha
    exact (reachable_occupied _ _ _
      ((h.compB _).mpr (List.mem_map_of_mem _ ha))).1
  · intro a ha b hadj hb
    exact (h.compA b).mp (reachable_step _ _ _ _ ((h.compA a).mpr ha) hadj hb)
  · intro a ha b hadj hb
    have := (h.compB b).mp (reachable_step _ _ _ _
      ((h.compB _).mpr (List.mem_map_of_mem _ ha)) hadj hb)
    obtain ⟨a', ha', e⟩ := List.mem_map.mp this
    exact ⟨a', ha', e.symm⟩

theorem shape_cells_eq_component (s0 s : state) (hW : Within s0 s) (p : point)
    (s1 : state) (shp : shape) (hP : Post s p s1 (some shp)) (S : List point)
    (hcomp : ∀ c, s0.reachable (s0.norm p) c ↔ c ∈ S)
    (hocc : ∀ c ∈ S, s.occupied c) (c : point) :
    c ∈ shp.points.map s0.norm ↔ c ∈ S := by
  have hn : ∀ q, s.norm q = s0.norm q := hW.within_norm_eq
  have hmap : shp.points.map s.norm = shp.points.map s0.norm :=
    List.map_congr_left (fun q _ => hn q)
  obtain ⟨_, rest, hrest⟩ := hP.first shp rfl
  constructor
  · intro hc
    have h1 := hP.sound c (by simpa [resultPoints, hmap] using hc)
    rw [hn] at h1
    exact (hcomp c).mp (hW.within_reachable _ _ h1)
  · intro hc
    have h1 : s.reachable (s0.norm p) c :=
      reachable_lift s0 s hW.rows hW.cols _ (fun x hx => hocc x ((hcomp x).mp hx)) c
        ((hcomp c).mpr hc)
    rw [← hn] at h1
    have h2 := mem_of_reachable s p ((resultPoints (some shp)).map s.norm)
      (by simp [resultPoints, hrest]) hP.closed c h1
    simpa [resultPoints, hmap] using h2

theorem first_of_A {g : List (List Int)} {a0 : point} {A : List point} {dx dy : Int}
    (h : TwoCopies g a0 A dx dy) (s : state) (r c : Nat) (hb : s.visitedBefore r c)
    (hocc0 : s.occupied a0)
    (hp : getPoint (c : Int) (r : Int) ∈ A ∨
      getPoint (c : Int) (r : Int) ∈ A.map (fun a => a.shift dx dy)) :
    getPoint (c : Int) (r : Int) = a0 := by
  have h1 := seed_is_first s r c hb a0 hocc0
  have hl := h.later
  rcases hp with hp | hp
  · have h2 := h.first _ hp
    cases a0
    simp only [getPoint, point.mk.injEq] at *
    constructor <;> omega
  · obtain ⟨a, ha, e⟩ := List.mem_map.mp hp
    have h2 := h.first a ha
    exfalso
    cases a0
    cases a
    simp only [getPoint, point.shift, point.mk.injEq] at *
    omega

theorem first_of_B {g : List (List Int)} {a0 : point} {A : List point} {dx dy : Int}
    (h : TwoCopies g a0 A dx dy) (s : state) (r c : Nat) (hb : s.visitedBefore r c)
    (hoccb : s.occupied (a0.shift dx dy))
    (hp : getPoint (c : Int) (r : Int) ∈ A.map (fun a => a.shift dx dy)) :
    getPoint (c : Int) (r : Int) = a0.shift dx dy := by
  have h1 := seed_is_first s r c hb _ hoccb
  obtain ⟨a, ha, e⟩ := List.mem_map.mp hp
  have h2 := h.first a ha
  cases a0
  cases a
  simp only [getPoint, point.shift, point.mk.injEq] at *
  constructor <;> omega

theorem hasShape_nil (s : state) (shp : shape) (h : s.shapes = []) :
    s.hasShape shp = .ok false := by
  rw [state.hasShape, h]
  rfl

theorem hasShape_translate (s : state) (shpA : shape) (dx dy : Int)
    (h : s.shapes = [shpA]) (hd : stepsDistinct shpA.points) :
    s.hasShape (shpA.translate dx dy) = .ok true := by
  rw [state.hasShape, h, hasShapeLoop, matchShape_translate_right, matchShape_self shpA hd]
  rfl

theorem two_copies_step (g : List (List Int)) (hg : rectangularGrid g) (a0 : point)
    (A : List point) (dx dy : Int) (h : TwoCopies g a0 A dx dy) (fuel : Nat)
    (hfuel : ((g.length : Int)).toNat * (((g.headD []).length : Int)).toNat < fuel)
    (s : state) (r c : Nat) (s' : state)
    (hr : r < ((g.length : Int)).toNat) (hc : c < (((g.headD []).length : Int)).toNat)
    (hI : ScanInv (g.length : Int) ((g.headD []).length : Int) s)
    (hJ : copiesInv g a0 A dx dy fuel s) (hb : s.visitedBefore r c)
    (hrun : s.scanCell fuel r c = .ok s') :
    copiesInv g a0 A dx dy fuel s' := by
  obtain ⟨hW, hphase⟩ := hJ
  have hC := h.copies hg
  have hnorm : s.norm (getPoint (c : Int) (r : Int)) = getPoint (c : Int) (r : Int) :=
    norm_getPoint s hI.rect r c (by rw [hI.rows]; exact hr) (by rw [hI.cols]; exact hc)
  have hI' : ScanInv (g.length : Int) ((g.headD []).length : Int) s' := by
    obtain ⟨s'', hrun', hI''⟩ := scanCell_inv fuel _ _ hfuel s r c hI
    rw [hrun] at hrun'
    injection hrun' with e
    rw [e]
    exact hI''
  by_cases hocc : s.occupied (s.norm (getPoint (c : Int) (r : Int)))
  · obtain ⟨s1, shp, hfind, hP, hocc', hcase⟩ :=
      scanCell_occupied fuel _ _ hfuel s r c s' hI hocc hrun
    have hW' : Within (initState g) s' :=
      ⟨hI'.rect, hI'.rows, hI'.cols,
        fun q hq => hW.occ q (hP.frame.occupied q ((hocc' q).mp hq))⟩
    rw [hnorm] at hocc
    refine ⟨hW', ?_⟩
    rcases hphase with ⟨hsh, hiff⟩ | ⟨shpA, sA, sA', hsh, hcellsA, hiff, hWa, hoccA, hfa⟩ |
      ⟨shpA, hsh, _, hnone⟩
    · -- nothing found yet: the cell is the first cell of the first copy
      have hp0 : getPoint (c : Int) (r : Int) = a0 :=
        first_of_A h s r c hb ((hiff a0).mpr (Or.inl h.seed)) ((hiff _).mp hocc)
      rw [hp0] at hfind hP
      have hn0 : (initState g).norm a0 = a0 :=
        norm_of_inGrid _ _ (hC.inA a0 h.seed)
      have hcells : ∀ q, q ∈ shp.points.map (initState g).norm ↔ q ∈ A :=
        shape_cells_eq_component (initState g) s hW a0 s1 shp hP A
          (fun q => by rw [hn0]; exact h.compA q) (fun q hq => (hiff q).mpr (Or.inl hq))
      have hmap : shp.points.map s.norm = shp.points.map (initState g).norm :=
        List.map_congr_left (fun q _ => hW.within_norm_eq q)
      right; left
      refine ⟨shp, s, s1, ?_, hcells, ?_, hW, fun a ha => (hiff a).mpr (Or.inl ha), hfind⟩
      · rcases hcase with ⟨_, e⟩ | ⟨e, _⟩
        · rw [e, hsh]
          rfl
        · rw [hasShape_nil s1 shp (hP.frame.shapes.trans hsh)] at e
          cases e
      · intro q
        rw [hocc' q]
        constructor
        · intro hq
          rcases (hiff q).mp (hP.frame.occupied q hq) with hA | hB
          · exfalso
            have hq' : q ∈ (resultPoints (some shp)).map s.norm := by
              simp only [resultPoints, hmap]
              exact (hcells q).mpr hA
            exact occupied_ne_visited s1 q hq (hP.marked q hq')
          · exact hB
        · intro hB
          refine hP.kept q ((hiff q).mpr (Or.inr hB)) ?_
          simp only [resultPoints, hmap]
          intro hq
          obtain ⟨a, ha, e⟩ := List.mem_map.mp hB
          exact h.apart q ((hcells q).mp hq) hB
    · -- the first copy is found: the cell is the first cell of the second copy
      have hb0 : (a0.shift dx dy) ∈ A.map (fun a => a.shift dx dy) :=
        List.mem_map_of_mem _ h.seed
      have hp0 : getPoint (c : Int) (r : Int) = a0.shift dx dy :=
        first_of_B h s r c hb ((hiff _).mpr hb0) ((hiff _).mp hocc)
      rw [hp0] at hfind hP
      have hn0 : (initState g).norm a0 = a0 :=
        norm_of_inGrid _ _ (hC.inA a0 h.seed)
      have hnb : (initState g).norm (a0.shift dx dy) = a0.shift dx dy :=
        norm_of_inGrid _ _ (hC.inB a0 h.seed)
      have hcellsfuel : ∀ t : state, Within (initState g) t → t.unvisited < fuel := by
        intro t ht
        refine lt_of_le_of_lt (unvisited_le_cells t) ?_
        rw [ht.rows, ht.cols]
        exact hfuel
      obtain ⟨sA'', sB', res, hra, hrb, _, _, _⟩ := sim_findShape (initState g) A dx dy hC
        fuel sA s a0 hWa hW
        (fun a ha => ⟨fun _ => (hiff _).mpr (List.mem_map_of_mem _ ha), fun _ => hoccA a ha⟩)
        (Or.inl (by rw [hn0]; exact h.seed)) (hcellsfuel sA hWa) (hcellsfuel s hW)
      rw [hfa] at hra
      injection hra with e
      injection e with _ e2
      subst e2
      rw [hfind] at hrb
      injection hrb with e
      injection e with _ e2
      injection e2 with e2
      have hdist : stepsDistinct shpA.points :=
        (hI.regOK shpA (by rw [hsh]; exact List.mem_singleton_self _)).2
      have hhas : s1.hasShape shp = .ok true := by
        rw [e2]
        exact hasShape_translate s1 shpA dx dy (hP.frame.shapes.trans hsh) hdist
      have hcellsB : ∀ q, q ∈ shp.points.map (initState g).norm ↔
          q ∈ A.map (fun a => a.shift dx dy) :=
        shape_cells_eq_component (initState g) s hW (a0.shift dx dy) s1 shp hP _
          (fun q => by rw [hnb]; exact h.compB q) (fun q hq => (hiff q).mpr hq)
      have hmap : shp.points.map s.norm = shp.points.map (initState g).norm :=
        List.map_congr_left (fun q _ => hW.within_norm_eq q)
      right; right
      refine ⟨shpA, ?_, hcellsA, ?_⟩
      · rcases hcase with ⟨e, _⟩ | ⟨_, e⟩
        · rw [hhas] at e
          cases e
        · rw [e, hsh]
      · intro q hq
        have hq1 := (hocc' q).mp hq
        have hqB := (hiff q).mp (hP.frame.occupied q hq1)
        have hq' : q ∈ (resultPoints (some shp)).map s.norm := by
          simp only [resultPoints, hmap]
          exact (hcellsB q).mpr hqB
        exact occupied_ne_visited s1 q hq1 (hP.marked q hq')
    · exact absurd hocc (hnone _)
  · obtain ⟨hsh, hiff⟩ := scanCell_unoccupied fuel _ _ hfuel s r c s' hI hocc hrun
    have hW' : Within (initState g) s' :=
      ⟨hI'.rect, hI'.rows, hI'.cols, fun q hq => hW.occ q ((hiff q).mp hq)⟩
    refine ⟨hW', ?_⟩
    rcases hphase with ⟨h1, h2⟩ | ⟨shpA, sA, sA', h1, h2, h3, h4⟩ | ⟨shpA, h1, h2, h3⟩
    · exact Or.inl ⟨hsh.trans h1, fun q => (hiff q).trans (h2 q)⟩
    · exact Or.inr (Or.inl ⟨shpA, sA, sA', hsh.trans h1, h2, fun q => (hiff q).trans (h3 q), h4⟩)
    · exact Or.inr (Or.inr ⟨shpA, hsh.trans h1, h2, fun q hq => h3 q ((hiff q).mp hq)⟩)

theorem visited_not_occupied (g : List (List Int)) (hg : rectangularGrid g) (st : state)
    (hvis : ∀ r c, r < g.length → c < (g.headD []).length → st.cellAt r c = some visited)
    (q : point) (hq : (initState g).inGrid q) : ¬ st.occupied q := by
  intro hocc
  have hI0 := initState_scanInv g hg
  obtain ⟨h1, h2, h3, h4⟩ := hq
  rw [hI0.cols] at h2
  rw [hI0.rows] at h4
  exact occupied_ne_visited st q hocc (hvis q.y.toNat q.x.toNat (by omega) (by omega))

theorem Print_singleton (s : state) (shp : shape) (block : String)
    (hsh : s.shapes = [shp]) (hb : shp.print s.rows s.cols = .ok block) :
    s.Print = .ok block := by
  unfold state.Print
  rw [hsh]
  simp only [List.foldlM_cons, List.foldlM_nil, hb, bind, Except.bind, pure, Except.pure,
    String.empty_append]

/-- C15: translated copies are deduplicated. On a valid grid whose occupied cells are
exactly two toroidal components, the cells `A` and their copies moved by the integer
offset `(dx, dy)` (all of them cells of the grid, `a0` the first cell of `A` in the order
of the scan, and the copies the later ones), `New` succeeds and leaves exactly one shape
in the registry, whose cells are the cells of `A`; `Print` writes exactly the one block of
that shape. -/
theorem translated_copies_deduplicated (g : List (List Int)) (hg : rectangularGrid g)
    (a0 : point) (A : List point) (dx dy : Int) (h : TwoCopies g a0 A dx dy) :
    ∃ st shp block, New g = .ok (.ok st) ∧ st.shapes = [shp] ∧
      (∀ c, c ∈ shp.points.map (initState g).norm ↔ c ∈ A) ∧
      shp.print st.rows st.cols = .ok block ∧ st.Print = .ok block := by
  have hC := h.copies hg
  have hI0 := initState_scanInv g hg
  obtain ⟨st, hnew, hI, ⟨hW, hphase⟩, hvis⟩ := New_scan g hg
    (copiesInv g a0 A dx dy (g.length * (g.headD []).length + 1))
    (fun s r c s' hr hc hI hJ hb hrun =>
      two_copies_step g hg a0 A dx dy h _ (by simp) s r c s' (by simpa using hr)
        (by simpa using hc) hI hJ hb hrun)
    ⟨Within.within_refl _ hI0.rect, Or.inl ⟨rfl, fun c => ⟨h.cover c, fun hc => by
      rcases hc with hc | hc
      · exact reachable_occupied _ _ _ ((h.compA c).mpr hc)
      · exact reachable_occupied _ _ _ ((h.compB c).mpr hc)⟩⟩⟩
  have hone : ∃ shp, st.shapes = [shp] ∧
      ∀ c, c ∈ shp.points.map (initState g).norm ↔ c ∈ A := by
    rcases hphase with ⟨_, hiff⟩ | ⟨shpA, _, _, _, _, hiff, _⟩ | ⟨shpA, hsh, hcells, _⟩
    · exact absurd ((hiff a0).mpr (Or.inl h.seed))
        (visited_not_occupied g hg st hvis a0 (hC.inA a0 h.seed))
    · exact absurd ((hiff _).mpr (List.mem_map_of_mem _ h.seed))
        (visited_not_occupied g hg st hvis _ (hC.inB a0 h.seed))
    · exact ⟨shpA, hsh, hcells⟩
  obtain ⟨shp, hsh, hcells⟩ := hone
  obtain ⟨block, hblock⟩ := print_ok st hI.rect shp
    (hI.regOK shp (by rw [hsh]; exact List.mem_singleton_self _)).1
  exact ⟨st, shp, block, hnew, hsh, hcells, hblock, Print_singleton st shp block hsh hblock⟩

theorem component_of_findShape (fuel : Nat) (s : state) (hs : s.rectangular)
    (hfuel : s.rows.toNat * s.cols.toNat < fuel) (p : point) (s' : state) (shp : shape)
    (hrun : s.findShape fuel p = .ok (s', some shp)) (c : point) :
    s.reachable (s.norm p) c ↔ c ∈ shp.points.map s.norm := by
  obtain ⟨s'', res, hrun', hP⟩ := findShape_post fuel s p hs
    (lt_of_le_of_lt (unvisited_le_cells s) hfuel)
  rw [hrun] at hrun'
  injection hrun' with e
  injection e with e1 e2
  subst e1 e2
  obtain ⟨_, rest, hrest⟩ := hP.first shp rfl
  constructor
  · intro h
    refine mem_of_reachable s p _ ?_ (fun a ha b hab hb => ?_) c h
    · rw [hrest]
      exact List.mem_cons_self _ _
    · exact hP.closed a ha b hab hb
  · intro h
    exact hP.sound c h

theorem occupied_cover (s : state) (S : List point)
    (h : ∀ r ∈ List.range s.rows.toNat, ∀ c ∈ List.range s.cols.toNat,
      s.cellAt r c = some set → (⟨(c : Int), (r : Int)⟩ : point) ∈ S)
    (q : point) (hq : s.occupied q) : q ∈ S := by
  obtain ⟨⟨h1, h2, h3, h4⟩, hcell⟩ := hq
  have := h q.y.toNat (List.mem_range.mpr (by omega)) q.x.toNat
    (List.mem_range.mpr (by omega)) hcell
  rw [Int.toNat_of_nonneg h1, Int.toNat_of_nonneg h3] at this
  exact this

set_option maxRecDepth 100000 in
theorem twoCopiesGrid_twoCopies : TwoCopies twoCopiesGrid ⟨1, 0⟩ twoCopiesCells 0 4 := by
  refine ⟨by decide, ?_, ?_, ?_, by decide, by decide, by decide⟩
  · intro c
    exact component_of_findShape 41 (initState twoCopiesGrid) (by decide) (by decide) ⟨1, 0⟩
      ⟨[[2, 2, 2, 2, 0], [2, 2, 2, 0, 0], [2, 2, 2, 0, 0], [0, 2, 0, 0, 0], [0, 1, 1, 0, 0],
        [0, 1, 0, 0, 0], [0, 1, 0, 0, 0], [0, 2, 2, 0, 0]], [], 8, 5⟩
      ⟨twoCopiesCells⟩ (by decide) c
  · intro c
    exact component_of_findShape 41 (initState twoCopiesGrid) (by decide) (by decide) ⟨1, 4⟩
      ⟨[[0, 1, 1, 0, 0], [0, 1, 0, 0, 0], [0, 1, 0, 0, 0], [0, 2, 2, 0, 0], [2, 2, 2, 2, 0],
        [2, 2, 2, 0, 0], [2, 2, 2, 0, 0], [0, 2, 0, 0, 0]], [], 8, 5⟩
      ⟨twoCopiesCells.map (fun a => a.shift 0 4)⟩ (by decide) c
  · intro c hc
    exact List.mem_append.mp (occupied_cover (initState twoCopiesGrid)
      (twoCopiesCells ++ twoCopiesCells.map (fun a => a.shift 0 4)) (by decide) c hc)

/-- C15 at the 8 × 5 grid of `TestIntegration` with its two L-shaped copies in rows 0-2
and 4-6: the grid is valid, its occupied cells are the two copies, and the registry holds
one shape whose block is the whole output. -/
theorem translated_copies_deduplicated_witness :
    rectangularGrid twoCopiesGrid ∧ TwoCopies twoCopiesGrid ⟨1, 0⟩ twoCopiesCells 0 4 ∧
    (∃ st shp block, New twoCopiesGrid = .ok (.ok st) ∧ st.shapes = [shp] ∧
      (∀ c, c ∈ shp.points.map (initState twoCopiesGrid).norm ↔ c ∈ twoCopiesCells) ∧
      shp.print st.rows st.cols = .ok block ∧ st.Print = .ok block) ∧
    (∃ st, New twoCopiesGrid = .ok (.ok st) ∧ st.shapes = [⟨twoCopiesCells⟩] ∧
      st.Print = .ok "    XX\n    X \n    X \n------\n") :=
  ⟨by decide, twoCopiesGrid_twoCopies,
    translated_copies_deduplicated twoCopiesGrid (by decide) ⟨1, 0⟩ twoCopiesCells 0 4
      twoCopiesGrid_twoCopies,
    ⟨⟨[[2, 2, 2, 2, 2], [2, 2, 2, 2, 2], [2, 2, 2, 2, 2], [2, 2, 2, 2, 2], [2, 2, 2, 2, 2],
      [2, 2, 2, 2, 2], [2, 2, 2, 2, 2], [2, 2, 2, 2, 2]], [⟨twoCopiesCells⟩], 8, 5⟩,
      by decide, rfl, by decide⟩⟩

/-! ## The grid after the scan -/

theorem foldlM_fixed {σ α : Type} (f : σ → α → Except Fault σ) (s : σ) :
    ∀ l : List α, (∀ x ∈ l, f s x = .ok s) → l.foldlM f s = .ok s := by
  intro l
  induction l with
  | nil => intro _; rfl
  | cons x rest ih =>
    intro h
    rw [List.foldlM_cons, h x (List.mem_cons_self _ _)]
    exact ih (fun y hy => h y (List.mem_cons_of_mem _ hy))

theorem findShape_all_visited (fuel : Nat) (s : state) (hs : s.rectangular)
    (hall : ∀ r c, r < s.rows.toNat → c < s.cols.toNat → s.cellAt r c = some visited)
    (p : point) : s.findShape (fuel + 1) p = .ok (s, none) := by
  refine findShape_visited fuel s hs p (hall _ _ ?_ ?_)
  · have := normRow_lt s hs p
    have := hs.2.2.1
    omega
  · have h1 := Int.emod_nonneg p.x (show s.cols ≠ 0 by have := hs.2.1; omega)
    have h2 := Int.emod_lt_of_pos p.x hs.2.1
    unfold state.normCol
    omega

theorem scanCell_all_visited (fuel : Nat) (s : state) (hs : s.rectangular)
    (hall : ∀ r c, r < s.rows.toNat → c < s.cols.toNat → s.cellAt r c = some visited)
    (r c : Nat) : s.scanCell (fuel + 1) r c = .ok s := by
  unfold state.scanCell
  rw [findShape_all_visited fuel s hs hall]
  rfl

theorem findShapes_all_visited (fuel : Nat) (s : state) (hs : s.rectangular)
    (hall : ∀ r c, r < s.rows.toNat → c < s.cols.toNat → s.cellAt r c = some visited) :
    s.findShapes (fuel + 1) = .ok s := by
  unfold state.findShapes
  refine foldlM_fixed _ s _ (fun r _ => ?_)
  exact foldlM_fixed _ s _ (fun c _ => scanCell_all_visited fuel s hs hall r c)

theorem grid_all_visited (s : state) (hs : s.rectangular)
    (hall : ∀ r c, r < s.rows.toNat → c < s.cols.toNat → s.cellAt r c = some visited) :
    s.grid = List.replicate s.rows.toNat (List.replicate s.cols.toNat visited) := by
  obtain ⟨hr, hc, hlen, hrows⟩ := hs
  refine List.ext_getElem (by simp only [List.length_replicate]; omega) (fun i h1 h2 => ?_)
  have hrow := hrows _ (List.getElem_mem h1)
  rw [List.getElem_replicate]
  refine List.ext_getElem (by simp only [List.length_replicate]; omega) (fun j h3 h4 => ?_)
  rw [List.getElem_replicate]
  obtain ⟨row, e1, e2⟩ := (cellAt_some_iff s i j visited).mp (hall i j (by omega) (by omega))
  rw [List.getElem?_eq_getElem h1] at e1
  injection e1 with e1
  subst e1
  rw [List.getElem?_eq_getElem h3] at e2
  injection e2

theorem rectangularGrid_of_rectangular (s : state) (hs : s.rectangular) :
    rectangularGrid s.grid ∧ (s.grid.length : Int) = s.rows ∧
      ((s.grid.headD []).length : Int) = s.cols := by
  obtain ⟨hr, hc, hlen, hrows⟩ := hs
  have hhead : ((s.grid.headD []).length : Int) = s.cols := by
    cases hg : s.grid with
    | nil => rw [hg] at hlen; simp at hlen; omega
    | cons row rest => exact hrows row (by rw [hg]; exact List.mem_cons_self _ _)
  refine ⟨⟨?_, fun row hrow => ⟨?_, ?_⟩⟩, hlen, hhead⟩
  · intro h
    rw [h] at hlen
    simp at hlen
    omega
  · intro h
    have := hrows row hrow
    rw [h] at this
    simp at this
    omega
  · have := hrows row hrow
    omega

/-- C21: the scan consumes the whole grid. For every grid with at least one row, no
empty row and all rows of one length, whatever its cell values, `New` returns a state
whose grid holds `visited` in every cell, the empty cells included; from that state
`findShape` returns no shape and leaves the state as it is for every seed, a second run
of `findShapes` leaves the state as it is, and `New` on the consumed grid ends with an
empty registry and the same grid. -/
theorem scan_consumes_grid (g : List (List Int)) (hg : rectangularGrid g) :
    ∃ st, New g = .ok (.ok st) ∧
      st.grid = List.replicate g.length (List.replicate (g.headD []).length visited) ∧
      (∀ r c, r < g.length → c < (g.headD []).length → st.cellAt r c = some visited) ∧
      (∀ fuel p, st.findShape (fuel + 1) p = .ok (st, none)) ∧
      (∀ fuel, st.findShapes (fuel + 1) = .ok st) ∧
      New st.grid = .ok (.ok { st with shapes := [] }) := by
  obtain ⟨st, hnew, hI, _, hvis⟩ := New_scan g hg (fun _ => True)
    (fun _ _ _ _ _ _ _ _ _ _ => trivial) trivial
  have hall : ∀ r c, r < st.rows.toNat → c < st.cols.toNat →
      st.cellAt r c = some visited := by
    intro r c hr hc
    rw [hI.rows] at hr
    rw [hI.cols] at hc
    exact hvis r c (by simpa using hr) (by simpa using hc)
  have hgrid := grid_all_visited st hI.rect hall
  rw [hI.rows, hI.cols] at hgrid
  simp only [Int.toNat_ofNat] at hgrid
  refine ⟨st, hnew, hgrid, hvis, fun fuel p => findShape_all_visited fuel st hI.rect hall p,
    fun fuel => findShapes_all_visited fuel st hI.rect hall, ?_⟩
  obtain ⟨hrg, hlen, hhead⟩ := rectangularGrid_of_rectangular st hI.rect
  have hinit : initState st.grid = { st with shapes := [] } := by
    unfold initState
    rw [hlen, hhead]
  rw [New_eq_scan st.grid hrg, hinit,
    findShapes_all_visited _ { st with shapes := [] } hI.rect hall]
  rfl

/-- C21 at the 8 × 5 grid of `TestIntegration`: the grid is valid, and after `New` all
40 cells hold `visited`, the 32 empty ones included. -/
theorem scan_consumes_grid_witness :
    rectangularGrid twoCopiesGrid ∧
    (∃ st, New twoCopiesGrid = .ok (.ok st) ∧
      st.grid = List.replicate twoCopiesGrid.length
        (List.replicate (twoCopiesGrid.headD []).length visited) ∧
      (∀ r c, r < twoCopiesGrid.length → c < (twoCopiesGrid.headD []).length →
        st.cellAt r c = some visited) ∧
      (∀ fuel p, st.findShape (fuel + 1) p = .ok (st, none)) ∧
      (∀ fuel, st.findShapes (fuel + 1) = .ok st) ∧
      New st.grid = .ok (.ok { st with shapes := [] })) ∧
    New twoCopiesGrid = .ok (.ok ⟨[[2, 2, 2, 2, 2], [2, 2, 2, 2, 2], [2, 2, 2, 2, 2],
      [2, 2, 2, 2, 2], [2, 2, 2, 2, 2], [2, 2, 2, 2, 2], [2, 2, 2, 2, 2], [2, 2, 2, 2, 2]],
      [⟨[⟨1, 0⟩, ⟨2, 0⟩, ⟨1, 1⟩, ⟨1, 2⟩]⟩], 8, 5⟩) :=
  ⟨by decide, scan_consumes_grid twoCopiesGrid (by decide), by decide⟩

/-! ## `match` as an equivalence -/

theorem matchShape_trans (a b c : shape) (ha : stepsDistinct a.points)
    (hb : stepsDistinct b.points) (hc : stepsDistinct c.points)
    (hab : a.matchShape b = .ok true) (hbc : b.matchShape c = .ok true) :
    a.matchShape c = .ok true := by
  obtain ⟨x, hx, ix⟩ := matchShape_spec a b ha hb
  obtain ⟨y, hy, iy⟩ := matchShape_spec b c hb hc
  obtain ⟨z, hz, iz⟩ := matchShape_spec a c ha hc
  rw [hx] at hab
  rw [hy] at hbc
  injection hab with hab
  injection hbc with hbc
  obtain ⟨l1, d1⟩ := ix.mp hab
  obtain ⟨l2, d2⟩ := iy.mp hbc
  have : z = true := iz.mpr ⟨l1.trans l2, fun j h1 h2 =>
    (d1 j h1 (by omega)).trans (d2 j (by omega) h2)⟩
  rw [hz, this]

theorem hasShapeLoop_true_iff (shp : shape) (hshp : stepsDistinct shp.points)
    (reg : List shape) (hreg : ∀ comp ∈ reg, stepsDistinct comp.points) :
    ∃ r, hasShapeLoop shp reg = .ok r ∧
      (r = true ↔ ∃ comp ∈ reg, comp.matchShape shp = .ok true) := by
  obtain ⟨r, hr, hiff⟩ := hasShapeLoop_spec shp hshp reg hreg
  refine ⟨r, hr, ?_⟩
  constructor
  · intro h
    by_contra hno
    have : r = false := hiff.mpr (fun comp hcomp => by
      obtain ⟨m, hm, _⟩ := matchShape_spec comp shp (hreg comp hcomp) hshp
      cases m with
      | false => exact hm
      | true => exact absurd ⟨comp, hcomp, hm⟩ hno)
    rw [this] at h
    cases h
  · rintro ⟨comp, hcomp, hm⟩
    cases r with
    | true => rfl
    | false =>
      have := hiff.mp rfl comp hcomp
      rw [hm] at this
      cases this

/-- C22: `match` is an equivalence on the shapes without two equal consecutive points.
For all such shapes `a`, `b`, `c`: `a.match(a)` is true, `a.match(b)` returns a value and
it is the value of `b.match(a)`, and `a.match(b)` and `b.match(c)` give `a.match(c)`.
Hence `hasShape` does not depend on which operand is the stored shape and which the
candidate: over a registry of such shapes it returns true exactly when some stored shape
matches the candidate, which is exactly when the candidate matches some stored shape, and
asking for `b` in the registry `[a]` gives what asking for `a` in the registry `[b]`
gives. -/
theorem matchShape_equivalence (a b c : shape) (ha : stepsDistinct a.points)
    (hb : stepsDistinct b.points) (hc : stepsDistinct c.points) :
    a.matchShape a = .ok true ∧
    (∃ r, a.matchShape b = .ok r) ∧
    a.matchShape b = b.matchShape a ∧
    (a.matchShape b = .ok true → b.matchShape c = .ok true → a.matchShape c = .ok true) ∧
    (∀ s : state, (∀ comp ∈ s.shapes, stepsDistinct comp.points) →
      ∃ r, s.hasShape a = .ok r ∧
        (r = true ↔ ∃ comp ∈ s.shapes, comp.matchShape a = .ok true) ∧
        (r = true ↔ ∃ comp ∈ s.shapes, a.matchShape comp = .ok true)) ∧
    (∀ s : state, state.hasShape { s with shapes := [a] } b =
      state.hasShape { s with shapes := [b] } a) := by
  refine ⟨matchShape_self a ha, ?_, matchShape_symm a b ha hb,
    matchShape_trans a b c ha hb hc, ?_, ?_⟩
  · obtain ⟨r, hr, _⟩ := matchShape_spec a b ha hb
    exact ⟨r, hr⟩
  · intro s hreg
    obtain ⟨r, hr, hiff⟩ := hasShapeLoop_true_iff a ha s.shapes hreg
    refine ⟨r, hr, hiff, hiff.trans ?_⟩
    constructor
    · rintro ⟨comp, hcomp, hm⟩
      exact ⟨comp, hcomp, (matchShape_symm a comp ha (hreg comp hcomp)).trans hm⟩
    · rintro ⟨comp, hcomp, hm⟩
      exact ⟨comp, hcomp, (matchShape_symm comp a (hreg comp hcomp) ha).trans hm⟩
  · intro s
    simp only [state.hasShape, hasShapeLoop]
    rw [matchShape_symm a b ha hb]

/-- C22 at the shapes `p1`, `p2` and `p7` of `TestShapesMatch`, which match one
another. -/
theorem matchShape_equivalence_witness :
    stepsDistinct testP1.points ∧ stepsDistinct testP2.points ∧
    stepsDistinct testP7.points ∧
    (testP1.matchShape testP1 = .ok true ∧
    (∃ r, testP1.matchShape testP2 = .ok r) ∧
    testP1.matchShape testP2 = testP2.matchShape testP1 ∧
    (testP1.matchShape testP2 = .ok true → testP2.matchShape testP7 = .ok true →
      testP1.matchShape testP7 = .ok true) ∧
    (∀ s : state, (∀ comp ∈ s.shapes, stepsDistinct comp.points) →
      ∃ r, s.hasShape testP1 = .ok r ∧
        (r = true ↔ ∃ comp ∈ s.shapes, comp.matchShape testP1 = .ok true) ∧
        (r = true ↔ ∃ comp ∈ s.shapes, testP1.matchShape comp = .ok true)) ∧
    (∀ s : state, state.hasShape { s with shapes := [testP1] } testP2 =
      state.hasShape { s with shapes := [testP2] } testP1)) ∧
    testP1.matchShape testP2 = .ok true ∧ testP2.matchShape testP7 = .ok true ∧
    testP1.matchShape testP7 = .ok true :=
  ⟨by decide, by decide, by decide,
    matchShape_equivalence testP1 testP2 testP7 (by decide) (by decide) (by decide),
    by decide, by decide, by decide⟩

/-! ## Components on the two sides of a blank row -/

theorem reachable_symm (s : state) (a b : point) (h : s.reachable a b) : s.reachable b a := by
  obtain ⟨ha, hpath⟩ := h
  induction hpath with
  | refl => exact reachable_refl s a ha
  | tail hau hstep ih =>
    exact reachable_head s _ _ _ hstep.2 (adjacent_symm _ _ _ _ hstep.1) ih

theorem reachable_trans (s : state) (a b c : point) (h1 : s.reachable a b)
    (h2 : s.reachable b c) : s.reachable a c :=
  ⟨h1.1, h1.2.trans h2.2⟩

theorem point_eq_mk (p : point) (x y : Int) (h1 : p.x = x) (h2 : p.y = y) :
    (⟨x, y⟩ : point) = p := by
  cases p
  simp only at h1 h2
  subst h1 h2
  rfl

theorem stays_above (s : state) (b : Int)
    (hblank : ∀ x, ¬ s.occupied ⟨x, b⟩)
    (hno : ∀ x, ¬ (s.occupied ⟨x, 0⟩ ∧ s.occupied ⟨x, s.rows - 1⟩))
    (a c : point) (h : s.reachable a c) (ha : a.y < b) : c.y < b := by
  obtain ⟨hocc, hpath⟩ := h
  induction hpath with
  | refl => exact ha
  | tail hau hstep ih =>
    rename_i u v
    have hu := reachable_occupied s a u ⟨hocc, hau⟩
    obtain ⟨hadj, hv⟩ := hstep
    obtain ⟨_, _, hu3, hu4⟩ := hu.1
    obtain ⟨_, _, hv3, hv4⟩ := hv.1
    have hvb : v.y ≠ b := by
      intro e
      apply hblank v.x
      rw [← e]
      exact hv
    rcases hadj with ⟨hx, h1 | h1⟩ | ⟨hy, _⟩
    · by_cases hlt : u.y + 1 < s.rows
      · rw [Int.emod_eq_of_lt (by omega) hlt] at h1
        omega
      · have e : u.y + 1 = s.rows := by omega
        rw [e, Int.emod_self] at h1
        omega
    · by_cases hlt : v.y + 1 < s.rows
      · rw [Int.emod_eq_of_lt (by omega) hlt] at h1
        omega
      · have e : v.y + 1 = s.rows := by omega
        rw [e, Int.emod_self] at h1
        exfalso
        apply hno v.x
        constructor
        · rw [point_eq_mk u v.x 0 hx h1]
          exact hu
        · rw [point_eq_mk v v.x (s.rows - 1) rfl (by omega)]
          exact hv
    · omega

theorem stays_below (s : state) (b : Int)
    (hblank : ∀ x, ¬ s.occupied ⟨x, b⟩)
    (hno : ∀ x, ¬ (s.occupied ⟨x, 0⟩ ∧ s.occupied ⟨x, s.rows - 1⟩))
    (a c : point) (h : s.reachable a c) (ha : b < a.y) : b < c.y := by
  obtain ⟨hocc, hpath⟩ := h
  induction hpath with
  | refl => exact ha
  | tail hau hstep ih =>
    rename_i u v
    have hu := reachable_occupied s a u ⟨hocc, hau⟩
    obtain ⟨hadj, hv⟩ := hstep
    obtain ⟨_, _, hu3, hu4⟩ := hu.1
    obtain ⟨_, _, hv3, hv4⟩ := hv.1
    have hvb : v.y ≠ b := by
      intro e
      apply hblank v.x
      rw [← e]
      exact hv
    rcases hadj with ⟨hx, h1 | h1⟩ | ⟨hy, _⟩
    · by_cases hlt : u.y + 1 < s.rows
      · rw [Int.emod_eq_of_lt (by omega) hlt] at h1
        omega
      · have e : u.y + 1 = s.rows := by omega
        rw [e, Int.emod_self] at h1
        exfalso
        apply hno u.x
        constructor
        · rw [point_eq_mk v u.x 0 hx.symm h1]
          exact hv
        · rw [point_eq_mk u u.x (s.rows - 1) rfl (by omega)]
          exact hu
    · by_cases hlt : v.y + 1 < s.rows
      · rw [Int.emod_eq_of_lt (by omega) hlt] at h1
        omega
      · have e : v.y + 1 = s.rows := by omega
        rw [e, Int.emod_self] at h1
        omega
    · omega

/-! ## The record of the shapes found -/

theorem scanCellFound_of (fuel : Nat) (s : state) (row col : Nat) (s1 : state)
    (res : Option shape)
    (h : s.findShape fuel (getPoint (col : Int) (row : Int)) = .ok (s1, res)) :
    s.scanCellFound fuel row col =
      (s.scanCell fuel row col).map
        (fun st => (st, foundEntry (getPoint (col : Int) (row : Int)) res)) := by
  rw [state.scanCellFound, state.scanCell, h]
  cases res with
  | none => rfl
  | some shp =>
    simp only [bind, Except.bind, Except.map]
    cases s1.hasShape shp with
    | error e => rfl
    | ok known =>
      cases known <;> rfl

theorem scanCellFound_erase (fuel : Nat) (s : state) (row col : Nat) :
    (s.scanCellFound fuel row col).map Prod.fst = s.scanCell fuel row col := by
  cases hL : s.findShape fuel (getPoint (col : Int) (row : Int)) with
  | error e =>
    rw [state.scanCellFound, state.scanCell, hL]
    rfl
  | ok r =>
    obtain ⟨s1, res⟩ := r
    rw [scanCellFound_of fuel s row col s1 res hL]
    cases s.scanCell fuel row col <;> rfl

theorem findShapesFound_erase (fuel : Nat) (s : state) :
    (s.findShapesFound fuel).map Prod.fst = s.findShapes fuel := by
  unfold state.findShapesFound state.findShapes
  refine foldlM_erase _ _ ?_ _ (s, [])
  intro a row
  refine foldlM_erase _ _ ?_ _ a
  intro a' col
  have h := scanCellFound_erase fuel a'.1 row col
  rw [← h]
  cases a'.1.scanCellFound fuel row col with
  | error e => rfl
  | ok r => rfl

theorem scanFound_inv (fuel : Nat) (rows cols : Int) (hfuel : rows.toNat * cols.toNat < fuel)
    (J : state → List (point × shape) → Prop)
    (hstep : ∀ s found r c s1 res s', r < rows.toNat → c < cols.toNat →
      ScanInv rows cols s → J s found → s.visitedBefore r c →
      s.findShape fuel (getPoint (c : Int) (r : Int)) = .ok (s1, res) →
      s.scanCell fuel r c = .ok s' →
      J s' (found ++ foundEntry (getPoint (c : Int) (r : Int)) res))
    (s : state) (hI : ScanInv rows cols s) (hJ : J s []) :
    ∃ s' found, s.findShapesFound fuel = .ok (s', found) ∧ s.findShapes fuel = .ok s' ∧
      ScanInv rows cols s' ∧ J s' found ∧
      ∀ r c, r < rows.toNat → c < cols.toNat → s'.cellAt r c = some visited := by
  have hfold : ∃ a, s.findShapesFound fuel = .ok a ∧
      (ScanInv rows cols a.1 ∧ J a.1 a.2 ∧ a.1.visitedBefore rows.toNat 0) := by
    unfold state.findShapesFound
    rw [hI.rows, hI.cols]
    refine range_foldlM_inv
      (fun r (a : state × List (point × shape)) =>
        ScanInv rows cols a.1 ∧ J a.1 a.2 ∧ a.1.visitedBefore r 0) _ rows.toNat ?_
      (s, []) ⟨hI, hJ, by
        intro r' c' _ _ hlt
        omega⟩
    intro r a hr ⟨hst, hJst, hvb⟩
    obtain ⟨a', hrun', hI', hJ', hvis'⟩ := range_foldlM_inv
      (fun c (a : state × List (point × shape)) =>
        ScanInv rows cols a.1 ∧ J a.1 a.2 ∧ a.1.visitedBefore r c)
      (fun (acc' : state × List (point × shape)) col => do
        let (st, l) ← acc'.1.scanCellFound fuel r col
        pure (st, acc'.2 ++ l)) cols.toNat
      (by
        intro c a2 hc ⟨hst2, hJst2, hvb2⟩
        obtain ⟨st3, hrun3, hI3, hvb3⟩ :=
          scanCell_visits fuel rows cols hfuel a2.1 r c hr hc hst2 hvb2
        obtain ⟨s1, res, _, hfind, _⟩ :=
          scanCell_spec fuel a2.1 r c hst2.rect (by rw [hst2.rows, hst2.cols]; exact hfuel)
            hst2.regOK hst2.classes
        refine ⟨(st3, a2.2 ++ foundEntry (getPoint (c : Int) (r : Int)) res), ?_, hI3,
          hstep a2.1 a2.2 r c s1 res st3 hr hc hst2 hJst2 hvb2 hfind hrun3, hvb3⟩
        simp only [scanCellFound_of fuel a2.1 r c s1 res hfind, hrun3]
        rfl)
      a ⟨hst, hJst, hvb⟩
    refine ⟨a', hrun', hI', hJ', ?_⟩
    intro r' c' hr' hc' hlt
    refine hvis' r' c' hr' hc' ?_
    rcases hlt with h | ⟨_, h⟩
    · rcases Nat.lt_succ_iff_lt_or_eq.mp h with h | h
      · exact Or.inl h
      · exact Or.inr ⟨h, by rw [hI'.cols] at hc'; exact hc'⟩
    · omega
  obtain ⟨⟨s', found⟩, hrun, hI', hJ', hvis⟩ := hfold
  refine ⟨s', found, hrun, ?_, hI', hJ', ?_⟩
  · rw [← findShapesFound_erase, hrun]
    rfl
  · intro r c hr hc
    exact hvis r c (by rw [hI'.rows]; exact hr) (by rw [hI'.cols]; exact hc) (Or.inl hr)

theorem shape_cells_iff_component (s0 s : state) (hW : Within s0 s) (p : point)
    (s1 : state) (shp : shape) (hP : Post s p s1 (some shp)) (S : point → Prop)
    (hcomp : ∀ c, s0.reachable (s0.norm p) c ↔ S c)
    (hocc : ∀ c, S c → s.occupied c) (c : point) :
    c ∈ shp.points.map s0.norm ↔ S c := by
  have hn : ∀ q, s.norm q = s0.norm q := hW.within_norm_eq
  have hmap : shp.points.map s.norm = shp.points.map s0.norm :=
    List.map_congr_left (fun q _ => hn q)
  obtain ⟨_, rest, hrest⟩ := hP.first shp rfl
  constructor
  · intro hc
    have h1 := hP.sound c (by simpa [resultPoints, hmap] using hc)
    rw [hn] at h1
    exact (hcomp c).mp (hW.within_reachable _ _ h1)
  · intro hc
    have h1 : s.reachable (s0.norm p) c :=
      reachable_lift s0 s hW.rows hW.cols _ (fun x hx => hocc x ((hcomp x).mp hx)) c
        ((hcomp c).mpr hc)
    rw [← hn] at h1
    have h2 := mem_of_reachable s p ((resultPoints (some shp)).map s.norm)
      (by simp [resultPoints, hrest]) hP.closed c h1
    simpa [resultPoints, hmap] using h2

theorem hasShape_singleton (s : state) (comp shp : shape) (k : Bool)
    (hsh : s.shapes = [comp]) (h : s.hasShape shp = .ok k) :
    comp.matchShape shp = .ok k := by
  rw [state.hasShape, hsh, hasShapeLoop] at h
  cases hm : comp.matchShape shp with
  | error e =>
    rw [hm] at h
    cases h
  | ok m =>
    rw [hm] at h
    cases m with
    | true =>
      injection h with h
      rw [← h]
    | false =>
      injection h with h
      rw [← h]

theorem two_groups_step (s0 : state) (U L : point → Prop) (hT : TwoGroups s0 U L)
    (fuel : Nat) (rows cols : Int) (hfuel : rows.toNat * cols.toNat < fuel)
    (s : state) (found : List (point × shape)) (r c : Nat) (s1 : state)
    (res : Option shape) (s' : state) (hr : r < rows.toNat) (hc : c < cols.toNat)
    (hI : ScanInv rows cols s) (hJ : groupsInv s0 U L s found) (hb : s.visitedBefore r c)
    (hfind : s.findShape fuel (getPoint (c : Int) (r : Int)) = .ok (s1, res))
    (hrun : s.scanCell fuel r c = .ok s') :
    groupsInv s0 U L s' (found ++ foundEntry (getPoint (c : Int) (r : Int)) res) := by
  obtain ⟨hW, hphase⟩ := hJ
  have hnorm : s.norm (getPoint (c : Int) (r : Int)) = getPoint (c : Int) (r : Int) :=
    norm_getPoint s hI.rect r c (by rw [hI.rows]; exact hr) (by rw [hI.cols]; exact hc)
  have hn0 : s0.norm (getPoint (c : Int) (r : Int)) = getPoint (c : Int) (r : Int) := by
    rw [← hW.within_norm_eq]
    exact hnorm
  have hI' : ScanInv rows cols s' := by
    obtain ⟨s'', hrun', hI''⟩ := scanCell_inv fuel _ _ hfuel s r c hI
    rw [hrun] at hrun'
    injection hrun' with e
    rw [e]
    exact hI''
  have hdisj : ∀ q, U q → L q → False := by
    intro q h1 h2
    have := hT.order q q h1 h2
    omega
  by_cases hocc : s.occupied (s.norm (getPoint (c : Int) (r : Int)))
  · obtain ⟨s1', shp, hfind', hP, hocc', hcase⟩ :=
      scanCell_occupied fuel _ _ hfuel s r c s' hI hocc hrun
    rw [hfind] at hfind'
    injection hfind' with e
    injection e with e1 e2
    subst e1 e2
    have hW' : Within s0 s' :=
      ⟨hI'.rect, hI'.rows.trans (hI.rows.symm.trans hW.rows),
        hI'.cols.trans (hI.cols.symm.trans hW.cols),
        fun q hq => hW.occ q (hP.frame.occupied q ((hocc' q).mp hq))⟩
    rw [hnorm] at hocc
    have hmap : shp.points.map s.norm = shp.points.map s0.norm :=
      List.map_congr_left (fun q _ => hW.within_norm_eq q)
    refine ⟨hW', ?_⟩
    rcases hphase with ⟨hf, hsh, hiff⟩ | ⟨u0, shpU, hf, hsh, hU0, hcellsU, hiff⟩ |
      ⟨_, _, _, _, _, _, _, _, _, _, _, _, hnone⟩
    · -- nothing found yet: the cell is the first cell of the group above
      have hUp : U (getPoint (c : Int) (r : Int)) := by
        rcases (hiff _).mp hocc with h | h
        · exact h
        · exfalso
          obtain ⟨u, hu⟩ := hT.someU
          have h1 := seed_is_first s r c hb u ((hiff u).mpr (Or.inl hu))
          have h2 := hT.order u _ hu h
          simp only [getPoint] at h2
          omega
      have hcells : ∀ q, q ∈ shp.points.map s0.norm ↔ U q :=
        shape_cells_iff_component s0 s hW _ s1 shp hP U
          (fun q => by rw [hn0]; exact hT.compU _ q hUp)
          (fun q hq => (hiff q).mpr (Or.inl hq))
      right; left
      refine ⟨getPoint (c : Int) (r : Int), shp, ?_, ?_, hUp, hcells, ?_⟩
      · rw [hf]
        rfl
      · rcases hcase with ⟨_, e⟩ | ⟨e, _⟩
        · rw [e, hsh]
          rfl
        · rw [hasShape_nil s1 shp (hP.frame.shapes.trans hsh)] at e
          cases e
      · intro q
        rw [hocc' q]
        constructor
        · intro hq
          rcases (hiff q).mp (hP.frame.occupied q hq) with hA | hB
          · exfalso
            have hq' : q ∈ (resultPoints (some shp)).map s.norm := by
              simp only [resultPoints, hmap]
              exact (hcells q).mpr hA
            exact occupied_ne_visited s1 q hq (hP.marked q hq')
          · exact hB
        · intro hB
          refine hP.kept q ((hiff q).mpr (Or.inr hB)) ?_
          simp only [resultPoints, hmap]
          intro hq
          exact hdisj q ((hcells q).mp hq) hB
    · -- the group above is found: the cell is the first cell of the group below
      have hLp : L (getPoint (c : Int) (r : Int)) := (hiff _).mp hocc
      have hcells : ∀ q, q ∈ shp.points.map s0.norm ↔ L q :=
        shape_cells_iff_component s0 s hW _ s1 shp hP L
          (fun q => by rw [hn0]; exact hT.compL _ q hLp)
          (fun q hq => (hiff q).mpr hq)
      have hnone : ∀ q, ¬ s'.occupied q := by
        intro q hq
        have hq1 := (hocc' q).mp hq
        have hqL := (hiff q).mp (hP.frame.occupied q hq1)
        have hq' : q ∈ (resultPoints (some shp)).map s.norm := by
          simp only [resultPoints, hmap]
          exact (hcells q).mpr hqL
        exact occupied_ne_visited s1 q hq1 (hP.marked q hq')
      right; right
      rcases hcase with ⟨hk, e⟩ | ⟨hk, e⟩
      · refine ⟨u0, shpU, getPoint (c : Int) (r : Int), shp, false, ?_, hU0, hLp, hcellsU,
          hcells, hasShape_singleton s1 shpU shp false (hP.frame.shapes.trans hsh) hk, ?_,
          hnone⟩
        · rw [hf]
          rfl
        · rw [e, hsh]
          rfl
      · refine ⟨u0, shpU, getPoint (c : Int) (r : Int), shp, true, ?_, hU0, hLp, hcellsU,
          hcells, hasShape_singleton s1 shpU shp true (hP.frame.shapes.trans hsh) hk, ?_,
          hnone⟩
        · rw [hf]
          rfl
        · rw [e, hsh]
          rfl
    · exact absurd hocc (hnone _)
  · obtain ⟨hsh, hiff⟩ := scanCell_unoccupied fuel _ _ hfuel s r c s' hI hocc hrun
    have hres : res = none := by
      obtain ⟨s1', res', hfind', hP⟩ := findShape_post fuel s (getPoint (c : Int) (r : Int))
        hI.rect (lt_of_le_of_lt (unvisited_le_cells s) (by rw [hI.rows, hI.cols]; exact hfuel))
      rw [hfind] at hfind'
      injection hfind' with e
      injection e with e1 e2
      subst e1 e2
      cases res with
      | none => rfl
      | some shp => exact absurd (hP.first shp rfl).1 hocc
    subst hres
    have hW' : Within s0 s' :=
      ⟨hI'.rect, hI'.rows.trans (hI.rows.symm.trans hW.rows),
        hI'.cols.trans (hI.cols.symm.trans hW.cols),
        fun q hq => hW.occ q ((hiff q).mp hq)⟩
    simp only [foundEntry, List.append_nil]
    refine ⟨hW', ?_⟩
    rcases hphase with ⟨h0, h1, h2⟩ | ⟨u0, shpU, h0, h1, h2, h3, h4⟩ |
      ⟨u0, shpU, v0, shpL, m, h0, h1, h2, h3, h4, h5, h6, h7⟩
    · exact Or.inl ⟨h0, hsh.trans h1, fun q => (hiff q).trans (h2 q)⟩
    · exact Or.inr (Or.inl ⟨u0, shpU, h0, hsh.trans h1, h2, h3,
        fun q => (hiff q).trans (h4 q)⟩)
    · exact Or.inr (Or.inr ⟨u0, shpU, v0, shpL, m, h0, h1, h2, h3, h4, h5, hsh.trans h6,
        fun q hq => h7 q ((hiff q).mp hq)⟩)

theorem two_groups_scan (g : List (List Int)) (hg : rectangularGrid g) (U L : point → Prop)
    (hT : TwoGroups (initState g) U L) :
    ∃ st found, New g = .ok (.ok st) ∧
      (initState g).findShapesFound (g.length * (g.headD []).length + 1) = .ok (st, found) ∧
      ScanInv (g.length : Int) ((g.headD []).length : Int) st ∧
      ((∃ u0 shpU, found = [(u0, shpU)] ∧ st.shapes = [shpU] ∧ U u0 ∧
          (∀ c, c ∈ shpU.points.map (initState g).norm ↔ U c) ∧ ∀ c, ¬ L c) ∨
       (∃ u0 shpU v0 shpL m, found = [(u0, shpU), (v0, shpL)] ∧ U u0 ∧ L v0 ∧
          (∀ c, c ∈ shpU.points.map (initState g).norm ↔ U c) ∧
          (∀ c, c ∈ shpL.points.map (initState g).norm ↔ L c) ∧
          shpU.matchShape shpL = .ok m ∧
          st.shapes = (if m = true then [shpU] else [shpU, shpL]))) := by
  have hI0 := initState_scanInv g hg
  obtain ⟨st, found, hrunF, hrun, hI, ⟨hW, hphase⟩, hvis⟩ := scanFound_inv
    (g.length * (g.headD []).length + 1) (g.length : Int) ((g.headD []).length : Int)
    (by simp) (groupsInv (initState g) U L)
    (fun s found r c s1 res s' hr hc hI hJ hb hfind hrun =>
      two_groups_step (initState g) U L hT _ _ _ (by simp) s found r c s1 res s' hr hc hI hJ
        hb hfind hrun)
    (initState g) hI0
    ⟨Within.within_refl _ hI0.rect, Or.inl ⟨rfl, rfl, fun c => hT.occ c⟩⟩
  have hvis' : ∀ r c, r < g.length → c < (g.headD []).length →
      st.cellAt r c = some visited :=
    fun r c hr hc => hvis r c (by simpa using hr) (by simpa using hc)
  have hnew : New g = .ok (.ok st) := by
    rw [New_eq_scan g hg, hrun]
    rfl
  refine ⟨st, found, hnew, hrunF, hI, ?_⟩
  rcases hphase with ⟨_, _, hiff⟩ | ⟨u0, shpU, hf, hsh, hU0, hcells, hiff⟩ |
    ⟨u0, shpU, v0, shpL, m, hf, hU0, hL0, hcU, hcL, hm, hsh, _⟩
  · exfalso
    obtain ⟨u, hu⟩ := hT.someU
    exact visited_not_occupied g hg st hvis' u ((hT.occ u).mpr (Or.inl hu)).1
      ((hiff u).mpr (Or.inl hu))
  · left
    refine ⟨u0, shpU, hf, hsh, hU0, hcells, fun q hq => ?_⟩
    exact visited_not_occupied g hg st hvis' q ((hT.occ q).mpr (Or.inr hq)).1
      ((hiff q).mpr hq)
  · right
    exact ⟨u0, shpU, v0, shpL, m, hf, hU0, hL0, hcU, hcL, hm, hsh⟩

theorem Print_pair (s : state) (a b : shape) (x y : String)
    (hsh : s.shapes = [a, b]) (ha : a.print s.rows s.cols = .ok x)
    (hb : b.print s.rows s.cols = .ok y) : s.Print = .ok (x ++ y) := by
  unfold state.Print
  rw [hsh]
  simp only [List.foldlM_cons, List.foldlM_nil, ha, hb, bind, Except.bind, pure, Except.pure,
    String.empty_append]

theorem blank_not_occupied (g : List (List Int)) (b : Nat) (h : BlankRowSplit g b) (x : Int) :
    ¬ (initState g).occupied ⟨x, (b : Int)⟩ := by
  rintro ⟨⟨h1, h2, _, _⟩, hcell⟩
  have h1' : (0 : Int) ≤ x := h1
  have h2' : x < ((g.headD []).length : Int) := h2
  simp only [Int.toNat_ofNat] at hcell
  exact h.blank x.toNat (List.mem_range.mpr (by omega)) hcell

theorem edgeLinked_iff (g : List (List Int)) (hg : rectangularGrid g) :
    edgeLinked g ↔ ∃ x, (initState g).occupied ⟨x, 0⟩ ∧
      (initState g).occupied ⟨x, (initState g).rows - 1⟩ := by
  have hlen : 0 < g.length := List.length_pos.mpr hg.1
  have hrows : (initState g).rows = (g.length : Int) := rfl
  have hcols : (initState g).cols = ((g.headD []).length : Int) := rfl
  have hlast : ((g.length : Int) - 1).toNat = g.length - 1 := by omega
  constructor
  · rintro ⟨c, hc, h0, h1⟩
    have hc' := List.mem_range.mp hc
    refine ⟨(c : Int), ⟨⟨?_, ?_, ?_, ?_⟩, ?_⟩, ⟨⟨?_, ?_, ?_, ?_⟩, ?_⟩⟩
    · simp
    · rw [hcols]; simp only; omega
    · simp
    · rw [hrows]; simp only; omega
    · simpa using h0
    · simp
    · rw [hcols]; simp only; omega
    · rw [hrows]; simp only; omega
    · rw [hrows]; simp only; omega
    · simp only [hrows, hlast, Int.toNat_ofNat]
      exact h1
  · rintro ⟨x, ⟨⟨h1, h2, _, _⟩, hcell0⟩, ⟨_, hcell1⟩⟩
    have h1' : (0 : Int) ≤ x := h1
    have h2' : x < ((g.headD []).length : Int) := h2
    refine ⟨x.toNat, List.mem_range.mpr (by omega), ?_, ?_⟩
    · simpa using hcell0
    · simp only [hrows, hlast] at hcell1
      exact hcell1

theorem joined_across_edge (g : List (List Int)) (b : Nat) (h : BlankRowSplit g b)
    (x : Int) (h0 : (initState g).occupied ⟨x, 0⟩)
    (h1 : (initState g).occupied ⟨x, (initState g).rows - 1⟩) (u v : point)
    (hu : (initState g).occupied u) (hv : (initState g).occupied v) :
    (initState g).reachable u v := by
  obtain ⟨u', hu', hub⟩ := h.above
  obtain ⟨v', hv', hvb⟩ := h.below
  have hb0 : (0 : Int) < (b : Int) := by
    have := hu'.1.2.2.1
    omega
  have hb1 : (b : Int) < (initState g).rows - 1 := by
    have := hv'.1.2.2.2
    omega
  have hlink : (initState g).reachable ⟨x, (initState g).rows - 1⟩ ⟨x, 0⟩ :=
    reachable_step _ _ _ _ (reachable_refl _ _ h1)
      (adjacent_last_first_row (initState g).rows (initState g).cols x) h0
  have toTop : ∀ q, (initState g).occupied q → (initState g).reachable q ⟨x, 0⟩ := by
    intro q hq
    have hne : q.y ≠ (b : Int) := by
      intro e
      apply blank_not_occupied g b h q.x
      rw [← e]
      exact hq
    by_cases hlt : q.y < (b : Int)
    · exact h.aboveJoined q _ hq hlt h0 hb0
    · exact reachable_trans _ _ _ _
        (h.belowJoined q _ hq (by omega) h1 hb1) hlink
  exact reachable_trans _ _ _ _ (toTop u hu) (reachable_symm _ _ _ (toTop v hv))

theorem points_ne_nil_of_cell (shp : shape) (f : point → point) (c : point)
    (h : c ∈ shp.points.map f) : shp.points ≠ [] := by
  intro e
  rw [e] at h
  simp at h

/-- C16, amended: a grid whose occupied cells are split by the completely blank row `b`
into a connected group above it and a connected group below it.  The blank row breaks
adjacency across itself, but the last row is adjacent to the first across the edge.  If no
column is occupied in both the first and the last row, the scan detects two separate
components: `findShape` returns a shape for exactly two seeds, one above and one below
the blank row and not reachable from one another, each shape holding exactly the occupied
cells on its side; the registry holds both shapes and `Print` writes their two blocks
if the first does not match the second, and holds the first alone and `Print` writes its
one block if it does.  If some column is occupied in both the first and the last row, all
occupied cells are one component: `findShape` returns a shape for exactly one seed, the
shape holds all occupied cells, the registry holds it alone and `Print` writes one
block. -/
theorem blank_row_split_or_joined (g : List (List Int)) (hg : rectangularGrid g) (b : Nat)
    (h : BlankRowSplit g b) :
    ∃ st found, New g = .ok (.ok st) ∧
      (initState g).findShapesFound (g.length * (g.headD []).length + 1) = .ok (st, found) ∧
      (¬ edgeLinked g →
        ∃ u0 shpU v0 shpL m blockU blockL,
          found = [(u0, shpU), (v0, shpL)] ∧
          ((initState g).occupied u0 ∧ u0.y < (b : Int)) ∧
          ((initState g).occupied v0 ∧ (b : Int) < v0.y) ∧
          ¬ (initState g).reachable u0 v0 ∧
          (∀ c, c ∈ shpU.points.map (initState g).norm ↔
            ((initState g).occupied c ∧ c.y < (b : Int))) ∧
          (∀ c, c ∈ shpL.points.map (initState g).norm ↔
            ((initState g).occupied c ∧ (b : Int) < c.y)) ∧
          shpU.matchShape shpL = .ok m ∧
          shpU.print st.rows st.cols = .ok blockU ∧
          shpL.print st.rows st.cols = .ok blockL ∧
          st.shapes = (if m = true then [shpU] else [shpU, shpL]) ∧
          st.Print = .ok (if m = true then blockU else blockU ++ blockL)) ∧
      (edgeLinked g →
        ∃ u0 shp block, found = [(u0, shp)] ∧
          (∀ u v, (initState g).occupied u → (initState g).occupied v →
            (initState g).reachable u v) ∧
          (∀ c, c ∈ shp.points.map (initState g).norm ↔ (initState g).occupied c) ∧
          st.shapes = [shp] ∧ shp.print st.rows st.cols = .ok block ∧
          st.Print = .ok block) := by
  have hblank := blank_not_occupied g b h
  by_cases hl : edgeLinked g
  · obtain ⟨x, h0, h1⟩ := (edgeLinked_iff g hg).mp hl
    have hjoin := joined_across_edge g b h x h0 h1
    have hT : TwoGroups (initState g) (fun c => (initState g).occupied c) (fun _ => False) := by
      refine ⟨fun c => by simp, ?_, fun _ _ hf => hf.elim, fun _ _ _ hf => hf.elim, ?_⟩
      · intro u c hu
        exact ⟨fun hr => reachable_occupied _ _ _ hr, fun hc => hjoin u c hu hc⟩
      · obtain ⟨u, hu, _⟩ := h.above
        exact ⟨u, hu⟩
    obtain ⟨st, found, hnew, hrunF, hI, hres⟩ := two_groups_scan g hg _ _ hT
    refine ⟨st, found, hnew, hrunF, fun hno => absurd hl hno, fun _ => ?_⟩
    rcases hres with ⟨u0, shp, hf, hsh, hU0, hcells, _⟩ | ⟨_, _, _, _, _, _, _, hL0, _⟩
    · obtain ⟨block, hblock⟩ := print_ok st hI.rect shp
        (points_ne_nil_of_cell shp _ u0 ((hcells u0).mpr hU0))
      exact ⟨u0, shp, block, hf, hjoin, hcells, hsh, hblock,
        Print_singleton st shp block hsh hblock⟩
    · exact hL0.elim
  · have hno : ∀ x, ¬ ((initState g).occupied ⟨x, 0⟩ ∧
        (initState g).occupied ⟨x, (initState g).rows - 1⟩) :=
      fun x hx => hl ((edgeLinked_iff g hg).mpr ⟨x, hx⟩)
    have hT : TwoGroups (initState g)
        (fun c => (initState g).occupied c ∧ c.y < (b : Int))
        (fun c => (initState g).occupied c ∧ (b : Int) < c.y) := by
      refine ⟨?_, ?_, ?_, ?_, h.above⟩
      · intro c
        constructor
        · intro hc
          have hne : c.y ≠ (b : Int) := by
            intro e
            apply hblank c.x
            rw [← e]
            exact hc
          by_cases hlt : c.y < (b : Int)
          · exact Or.inl ⟨hc, hlt⟩
          · exact Or.inr ⟨hc, by omega⟩
        · rintro (hc | hc) <;> exact hc.1
      · intro u c hu
        exact ⟨fun hr => ⟨reachable_occupied _ _ _ hr,
          stays_above (initState g) (b : Int) hblank hno u c hr hu.2⟩,
          fun hc => h.aboveJoined u c hu.1 hu.2 hc.1 hc.2⟩
      · intro v c hv
        exact ⟨fun hr => ⟨reachable_occupied _ _ _ hr,
          stays_below (initState g) (b : Int) hblank hno v c hr hv.2⟩,
          fun hc => h.belowJoined v c hv.1 hv.2 hc.1 hc.2⟩
      · intro u v hu hv
        have := hu.2
        have := hv.2
        omega
    obtain ⟨st, found, hnew, hrunF, hI, hres⟩ := two_groups_scan g hg _ _ hT
    refine ⟨st, found, hnew, hrunF, fun _ => ?_, fun hyes => absurd hyes hl⟩
    rcases hres with ⟨_, _, _, _, _, _, hnoL⟩ |
      ⟨u0, shpU, v0, shpL, m, hf, hU0, hL0, hcU, hcL, hm, hsh⟩
    · obtain ⟨v, hv⟩ := h.below
      exact absurd hv (hnoL v)
    · obtain ⟨blockU, hbU⟩ := print_ok st hI.rect shpU
        (points_ne_nil_of_cell shpU _ u0 ((hcU u0).mpr hU0))
      obtain ⟨blockL, hbL⟩ := print_ok st hI.rect shpL
        (points_ne_nil_of_cell shpL _ v0 ((hcL v0).mpr hL0))
      refine ⟨u0, shpU, v0, shpL, m, blockU, blockL, hf, hU0, hL0, ?_, hcU, hcL, hm, hbU, hbL,
        hsh, ?_⟩
      · intro hr
        have := ((hT.compU u0 v0 hU0).mp hr).2
        have := hL0.2
        omega
      · cases m with
        | true =>
          simp only [if_true] at hsh ⊢
          exact Print_singleton st shpU blockU hsh hbU
        | false =>
          simp only [Bool.false_eq_true, if_false] at hsh ⊢
          exact Print_pair st shpU shpL blockU blockL hsh hbU hbL

theorem blankRowSplit_of_components (g : List (List Int)) (b : Nat) (a0 b0 : point)
    (A B : List point)
    (hblank : ∀ c ∈ List.range (g.headD []).length, (initState g).cellAt b c ≠ some set)
    (hA : ∀ c, (initState g).reachable a0 c ↔ c ∈ A)
    (hB : ∀ c, (initState g).reachable b0 c ↔ c ∈ B)
    (hcover : ∀ r ∈ List.range g.length, ∀ c ∈ List.range (g.headD []).length,
      (initState g).cellAt r c = some set →
        (r < b → (⟨(c : Int), (r : Int)⟩ : point) ∈ A) ∧
        (b < r → (⟨(c : Int), (r : Int)⟩ : point) ∈ B))
    (habove : ∃ u ∈ A, u.y < (b : Int)) (hbelow : ∃ v ∈ B, (b : Int) < v.y) :
    BlankRowSplit g b := by
  have hcov : ∀ q, (initState g).occupied q →
      (q.y < (b : Int) → q ∈ A) ∧ ((b : Int) < q.y → q ∈ B) := by
    rintro q ⟨⟨h1, h2, h3, h4⟩, hcell⟩
    have h2' : q.x < ((g.headD []).length : Int) := h2
    have h4' : q.y < (g.length : Int) := h4
    have := hcover q.y.toNat (List.mem_range.mpr (by omega)) q.x.toNat
      (List.mem_range.mpr (by omega)) hcell
    rw [Int.toNat_of_nonneg h1, Int.toNat_of_nonneg h3] at this
    exact ⟨fun hlt => this.1 (by omega), fun hlt => this.2 (by omega)⟩
  refine ⟨hblank, ?_, ?_, ?_, ?_⟩
  · obtain ⟨u, hu, hlt⟩ := habove
    exact ⟨u, reachable_occupied _ _ _ ((hA u).mpr hu), hlt⟩
  · obtain ⟨v, hv, hlt⟩ := hbelow
    exact ⟨v, reachable_occupied _ _ _ ((hB v).mpr hv), hlt⟩
  · intro u v hu hul hv hvl
    exact reachable_trans _ _ _ _
      (reachable_symm _ _ _ ((hA u).mpr ((hcov u hu).1 hul)))
      ((hA v).mpr ((hcov v hv).1 hvl))
  · intro u v hu hul hv hvl
    exact reachable_trans _ _ _ _
      (reachable_symm _ _ _ ((hB u).mpr ((hcov u hu).2 hul)))
      ((hB v).mpr ((hcov v hv).2 hvl))

theorem splitRowGrid_split : BlankRowSplit splitRowGrid 2 :=
  blankRowSplit_of_components splitRowGrid 2 ⟨0, 0⟩ ⟨2, 4⟩ [⟨0, 0⟩, ⟨1, 0⟩] [⟨2, 4⟩]
    (by decide)
    (fun c => component_of_findShape 26 (initState splitRowGrid) (by decide) (by decide)
      ⟨0, 0⟩
      ⟨[[2, 2, 2, 0, 2], [2, 2, 0, 0, 0], [0, 0, 0, 0, 0], [0, 0, 0, 0, 0], [2, 2, 1, 0, 0]],
        [], 5, 5⟩
      ⟨[⟨0, 0⟩, ⟨1, 0⟩]⟩ (by decide) c)
    (fun c => component_of_findShape 26 (initState splitRowGrid) (by decide) (by decide)
      ⟨2, 4⟩
      ⟨[[1, 1, 2, 0, 0], [0, 0, 0, 0, 0], [0, 0, 0, 0, 0], [0, 0, 2, 0, 0], [0, 2, 2, 2, 0]],
        [], 5, 5⟩
      ⟨[⟨2, 4⟩]⟩ (by decide) c)
    (by decide) (by decide) (by decide)

theorem blankRowGrid_split : BlankRowSplit blankRowGrid 3 :=
  blankRowSplit_of_components blankRowGrid 3 ⟨1, 0⟩ ⟨1, 0⟩
    (blankRowShape.points.map (initState blankRowGrid).norm)
    (blankRowShape.points.map (initState blankRowGrid).norm)
    (by decide)
    (fun c => component_of_findShape 26 (initState blankRowGrid) (by decide) (by decide)
      ⟨1, 0⟩
      ⟨[[2, 2, 2, 2, 2], [2, 2, 2, 2, 2], [2, 2, 2, 2, 2], [0, 2, 2, 2, 0], [2, 2, 2, 2, 0]],
        [], 5, 5⟩
      blankRowShape (by decide) c)
    (fun c => component_of_findShape 26 (initState blankRowGrid) (by decide) (by decide)
      ⟨1, 0⟩
      ⟨[[2, 2, 2, 2, 2], [2, 2, 2, 2, 2], [2, 2, 2, 2, 2], [0, 2, 2, 2, 0], [2, 2, 2, 2, 0]],
        [], 5, 5⟩
      blankRowShape (by decide) c)
    (by decide) (by decide) (by decide)

/-- C16, amended, at two 5 × 5 grids.  In `splitRowGrid` row 2 is blank and no column is
occupied in both row 0 and row 4: the scan finds two shapes, from the seeds `(0, 0)` and
`(2, 4)`, and `Print` writes two blocks.  In the grid of `TestIntegration` row 3 is blank
and column 1 is occupied in rows 0 and 4: the scan finds one shape, from the seed
`(1, 0)`, and `Print` writes one block of five rows. -/
theorem blank_row_split_or_joined_witness :
    (rectangularGrid splitRowGrid ∧ BlankRowSplit splitRowGrid 2 ∧
      ¬ edgeLinked splitRowGrid ∧
    (∃ st found, New splitRowGrid = .ok (.ok st) ∧
      (initState splitRowGrid).findShapesFound (splitRowGrid.length * (splitRowGrid.headD []).length + 1) =
        .ok (st, found) ∧
      (¬ edgeLinked splitRowGrid →
        ∃ u0 shpU v0 shpL m blockU blockL,
          found = [(u0, shpU), (v0, shpL)] ∧
          ((initState splitRowGrid).occupied u0 ∧ u0.y < ((2 : Nat) : Int)) ∧
          ((initState splitRowGrid).occupied v0 ∧ ((2 : Nat) : Int) < v0.y) ∧
          ¬ (initState splitRowGrid).reachable u0 v0 ∧
          (∀ c, c ∈ shpU.points.map (initState splitRowGrid).norm ↔
            ((initState splitRowGrid).occupied c ∧ c.y < ((2 : Nat) : Int))) ∧
          (∀ c, c ∈ shpL.points.map (initState splitRowGrid).norm ↔
            ((initState splitRowGrid).occupied c ∧ ((2 : Nat) : Int) < c.y)) ∧
          shpU.matchShape shpL = .ok m ∧
          shpU.print st.rows st.cols = .ok blockU ∧
          shpL.print st.rows st.cols = .ok blockL ∧
          st.shapes = (if m = true then [shpU] else [shpU, shpL]) ∧
          st.Print = .ok (if m = true then blockU else blockU ++ blockL)) ∧
      (edgeLinked splitRowGrid →
        ∃ u0 shp block, found = [(u0, shp)] ∧
          (∀ u v, (initState splitRowGrid).occupied u → (initState splitRowGrid).occupied v →
            (initState splitRowGrid).reachable u v) ∧
          (∀ c, c ∈ shp.points.map (initState splitRowGrid).norm ↔ (initState splitRowGrid).occupied c) ∧
          st.shapes = [shp] ∧ shp.print st.rows st.cols = .ok block ∧
          st.Print = .ok block))) ∧
    (rectangularGrid blankRowGrid ∧ BlankRowSplit blankRowGrid 3 ∧ edgeLinked blankRowGrid ∧
    (∃ st found, New blankRowGrid = .ok (.ok st) ∧
      (initState blankRowGrid).findShapesFound (blankRowGrid.length * (blankRowGrid.headD []).length + 1) =
        .ok (st, found) ∧
      (¬ edgeLinked blankRowGrid →
        ∃ u0 shpU v0 shpL m blockU blockL,
          found = [(u0, shpU), (v0, shpL)] ∧
          ((initState blankRowGrid).occupied u0 ∧ u0.y < ((3 : Nat) : Int)) ∧
          ((initState blankRowGrid).occupied v0 ∧ ((3 : Nat) : Int) < v0.y) ∧
          ¬ (initState blankRowGrid).reachable u0 v0 ∧
          (∀ c, c ∈ shpU.points.map (initState blankRowGrid).norm ↔
            ((initState blankRowGrid).occupied c ∧ c.y < ((3 : Nat) : Int))) ∧
          (∀ c, c ∈ shpL.points.map (initState blankRowGrid).norm ↔
            ((initState blankRowGrid).occupied c ∧ ((3 : Nat) : Int) < c.y)) ∧
          shpU.matchShape shpL = .ok m ∧
          shpU.print st.rows st.cols = .ok blockU ∧
          shpL.print st.rows st.cols = .ok blockL ∧
          st.shapes = (if m = true then [shpU] else [shpU, shpL]) ∧
          st.Print = .ok (if m = true then blockU else blockU ++ blockL)) ∧
      (edgeLinked blankRowGrid →
        ∃ u0 shp block, found = [(u0, shp)] ∧
          (∀ u v, (initState blankRowGrid).occupied u → (initState blankRowGrid).occupied v →
            (initState blankRowGrid).reachable u v) ∧
          (∀ c, c ∈ shp.points.map (initState blankRowGrid).norm ↔ (initState blankRowGrid).occupied c) ∧
          st.shapes = [shp] ∧ shp.print st.rows st.cols = .ok block ∧
          st.Print = .ok block))) ∧
    (initState splitRowGrid).findShapesFound 26 =
      .ok (⟨[[2, 2, 2, 2, 2], [2, 2, 2, 2, 2], [2, 2, 2, 2, 2], [2, 2, 2, 2, 2],
        [2, 2, 2, 2, 2]], [⟨[⟨0, 0⟩, ⟨1, 0⟩]⟩, ⟨[⟨2, 4⟩]⟩], 5, 5⟩,
        [(⟨0, 0⟩, ⟨[⟨0, 0⟩, ⟨1, 0⟩]⟩), (⟨2, 4⟩, ⟨[⟨2, 4⟩]⟩)]) ∧
    (∃ st, New splitRowGrid = .ok (.ok st) ∧
      st.Print = .ok "    XX\n------\n    X\n-----\n") ∧
    (initState blankRowGrid).findShapesFound 26 =
      .ok (⟨[[2, 2, 2, 2, 2], [2, 2, 2, 2, 2], [2, 2, 2, 2, 2], [2, 2, 2, 2, 2],
        [2, 2, 2, 2, 2]], [blankRowShape], 5, 5⟩, [(⟨1, 0⟩, blankRowShape)]) ∧
    (∃ st, New blankRowGrid = .ok (.ok st) ∧
      st.Print = .ok "    XXX\n    X X\n    XXX\n       \n    XX \n-------\n") :=
  ⟨⟨by decide, splitRowGrid_split, by decide,
      blank_row_split_or_joined splitRowGrid (by decide) 2 splitRowGrid_split⟩,
    ⟨by decide, blankRowGrid_split, by decide,
      blank_row_split_or_joined blankRowGrid (by decide) 3 blankRowGrid_split⟩,
    by decide,
    ⟨⟨[[2, 2, 2, 2, 2], [2, 2, 2, 2, 2], [2, 2, 2, 2, 2], [2, 2, 2, 2, 2],
      [2, 2, 2, 2, 2]], [⟨[⟨0, 0⟩, ⟨1, 0⟩]⟩, ⟨[⟨2, 4⟩]⟩], 5, 5⟩, by decide, by decide⟩,
    by decide,
    ⟨⟨[[2, 2, 2, 2, 2], [2, 2, 2, 2, 2], [2, 2, 2, 2, 2], [2, 2, 2, 2, 2],
      [2, 2, 2, 2, 2]], [blankRowShape], 5, 5⟩, by decide, by decide⟩⟩

end Shapes
